import Mathlib

/-!
Verification development for the tree-engine core of the Tree-Traversal-Animator
repository: the BST engine (src/App.jsx, `class BST`), the AVL engine
(src/App.jsx, `class AVLTree`) and the Red-Black engine
(src/logic/redBlackTree.js, `class RedBlackTree`), together with the
animation-step lists they emit.

Embedding conventions:
* JS `Node` objects form trees whose `parent` field always mirrors the
  `left`/`right` links, so a tree plus a root-to-node path captures exactly the
  state the imperative code navigates with parent pointers; the path plays the
  role of the `parent` chain.
* A JS null-dereference (`TypeError`) is modelled by returning `none`; all
  Red-Black and AVL operations that can dereference a possibly-null field are
  `Option`-valued.
* The `while` loops of `_fixInsert` / `_fixDelete` are written as fuel
  recursion; the fuel supplied by the entry points is larger than any possible
  iteration count, and running out of fuel is also modelled as `none`.
* Presentation-only fields (`x`, `y`, `scale`, and `height` on nodes of the
  Red-Black/BST engines where the logic never reads it) are omitted; the spec
  declares layout out of scope.
* Animation-step message strings are represented by the inductive `Msg`, one
  constructor per template string of the source, documented with the exact
  source text.
-/

set_option maxRecDepth 2000

namespace TreeAnim

/-- Node colors, `const RED = 'red'; const BLACK = 'black'` in redBlackTree.js.
The shared `Node` class defaults `color` to `'red'`. -/
inductive Color where
  | red
  | black
deriving DecidableEq, Repr

/-- The `state` tags used by `highlight-node` animation steps. -/
inductive HState where
  | visiting
  | found
  | inserted
  | pivot
  | visited
  | current
deriving DecidableEq, Repr

/-- One constructor per status-message template of the embedded operations.
Each constructor's comment gives the exact source string, with `{v}` standing
for the interpolated value. -/
inductive Msg where
  /-- redBlackTree.js: `Inserting {v} into Red-Black tree` -/
  | insertingRB (v : Int)
  /-- redBlackTree.js: `Inserted {v} as black root` -/
  | insertedAsBlackRoot (v : Int)
  /-- `{v} < {w}, going left` (RB insert/search, AVL insert/search) -/
  | goingLeft (v w : Int)
  /-- `{v} > {w}, going right` (RB insert/search, AVL insert/search) -/
  | goingRight (v w : Int)
  /-- `{v} already exists, skipping` (RB insert, AVL insert) -/
  | alreadyExists (v : Int)
  /-- redBlackTree.js: `Inserted {v} as red node, checking balance...` -/
  | insertedAsRedNode (v : Int)
  /-- redBlackTree.js: `Uncle is red, recoloring parent, uncle, and grandparent` -/
  | uncleRedRecolor
  /-- redBlackTree.js: `Left-Right case: rotate left at parent` -/
  | lrRotateLeftAtParent
  /-- redBlackTree.js: `Left-Left case: recolor and rotate right` -/
  | llRecolorRotateRight
  /-- redBlackTree.js: `Right-Left case: rotate right at parent` -/
  | rlRotateRightAtParent
  /-- redBlackTree.js: `Right-Right case: recolor and rotate left` -/
  | rrRecolorRotateLeft
  /-- redBlackTree.js: `Root recolored to black` -/
  | rootRecoloredBlack
  /-- redBlackTree.js: `Left rotation at node {v}` -/
  | leftRotationAt (v : Int)
  /-- redBlackTree.js: `Right rotation at node {v}` -/
  | rightRotationAt (v : Int)
  /-- redBlackTree.js: `Deleting {v} from Red-Black tree` -/
  | deletingRB (v : Int)
  /-- `Value {v} not found` (RB delete/search, AVL delete/search) -/
  | valueNotFound (v : Int)
  /-- redBlackTree.js: `Replaced {v} with successor` (note: the source reads
  `node.value` after assigning the successor's value into it, so `v` is the
  successor's value) -/
  | replacedWithSuccessor (v : Int)
  /-- redBlackTree.js: `Searching for {v} in Red-Black tree` -/
  | searchingRB (v : Int)
  /-- `Found {v}!` (all engines) -/
  | foundValue (v : Int)
  /-- `Starting inorder traversal (Left-Root-Right)` (all engines) -/
  | startInorder
  /-- `Inorder traversal complete: {list joined}` (all engines) -/
  | inorderComplete (vs : List Int)
  /-- App.jsx AVL: `Inserting {v} into AVL tree` -/
  | insertingAVL (v : Int)
  /-- App.jsx AVL: `Inserted {v}` -/
  | insertedAVL (v : Int)
  /-- App.jsx AVL: `Balance factor at {v}: {b}` -/
  | balanceFactorAt (v : Int) (b : Int)
  /-- App.jsx AVL: `Left-Left case detected at {v}` -/
  | llCaseDetectedAt (v : Int)
  /-- App.jsx AVL: `Right-Right case detected at {v}` -/
  | rrCaseDetectedAt (v : Int)
  /-- App.jsx AVL: `Left-Right case detected at {v}` -/
  | lrCaseDetectedAt (v : Int)
  /-- App.jsx AVL: `Right-Left case detected at {v}` -/
  | rlCaseDetectedAt (v : Int)
  /-- App.jsx AVL: `Right rotation at node {v} (LL case)` -/
  | rightRotationAtLL (v : Int)
  /-- App.jsx AVL: `Left rotation at node {v} (RR case)` -/
  | leftRotationAtRR (v : Int)
  /-- App.jsx AVL: `Deleting {v} from AVL tree` -/
  | deletingAVL (v : Int)
  /-- App.jsx AVL: `Searching for {v} in AVL tree` -/
  | searchingAVL (v : Int)
  /-- App.jsx BST: `Inserted {v} as root node` -/
  | insertedAsRootNode (v : Int)
  /-- App.jsx BST: `Inserted {v} successfully` -/
  | insertedSuccessfully (v : Int)
  /-- App.jsx BST: `Value {v} already exists in the tree` -/
  | valueAlreadyExistsInTree (v : Int)
  /-- App.jsx BST: `Searching for {v}` -/
  | searchingFor (v : Int)
  /-- App.jsx BST: `{v} not found in the tree` -/
  | notFoundInTree (v : Int)
  /-- App.jsx BST: `Deleting {v}` -/
  | deletingBST (v : Int)
  /-- App.jsx BST: `Deleted {v} successfully` -/
  | deletedSuccessfully (v : Int)
  /-- App.jsx BST: `{v} not found for deletion` -/
  | notFoundForDeletion (v : Int)
  /-- App.jsx BST: `Deleting leaf node {v}` -/
  | deletingLeafNode (v : Int)
  /-- App.jsx BST: `Deleting {v} (only right child)` -/
  | deletingOnlyRightChild (v : Int)
  /-- App.jsx BST: `Deleting {v} (only left child)` -/
  | deletingOnlyLeftChild (v : Int)
  /-- App.jsx BST: `Replacing {v} with {w}` -/
  | replacingWith (v w : Int)
deriving DecidableEq, Repr

/-- One animation step record, as pushed onto the `animations` arrays.
`ι` is the node-id type: `Nat` for the AVL and Red-Black engines, `String`
for the BST engine (`node-${counter}` ids). The numeric field is the
`duration` hint of the source object. -/
inductive Step (ι : Type) where
  /-- `{ type: 'update-status', message, duration }` -/
  | status (m : Msg) (duration : Nat)
  /-- `{ type: 'highlight-node', nodeId, state, duration }` -/
  | highlight (nodeId : ι) (state : HState) (duration : Nat)
  /-- `{ type: 'recolor-node', nodeId, color, duration }` -/
  | recolor (nodeId : ι) (color : Color) (duration : Nat)
  /-- `{ type: 'show-value', nodeId, value, duration }` -/
  | showValue (nodeId : ι) (value : Int) (duration : Nat)
deriving DecidableEq, Repr

/-! ## Red-Black engine (src/logic/redBlackTree.js) -/

/-- A Red-Black tree of `Node` objects: `value`, `id` (from `nodeIdCounter`),
`color`, and the `left`/`right` links. The `parent` back-reference mirrors the
links and is represented by paths from the root instead. -/
inductive RBT where
  | nil
  | node (l : RBT) (v : Int) (id : Nat) (c : Color) (r : RBT)
deriving DecidableEq, Repr

namespace RBT

/-- Number of nodes; used to size the fuel of the fix-up loops. -/
def size : RBT → Nat
  | nil => 0
  | node l _ _ _ r => size l + size r + 1

/-- Inorder list of values (the `result` array of `inorderTraversal`). -/
def inorderV : RBT → List Int
  | nil => []
  | node l v _ _ r => inorderV l ++ v :: inorderV r

/-- JS falsiness of a node reference (`!node`). -/
def isNil : RBT → Bool
  | nil => true
  | node _ _ _ _ _ => false

/-- `!n || n.color === BLACK`: a null link counts as black. -/
def isBlackOrNil : RBT → Bool
  | nil => true
  | node _ _ _ c _ => c = Color.black

end RBT

/-- A direction from a node to one of its children. -/
inductive Dir where
  | L
  | R
deriving DecidableEq, Repr

/-- A root-to-node path; stands for the chain of `parent` pointers. -/
abbrev Path := List Dir

/-- The subtree rooted at the node reached by following `p` from `t`;
`none` when the path walks past a null link. -/
def subtreeAt : RBT → Path → Option RBT
  | t, [] => some t
  | RBT.nil, _ :: _ => none
  | RBT.node l _ _ _ _, Dir.L :: p => subtreeAt l p
  | RBT.node _ _ _ _ r, Dir.R :: p => subtreeAt r p

/-- Replace the subtree at `p` by `s` (total; an invalid path leaves the
missing part unchanged, which never happens at call sites that have already
resolved the path). -/
def replaceAt : RBT → Path → RBT → RBT
  | _, [], s => s
  | RBT.nil, _ :: _, _ => RBT.nil
  | RBT.node l v id c r, Dir.L :: p, s => RBT.node (replaceAt l p s) v id c r
  | RBT.node l v id c r, Dir.R :: p, s => RBT.node l v id c (replaceAt r p s)

/-- Reversed-path (node-to-root) lookup: the head of the list is the direction
from the node's parent down to it, matching how the code walks `node.parent`. -/
def subtreeAtR (t : RBT) (rp : Path) : Option RBT :=
  subtreeAt t rp.reverse

/-- Reversed-path replacement. -/
def replaceAtR (t : RBT) (rp : Path) (s : RBT) : RBT :=
  replaceAt t rp.reverse s

/-- `x.color = c` on the node at reversed path `rp`. -/
def setColorAtR (t : RBT) (rp : Path) (c : Color) : RBT :=
  match subtreeAtR t rp with
  | some (RBT.node l v id _ r) => replaceAtR t rp (RBT.node l v id c r)
  | _ => t

/-- `node.value = w` on the node at (forward) path `p`. -/
def setValueAt (t : RBT) (p : Path) (w : Int) : RBT :=
  match subtreeAt t p with
  | some (RBT.node l _ id c r) => replaceAt t p (RBT.node l w id c r)
  | _ => t

/-- Ghost record of one `recolor-node` push: the node id, the color payload
the source put into the step, and the node's actual `color` field at the
moment of the push. The source pushes each recolor step next to the
assignment it describes, so `payload = actual` expresses that the step
reports the color truly assigned at that point of execution. -/
structure REvt where
  nodeId : Nat
  payload : Color
  actual : Color
deriving DecidableEq, Repr

abbrev RStep := Step Nat

/-- Push a `recolor-node` step for the node at reversed path `rp`, with the
given payload, recording the node's actual color as ghost data. -/
def pushRecolorAt (t : RBT) (rp : Path) (payload : Color) (dur : Nat) :
    Option (RStep × REvt) :=
  match subtreeAtR t rp with
  | some (RBT.node _ _ id c _) => some (Step.recolor id payload dur, ⟨id, payload, c⟩)
  | _ => none

namespace RedBlackTree

/-- `rotateLeft(node)` at reversed path `rp`: the source rewires
`node.right` up into `node`'s place (updating `this.root` when `node` has no
parent, which is the `rp = []` case of `replaceAtR`) and pushes a status step
(before mutating) and a pivot highlight of the right child. `none` models the
`TypeError` on `rightChild.left` when `node.right` is null. -/
def rotateLeft (t : RBT) (rp : Path) : Option (RBT × List RStep) :=
  match subtreeAtR t rp with
  | some (RBT.node a x xid xc (RBT.node b y yid yc c)) =>
    some (replaceAtR t rp (RBT.node (RBT.node a x xid xc b) y yid yc c),
      [Step.status (Msg.leftRotationAt x) 800, Step.highlight yid HState.pivot 600])
  | _ => none

/-- `rotateRight(node)` at reversed path `rp`; mirror of `rotateLeft`. -/
def rotateRight (t : RBT) (rp : Path) : Option (RBT × List RStep) :=
  match subtreeAtR t rp with
  | some (RBT.node (RBT.node a y yid yc b) x xid xc c) =>
    some (replaceAtR t rp (RBT.node a y yid yc (RBT.node b x xid xc c)),
      [Step.status (Msg.rightRotationAt x) 800, Step.highlight yid HState.pivot 600])
  | _ => none

/-- The code after `_fixInsert`'s loop: `if (this.root.color !== BLACK)` force
the root black and emit the recolor + status steps. `none` is the (unreachable
from `insert`) null-root dereference. -/
def fixInsertFinish (t : RBT) : Option (RBT × List RStep × List REvt) :=
  match t with
  | RBT.nil => none
  | RBT.node l v id c r =>
    if c = Color.black then some (t, [], [])
    else
      some (RBT.node l v id Color.black r,
        [Step.recolor id Color.black 500, Step.status Msg.rootRecoloredBlack 500],
        [⟨id, Color.black, Color.black⟩])

/-- `_fixInsert(node, animations)`. The cursor `node` is the node at reversed
path `rp`. Each recursive call is one iteration of the `while` loop
(`node.parent && node.parent.color === RED`); running out of fuel is `none`
(the callers pass more fuel than any iteration count can reach). `none` also
models the `TypeError` when `node.parent.parent` is null (red parent at the
root, impossible in runs the source supports). -/
def fixInsert : Nat → RBT → Path → Option (RBT × List RStep × List REvt)
  | 0, _, _ => none
  | Nat.succ fuel, t, rp =>
    match rp with
    | [] => fixInsertFinish t
    | d :: rpp =>
      match subtreeAtR t rpp with
      | none => none
      | some RBT.nil => none
      | some (RBT.node _ _ _ pc _) =>
        if pc = Color.red then
          match rpp with
          | [] => none
          | pd :: rgp =>
            match pd with
            | Dir.L =>
              match subtreeAtR t (Dir.R :: rgp) with
              | some (RBT.node _ _ _ Color.red _) =>
                -- Case 1: uncle is red - recolor, continue from the grandparent
                let t1 := setColorAtR t rpp Color.black
                let t2 := setColorAtR t1 (Dir.R :: rgp) Color.black
                let t3 := setColorAtR t2 rgp Color.red
                (do
                  let (s1, e1) ← pushRecolorAt t3 rpp Color.black 500
                  let (s2, e2) ← pushRecolorAt t3 (Dir.R :: rgp) Color.black 500
                  let (s3, e3) ← pushRecolorAt t3 rgp Color.red 500
                  let pre := [Step.status Msg.uncleRedRecolor 700, s1, s2, s3]
                  -- `node = node.parent.parent`, then `if (node === this.root) break`
                  if rgp = [] then
                    let (t4, s4, e4) ← fixInsertFinish t3
                    some (t4, pre ++ s4, [e1, e2, e3] ++ e4)
                  else
                    let (t4, s4, e4) ← fixInsert fuel t3 rgp
                    some (t4, pre ++ s4, [e1, e2, e3] ++ e4))
              | _ =>
                -- Case 2: uncle is black; Left-Right first rotates left at the
                -- parent and continues with the former parent as cursor
                (do
                  let (t1, s1) ←
                    match d with
                    | Dir.R => do
                      let (t1, sr) ← rotateLeft t rpp
                      some (t1, Step.status Msg.lrRotateLeftAtParent 700 :: sr)
                    | Dir.L => some (t, ([] : List RStep))
                  -- Left-Left case: recolor parent/grandparent, rotate right at
                  -- the grandparent; the cursor's parent is still at `rpp`
                  let t2 := setColorAtR t1 rpp Color.black
                  let t3 := setColorAtR t2 rgp Color.red
                  let (sp, ep) ← pushRecolorAt t3 rpp Color.black 500
                  let (sg, eg) ← pushRecolorAt t3 rgp Color.red 500
                  let (t4, s4) ← rotateRight t3 rgp
                  -- the cursor is now the left child of the rotated-in node,
                  -- never the root, so `if (node === this.root) break` does not
                  -- fire; the loop re-checks its condition
                  let (t5, s5, e5) ← fixInsert fuel t4 (Dir.L :: rgp)
                  some (t5,
                    s1 ++ [Step.status Msg.llRecolorRotateRight 700, sp, sg] ++ s4 ++ s5,
                    [ep, eg] ++ e5))
            | Dir.R =>
              match subtreeAtR t (Dir.L :: rgp) with
              | some (RBT.node _ _ _ Color.red _) =>
                let t1 := setColorAtR t rpp Color.black
                let t2 := setColorAtR t1 (Dir.L :: rgp) Color.black
                let t3 := setColorAtR t2 rgp Color.red
                (do
                  let (s1, e1) ← pushRecolorAt t3 rpp Color.black 500
                  let (s2, e2) ← pushRecolorAt t3 (Dir.L :: rgp) Color.black 500
                  let (s3, e3) ← pushRecolorAt t3 rgp Color.red 500
                  let pre := [Step.status Msg.uncleRedRecolor 700, s1, s2, s3]
                  if rgp = [] then
                    let (t4, s4, e4) ← fixInsertFinish t3
                    some (t4, pre ++ s4, [e1, e2, e3] ++ e4)
                  else
                    let (t4, s4, e4) ← fixInsert fuel t3 rgp
                    some (t4, pre ++ s4, [e1, e2, e3] ++ e4))
              | _ =>
                (do
                  let (t1, s1) ←
                    match d with
                    | Dir.L => do
                      let (t1, sr) ← rotateRight t rpp
                      some (t1, Step.status Msg.rlRotateRightAtParent 700 :: sr)
                    | Dir.R => some (t, ([] : List RStep))
                  let t2 := setColorAtR t1 rpp Color.black
                  let t3 := setColorAtR t2 rgp Color.red
                  let (sp, ep) ← pushRecolorAt t3 rpp Color.black 500
                  let (sg, eg) ← pushRecolorAt t3 rgp Color.red 500
                  let (t4, s4) ← rotateLeft t3 rgp
                  let (t5, s5, e5) ← fixInsert fuel t4 (Dir.R :: rgp)
                  some (t5,
                    s1 ++ [Step.status Msg.rrRecolorRotateLeft 700, sp, sg] ++ s4 ++ s5,
                    [ep, eg] ++ e5))
        else fixInsertFinish t

/-- The standard-BST-insertion walk of `insert` (the `while (current)` loop):
per visited node a `visiting` highlight and a direction status; reaching a null
link creates the new red node there (`newNode.parent = parent` plus the
parent's child slot, which is exactly the slot the walk descended through).
Returns the walk's steps and the new node's forward path, or `none` on a
duplicate (after pushing the `already exists` status). -/
def insertWalk : RBT → Int → Nat → RBT × List RStep × Option Path
  | RBT.nil, v, nid => (RBT.node RBT.nil v nid Color.red RBT.nil, [], some [])
  | RBT.node l x id c r, v, nid =>
    if v < x then
      (RBT.node (insertWalk l v nid).1 x id c r,
        Step.highlight id HState.visiting 300 ::
          Step.status (Msg.goingLeft v x) 500 :: (insertWalk l v nid).2.1,
        (Dir.L :: ·) <$> (insertWalk l v nid).2.2)
    else if v > x then
      (RBT.node l x id c (insertWalk r v nid).1,
        Step.highlight id HState.visiting 300 ::
          Step.status (Msg.goingRight v x) 500 :: (insertWalk r v nid).2.1,
        (Dir.R :: ·) <$> (insertWalk r v nid).2.2)
    else
      (RBT.node l x id c r,
        [Step.highlight id HState.visiting 300,
          Step.status (Msg.alreadyExists v) 500], none)

end RedBlackTree

/-- The tree object: `this.root` and `this.nodeIdCounter`. -/
structure RBState where
  root : RBT
  counter : Nat
deriving DecidableEq, Repr

namespace RedBlackTree

/-- `insert(value)`: allocates the id (`nodeIdCounter += 1` happens before the
walk, so even a rejected duplicate bumps the counter), handles the empty-tree
black-root case, otherwise walks, links the red node and runs `_fixInsert`.
Returns the new state, the animation list, and the ghost recolor events. -/
def insert (s : RBState) (v : Int) : Option (RBState × List RStep × List REvt) :=
  let s0 := [Step.status (Msg.insertingRB v) 500]
  let nid := s.counter
  let ctr := s.counter + 1
  match s.root with
  | RBT.nil =>
    some (⟨RBT.node RBT.nil v nid Color.black RBT.nil, ctr⟩,
      s0 ++ [Step.highlight nid HState.inserted 500,
        Step.recolor nid Color.black 500,
        Step.status (Msg.insertedAsBlackRoot v) 500],
      [⟨nid, Color.black, Color.black⟩])
  | _ =>
    let (t1, ws, p?) := insertWalk s.root v nid
    match p? with
    | none => some (⟨t1, ctr⟩, s0 ++ ws, [])
    | some p => do
      let (t2, fs, evts) ← fixInsert (t1.size + 2) t1 p.reverse
      some (⟨t2, ctr⟩,
        s0 ++ ws ++
          [Step.highlight nid HState.inserted 500,
            Step.recolor nid Color.red 500,
            Step.status (Msg.insertedAsRedNode v) 500] ++ fs,
        ⟨nid, Color.red, Color.red⟩ :: evts)

/-- `_findNode(node, value)`: silent walk by comparisons, returning the node's
forward path (`none` when absent). -/
def findNodePath : RBT → Int → Option Path
  | RBT.nil, _ => none
  | RBT.node l x _ _ r, v =>
    if v = x then some []
    else if v < x then (Dir.L :: ·) <$> findNodePath l v
    else (Dir.R :: ·) <$> findNodePath r v

/-- `_findMin(node)`: the path of left links to the minimum of a subtree. -/
def findMinPath : RBT → Path
  | RBT.node RBT.nil _ _ _ _ => []
  | RBT.node (RBT.node a v id c b) _ _ _ _ => Dir.L :: findMinPath (RBT.node a v id c b)
  | RBT.nil => []

/-- `_fixDelete(node, animations)`: cursor at reversed path `rp`, one recursive
call per iteration of `while (node !== this.root && node.color === BLACK)`.
`none` models the `TypeError` of reading `.color`/`.left` on a null sibling
(reachable only on trees whose Red-Black shape is already broken) or fuel
exhaustion, which the callers' fuel precludes. -/
def fixDelete : Nat → RBT → Path → Option (RBT × List RStep × List REvt)
  | 0, _, _ => none
  | Nat.succ fuel, t, rp =>
    match rp, subtreeAtR t rp with
    | [], _ =>
      -- `node === this.root` ends the loop; then `if (node) node.color = BLACK`
      some (setColorAtR t [] Color.black, [], [])
    | _ :: _, some (RBT.node _ _ _ Color.red _) =>
      -- loop condition fails on a red carrier; `node.color = BLACK` (no step)
      some (setColorAtR t rp Color.black, [], [])
    | Dir.L :: rpp, some (RBT.node _ _ _ Color.black _) =>
      (do
        -- `let sibling = node.parent.right`
        let sib0 ← subtreeAtR t (Dir.R :: rpp)
        -- `if (sibling.color === RED)`: recolor, rotate left at the parent,
        -- recompute the sibling; the cursor slides to parent-path ++ [L, L]
        let (tA, sA, eA, _rpA, rppA) ←
          match sib0 with
          | RBT.nil => none
          | RBT.node _ _ _ Color.red _ => do
            let t1 := setColorAtR t (Dir.R :: rpp) Color.black
            let t2 := setColorAtR t1 rpp Color.red
            let (s1, e1) ← pushRecolorAt t2 (Dir.R :: rpp) Color.black 500
            let (s2, e2) ← pushRecolorAt t2 rpp Color.red 500
            let (t3, srot) ← rotateLeft t2 rpp
            some (t3, [s1, s2] ++ srot, [e1, e2],
              Dir.L :: Dir.L :: rpp, Dir.L :: rpp)
          | RBT.node _ _ _ Color.black _ => some (t, [], [], rp, rpp)
        let sibP := Dir.R :: rppA
        match subtreeAtR tA sibP with
        | none => none
        | some RBT.nil => none        -- `sibling.left` on null throws
        | some (RBT.node sl _ _ _ sr) =>
          if (sl.isBlackOrNil && sr.isBlackOrNil) = true then
            -- both of sibling's children black: recolor sibling red, move up
            let t1 := setColorAtR tA sibP Color.red
            (do
              let (s1, e1) ← pushRecolorAt t1 sibP Color.red 500
              let (t2, s2, e2) ← fixDelete fuel t1 rppA
              some (t2, sA ++ [s1] ++ s2, eA ++ [e1] ++ e2))
          else
            (do
              -- `if (!sibling.right || sibling.right.color === BLACK)`: blacken
              -- the near child, redden the sibling, rotate right at the
              -- sibling, recompute the sibling
              let (tC, sC, eC) ←
                if sr.isBlackOrNil = true then do
                  let t1 := if sl.isNil = true then tA
                    else setColorAtR tA (Dir.L :: sibP) Color.black
                  let t2 := setColorAtR t1 sibP Color.red
                  let (nearSteps, nearEvts) ←
                    if sl.isNil = true then some (([] : List RStep), ([] : List REvt))
                    else do
                      let (s1, e1) ← pushRecolorAt t2 (Dir.L :: sibP) Color.black 500
                      some ([s1], [e1])
                  let (s2, e2) ← pushRecolorAt t2 sibP Color.red 500
                  let (t3, srot) ← rotateRight t2 sibP
                  some (t3, nearSteps ++ [s2] ++ srot, nearEvts ++ [e2])
                else some (tA, [], [])
              let sib2 ← subtreeAtR tC sibP
              match sib2, subtreeAtR tC rppA with
              | RBT.node _ _ _ _ tr, some (RBT.node _ _ _ pc _) => do
                -- terminal case: `sibling.color = node.parent.color;
                -- node.parent.color = BLACK; if (sibling.right) ... = BLACK`,
                -- then the three recolor pushes, reading `node.parent.color`
                -- only AFTER it has been overwritten with BLACK
                let t4 := setColorAtR tC sibP pc
                let t5 := setColorAtR t4 rppA Color.black
                let t6 := if tr.isNil = true then t5
                  else setColorAtR t5 (Dir.R :: sibP) Color.black
                let pcNow ←
                  match subtreeAtR t6 rppA with
                  | some (RBT.node _ _ _ c _) => some c
                  | _ => none
                let (s1, e1) ← pushRecolorAt t6 sibP pcNow 500
                let (s2, e2) ← pushRecolorAt t6 rppA Color.black 500
                let (farSteps, farEvts) ←
                  if tr.isNil = true then some (([] : List RStep), ([] : List REvt))
                  else do
                    let (s3, e3) ← pushRecolorAt t6 (Dir.R :: sibP) Color.black 500
                    some ([s3], [e3])
                let (t7, srot) ← rotateLeft t6 rppA
                -- `node = this.root`: the loop exits and the root is blackened
                some (setColorAtR t7 [] Color.black,
                  sA ++ sC ++ [s1, s2] ++ farSteps ++ srot,
                  eA ++ eC ++ [e1, e2] ++ farEvts)
              | _, _ => none))
    | Dir.R :: rpp, some (RBT.node _ _ _ Color.black _) =>
      (do
        -- mirror: `let sibling = node.parent.left`
        let sib0 ← subtreeAtR t (Dir.L :: rpp)
        let (tA, sA, eA, _rpA, rppA) ←
          match sib0 with
          | RBT.nil => none
          | RBT.node _ _ _ Color.red _ => do
            let t1 := setColorAtR t (Dir.L :: rpp) Color.black
            let t2 := setColorAtR t1 rpp Color.red
            let (s1, e1) ← pushRecolorAt t2 (Dir.L :: rpp) Color.black 500
            let (s2, e2) ← pushRecolorAt t2 rpp Color.red 500
            let (t3, srot) ← rotateRight t2 rpp
            some (t3, [s1, s2] ++ srot, [e1, e2],
              Dir.R :: Dir.R :: rpp, Dir.R :: rpp)
          | RBT.node _ _ _ Color.black _ => some (t, [], [], rp, rpp)
        let sibP := Dir.L :: rppA
        match subtreeAtR tA sibP with
        | none => none
        | some RBT.nil => none
        | some (RBT.node sl _ _ _ sr) =>
          if (sr.isBlackOrNil && sl.isBlackOrNil) = true then
            let t1 := setColorAtR tA sibP Color.red
            (do
              let (s1, e1) ← pushRecolorAt t1 sibP Color.red 500
              let (t2, s2, e2) ← fixDelete fuel t1 rppA
              some (t2, sA ++ [s1] ++ s2, eA ++ [e1] ++ e2))
          else
            (do
              let (tC, sC, eC) ←
                if sl.isBlackOrNil = true then do
                  let t1 := if sr.isNil = true then tA
                    else setColorAtR tA (Dir.R :: sibP) Color.black
                  let t2 := setColorAtR t1 sibP Color.red
                  let (nearSteps, nearEvts) ←
                    if sr.isNil = true then some (([] : List RStep), ([] : List REvt))
                    else do
                      let (s1, e1) ← pushRecolorAt t2 (Dir.R :: sibP) Color.black 500
                      some ([s1], [e1])
                  let (s2, e2) ← pushRecolorAt t2 sibP Color.red 500
                  let (t3, srot) ← rotateLeft t2 sibP
                  some (t3, nearSteps ++ [s2] ++ srot, nearEvts ++ [e2])
                else some (tA, [], [])
              let sib2 ← subtreeAtR tC sibP
              match sib2, subtreeAtR tC rppA with
              | RBT.node tl _ _ _ _, some (RBT.node _ _ _ pc _) => do
                let t4 := setColorAtR tC sibP pc
                let t5 := setColorAtR t4 rppA Color.black
                let t6 := if tl.isNil = true then t5
                  else setColorAtR t5 (Dir.L :: sibP) Color.black
                let pcNow ←
                  match subtreeAtR t6 rppA with
                  | some (RBT.node _ _ _ c _) => some c
                  | _ => none
                let (s1, e1) ← pushRecolorAt t6 sibP pcNow 500
                let (s2, e2) ← pushRecolorAt t6 rppA Color.black 500
                let (farSteps, farEvts) ←
                  if tl.isNil = true then some (([] : List RStep), ([] : List REvt))
                  else do
                    let (s3, e3) ← pushRecolorAt t6 (Dir.L :: sibP) Color.black 500
                    some ([s3], [e3])
                let (t7, srot) ← rotateRight t6 rppA
                some (setColorAtR t7 [] Color.black,
                  sA ++ sC ++ [s1, s2] ++ farSteps ++ srot,
                  eA ++ eC ++ [e1, e2] ++ farEvts)
              | _, _ => none))
    | _ :: _, _ => none

/-- `_deleteNode(node, animations)` for the node at forward path `q`: choose
the replacement (the node itself, or the minimum of its right subtree when it
has two children), splice the replacement out by promoting its only child,
copy the successor's value up when needed, and run `_fixDelete` only when the
replacement was black AND a non-null replacement child exists. -/
def deleteNode (t : RBT) (q : Path) : Option (RBT × List RStep × List REvt) := do
  let u ← subtreeAt t q
  match u with
  | RBT.nil => none
  | RBT.node ul _ _ _ ur =>
    let rPath := if ul.isNil || ur.isNil then q else q ++ Dir.R :: findMinPath ur
    let rep ← subtreeAt t rPath
    match rep with
    | RBT.nil => none
    | RBT.node rl rv _ rc rr =>
      -- `replacementChild = replacement.left ? replacement.left : replacement.right`
      let child := if rl.isNil = true then rr else rl
      let t1 := replaceAt t rPath child
      let (t2, s2) :=
        if rPath = q then (t1, ([] : List RStep))
        else (setValueAt t1 q rv, [Step.status (Msg.replacedWithSuccessor rv) 600])
      if rc = Color.black && !child.isNil then do
        let (t3, s3, e3) ← fixDelete (t.size + 2) t2 rPath.reverse
        some (t3, s2 ++ s3, e3)
      else
        some (t2, s2, [])

/-- `delete(value)`: status step, `_findNode`, not-found early return or
`found` highlight plus `_deleteNode`. -/
def delete (s : RBState) (v : Int) : Option (RBState × List RStep × List REvt) :=
  let s0 := [Step.status (Msg.deletingRB v) 500]
  match findNodePath s.root v with
  | none =>
    some (s, s0 ++ [Step.status (Msg.valueNotFound v) 800], [])
  | some q => do
    let u ← subtreeAt s.root q
    match u with
    | RBT.nil => none
    | RBT.node _ _ uid _ _ => do
      let (t2, st, ev) ← deleteNode s.root q
      some (⟨t2, s.counter⟩,
        s0 ++ [Step.highlight uid HState.found 500] ++ st, ev)

/-- `_searchNode(node, value, animations)`: returns the steps it pushes and
the boolean result. -/
def searchNode : RBT → Int → List RStep × Bool
  | RBT.nil, v => ([Step.status (Msg.valueNotFound v) 800], false)
  | RBT.node l x id _ r, v =>
    if v = x then
      ([Step.highlight id HState.visiting 300,
        Step.highlight id HState.found 800, Step.status (Msg.foundValue v) 800],
        true)
    else if v < x then
      (Step.highlight id HState.visiting 300 ::
        Step.status (Msg.goingLeft v x) 500 :: (searchNode l v).1, (searchNode l v).2)
    else
      (Step.highlight id HState.visiting 300 ::
        Step.status (Msg.goingRight v x) 500 :: (searchNode r v).1, (searchNode r v).2)

end RedBlackTree

/-- The record a `search` call returns. JS object fields that the source does
not put into the returned literal read as `undefined`; that absence is
modelled as `found := none`. -/
structure SearchOut (ι : Type) where
  found : Option Bool
  animations : List (Step ι)
deriving DecidableEq, Repr

namespace RedBlackTree

/-- `search(value)`: status step plus the `_searchNode` walk. The source
returns `{ animations }` only — `_searchNode`'s boolean is discarded and the
result carries no `found` field. -/
def search (s : RBState) (v : Int) : SearchOut Nat :=
  { found := none,
    animations :=
      Step.status (Msg.searchingRB v) 500 :: (searchNode s.root v).1 }

/-- The steps `_inorderHelper` pushes (a `visited` highlight and a
`show-value` per node, between the left and right recursions). -/
def inorderSteps : RBT → List RStep
  | RBT.nil => []
  | RBT.node l v id _ r =>
    inorderSteps l ++
      [Step.highlight id HState.visited 500, Step.showValue id v 500] ++
      inorderSteps r

/-- `inorderTraversal()`: the `result` array and the animations list. -/
def inorderTraversal (s : RBState) : List Int × List RStep :=
  (s.root.inorderV,
    Step.status Msg.startInorder 500 ::
      inorderSteps s.root ++ [Step.status (Msg.inorderComplete s.root.inorderV) 1000])

end RedBlackTree

/-! ### Red-Black invariant checkers, written from the spec's wording
("root color is BLACK; no RED node has a RED child; all root-to-null-leaf
black-height counts are equal"). -/

/-- The root (if present) is BLACK. -/
def rootBlack : RBT → Bool
  | RBT.nil => true
  | RBT.node _ _ _ c _ => c = Color.black

/-- No RED node has a RED child anywhere. -/
def noRedRed : RBT → Bool
  | RBT.nil => true
  | RBT.node l _ _ c r =>
    (match c with
      | Color.red => l.isBlackOrNil && r.isBlackOrNil
      | Color.black => true) &&
    noRedRed l && noRedRed r

/-- The count of BLACK nodes shared by every root-to-null path of `t`, or
`none` when two such paths disagree. -/
def blackHeightAgree : RBT → Option Nat
  | RBT.nil => some 0
  | RBT.node l _ _ c r => do
    let hl ← blackHeightAgree l
    let hr ← blackHeightAgree r
    if hl = hr then some (hl + (if c = Color.black then 1 else 0)) else none

/-- All Red-Black invariants of claim C1 at once. -/
def rbValid (t : RBT) : Bool :=
  rootBlack t && noRedRed t && (blackHeightAgree t).isSome

/-! ### Operation sequences and reachability -/

/-- One public mutating call on a Red-Black tree. -/
inductive RBOp where
  | ins (v : Int)
  | del (v : Int)
deriving DecidableEq, Repr

/-- Run one public call, keeping only the resulting state. -/
def runRBOp (s : RBState) : RBOp → Option RBState
  | RBOp.ins v => (RedBlackTree.insert s v).map (·.1)
  | RBOp.del v => (RedBlackTree.delete s v).map (·.1)

/-- Run a sequence of public calls from a given state. -/
def runRBFrom : RBState → List RBOp → Option RBState
  | s, [] => some s
  | s, op :: ops =>
    match runRBOp s op with
    | none => none
    | some s1 => runRBFrom s1 ops

/-- A state is reachable when some sequence of insert/delete calls, each
returning normally, produces it from the fresh tree `new RedBlackTree()`. -/
def RBReach (s : RBState) : Prop :=
  ∃ ops : List RBOp, runRBFrom ⟨RBT.nil, 0⟩ ops = some s

/-! ## AVL engine (src/App.jsx, `class AVLTree`) -/

/-- An AVL tree of `Node` objects: `value`, numeric `id`, the stored `height`
field (`newNode.height = 1` on creation) and the child links. -/
inductive AVL where
  | nil
  | node (l : AVL) (v : Int) (id : Nat) (h : Nat) (r : AVL)
deriving DecidableEq, Repr

namespace AVL

def inorderV : AVL → List Int
  | nil => []
  | node l v _ _ r => inorderV l ++ v :: inorderV r

theorem inorderV_nodeA (l : AVL) (v : Int) (id h : Nat) (r : AVL) :
    (AVL.node l v id h r).inorderV = l.inorderV ++ v :: r.inorderV := rfl

/-- JS falsiness of a node reference. -/
def isNil : AVL → Bool
  | nil => true
  | node _ _ _ _ _ => false

end AVL

abbrev AStep := Step Nat

namespace AVLTree

/-- `getHeight(node)`: `node ? node.height : 0`. -/
def getHeight : AVL → Nat
  | AVL.nil => 0
  | AVL.node _ _ _ h _ => h

/-- `getBalanceFactor(node)`: `node ? getHeight(left) - getHeight(right) : 0`. -/
def getBalanceFactor : AVL → Int
  | AVL.nil => 0
  | AVL.node l _ _ _ r => (getHeight l : Int) - (getHeight r : Int)

/-- `updateHeight(node)`: `node.height = 1 + Math.max(h(left), h(right))`. -/
def updateHeight : AVL → AVL
  | AVL.nil => AVL.nil
  | AVL.node l v id _ r => AVL.node l v id (1 + max (getHeight l) (getHeight r)) r

/-- `rotateRight(y, animations)`: status step (before rotating, message uses
`y.value`), the rotation with `updateHeight(y)` before `updateHeight(x)`, and
a pivot highlight of `x`. `none` models the `TypeError` when `y.left` is null. -/
def rotateRight : AVL → Option (AVL × List AStep)
  | AVL.node (AVL.node t1 xv xid xh t2) yv yid yh t3 =>
    let y1 := updateHeight (AVL.node t2 yv yid yh t3)
    some (updateHeight (AVL.node t1 xv xid xh y1),
      [Step.status (Msg.rightRotationAtLL yv) 800, Step.highlight xid HState.pivot 600])
  | _ => none

/-- `rotateLeft(x, animations)`: mirror of `rotateRight`. -/
def rotateLeft : AVL → Option (AVL × List AStep)
  | AVL.node t1 xv xid xh (AVL.node t2 yv yid yh t3) =>
    let x1 := updateHeight (AVL.node t1 xv xid xh t2)
    some (updateHeight (AVL.node x1 yv yid yh t3),
      [Step.status (Msg.leftRotationAtRR xv) 800, Step.highlight yid HState.pivot 600])
  | _ => none

/-- The four-case dispatch at the end of `_insertNode`, classified by the
node's balance and the inserted value's relation to the child's value. When
none of the four conditions holds the node is returned unchanged. `none`
models the null dereference of `node.left.value` / `node.right.value` under a
`balance > 1` / `balance < -1` guard with a missing child. -/
def insRebalance (t : AVL) (v : Int) : Option (AVL × List AStep) :=
  let bal := getBalanceFactor t
  match t with
  | AVL.nil => some (t, [])
  | AVL.node l x id h r =>
    if 1 < bal then
      match l with
      | AVL.nil => none
      | AVL.node _ lv _ _ _ =>
        if v < lv then do
          -- Left-Left Case
          let (t1, s1) ← rotateRight (AVL.node l x id h r)
          some (t1, Step.status (Msg.llCaseDetectedAt x) 600 :: s1)
        else if v > lv then do
          -- Left-Right Case
          let (l1, s1) ← rotateLeft l
          let (t2, s2) ← rotateRight (AVL.node l1 x id h r)
          some (t2, Step.status (Msg.lrCaseDetectedAt x) 600 :: s1 ++ s2)
        else some (AVL.node l x id h r, [])
    else if bal < -1 then
      match r with
      | AVL.nil => none
      | AVL.node _ rv _ _ _ =>
        if v > rv then do
          -- Right-Right Case
          let (t1, s1) ← rotateLeft (AVL.node l x id h r)
          some (t1, Step.status (Msg.rrCaseDetectedAt x) 600 :: s1)
        else if v < rv then do
          -- Right-Left Case
          let (r1, s1) ← rotateRight r
          let (t2, s2) ← rotateLeft (AVL.node l x id h r1)
          some (t2, Step.status (Msg.rlCaseDetectedAt x) 600 :: s1 ++ s2)
        else some (AVL.node l x id h r, [])
    else some (AVL.node l x id h r, [])

/-- `_insertNode(node, value, animations, parent)`: recursive BST insertion;
on unwinding, update the height, push the balance-factor status step, and
dispatch the rotation cases. A duplicate returns the node before any height
update. Also threads `nodeIdCounter` (bumped only when a node is created). -/
def insertNode : AVL → Int → Nat → Option (AVL × Nat × List AStep)
  | AVL.nil, v, ctr =>
    some (AVL.node AVL.nil v ctr 1 AVL.nil, ctr + 1,
      [Step.highlight ctr HState.inserted 500, Step.status (Msg.insertedAVL v) 500])
  | AVL.node l x id h r, v, ctr =>
    let s0 := [Step.highlight id HState.visiting 300]
    if v < x then do
      let (l1, ctr1, s1) ← insertNode l v ctr
      let t1 := updateHeight (AVL.node l1 x id h r)
      let bal := getBalanceFactor t1
      let (t2, s2) ← insRebalance t1 v
      some (t2, ctr1,
        s0 ++ Step.status (Msg.goingLeft v x) 500 :: s1 ++
          Step.status (Msg.balanceFactorAt x bal) 500 :: s2)
    else if v > x then do
      let (r1, ctr1, s1) ← insertNode r v ctr
      let t1 := updateHeight (AVL.node l x id h r1)
      let bal := getBalanceFactor t1
      let (t2, s2) ← insRebalance t1 v
      some (t2, ctr1,
        s0 ++ Step.status (Msg.goingRight v x) 500 :: s1 ++
          Step.status (Msg.balanceFactorAt x bal) 500 :: s2)
    else
      some (AVL.node l x id h r, ctr,
        s0 ++ [Step.status (Msg.alreadyExists v) 500])

/-- The four-case dispatch at the end of `_deleteNode`, classified by the
node's balance and the child's balance factor. -/
def delRebalance (t : AVL) : Option (AVL × List AStep) :=
  match t with
  | AVL.nil => some (t, [])
  | AVL.node l x id h r =>
    let bal := getBalanceFactor (AVL.node l x id h r)
    if 1 < bal && 0 ≤ getBalanceFactor l then
      rotateRight (AVL.node l x id h r)
    else if 1 < bal && getBalanceFactor l < 0 then do
      let (l1, s1) ← rotateLeft l
      let (t2, s2) ← rotateRight (AVL.node l1 x id h r)
      some (t2, s1 ++ s2)
    else if bal < -1 && getBalanceFactor r ≤ 0 then
      rotateLeft (AVL.node l x id h r)
    else if bal < -1 && 0 < getBalanceFactor r then do
      let (r1, s1) ← rotateRight r
      let (t2, s2) ← rotateLeft (AVL.node l x id h r1)
      some (t2, s1 ++ s2)
    else some (AVL.node l x id h r, [])

/-- `_findMin(node)`: the leftmost node of a subtree. -/
def findMinNode : AVL → AVL
  | AVL.nil => AVL.nil
  | AVL.node AVL.nil v id h r => AVL.node AVL.nil v id h r
  | AVL.node (AVL.node a w i j b) _ _ _ _ => findMinNode (AVL.node a w i j b)

/-- `_deleteNode(node, value, animations)`: recursive BST deletion; the
leaf/one-child case returns the promoted child without touching this frame's
height, the two-children case copies the in-order successor's value and
recurses into the right subtree; on unwinding, update height, push the
balance-factor step and dispatch the rotation cases. -/
def deleteNode : AVL → Int → Option (AVL × List AStep)
  | AVL.nil, v => some (AVL.nil, [Step.status (Msg.valueNotFound v) 800])
  | AVL.node l x id h r, v =>
    let s0 := [Step.highlight id HState.visiting 300]
    if v < x then do
      let (l1, s1) ← deleteNode l v
      let t1 := updateHeight (AVL.node l1 x id h r)
      let bal := getBalanceFactor t1
      let (t2, s2) ← delRebalance t1
      some (t2, s0 ++ s1 ++ Step.status (Msg.balanceFactorAt x bal) 500 :: s2)
    else if v > x then do
      let (r1, s1) ← deleteNode r v
      let t1 := updateHeight (AVL.node l x id h r1)
      let bal := getBalanceFactor t1
      let (t2, s2) ← delRebalance t1
      some (t2, s0 ++ s1 ++ Step.status (Msg.balanceFactorAt x bal) 500 :: s2)
    else
      let sf := s0 ++ [Step.highlight id HState.found 500]
      if l.isNil || r.isNil then
        -- `const temp = node.left ? node.left : node.right; return temp;`
        some (if l.isNil then r else l, sf)
      else
        match findMinNode r with
        | AVL.nil => none
        | AVL.node _ mv mid _ _ => do
          let (r1, s1) ← deleteNode r mv
          let t1 := updateHeight (AVL.node l mv id h r1)
          let bal := getBalanceFactor t1
          let (t2, s2) ← delRebalance t1
          some (t2,
            sf ++ Step.highlight mid HState.pivot 500 :: s1 ++
              Step.status (Msg.balanceFactorAt mv bal) 500 :: s2)

end AVLTree

/-- The AVL tree object: `this.root` and `this.nodeIdCounter`. -/
structure AVLState where
  root : AVL
  counter : Nat
deriving DecidableEq, Repr

namespace AVLTree

/-- `insert(value)`: status step, then `this.root = this._insertNode(...)`. -/
def insert (s : AVLState) (v : Int) : Option (AVLState × List AStep) := do
  let (t1, ctr1, s1) ← insertNode s.root v s.counter
  some (⟨t1, ctr1⟩, Step.status (Msg.insertingAVL v) 500 :: s1)

/-- `delete(value)`: status step, then `this.root = this._deleteNode(...)`. -/
def delete (s : AVLState) (v : Int) : Option (AVLState × List AStep) := do
  let (t1, s1) ← deleteNode s.root v
  some (⟨t1, s.counter⟩, Step.status (Msg.deletingAVL v) 500 :: s1)

/-- `_searchNode(node, value, animations)`. -/
def searchNode : AVL → Int → List AStep × Bool
  | AVL.nil, v => ([Step.status (Msg.valueNotFound v) 800], false)
  | AVL.node l x id _ r, v =>
    if v = x then
      ([Step.highlight id HState.visiting 300,
        Step.highlight id HState.found 800, Step.status (Msg.foundValue v) 800],
        true)
    else if v < x then
      (Step.highlight id HState.visiting 300 ::
        Step.status (Msg.goingLeft v x) 500 :: (searchNode l v).1, (searchNode l v).2)
    else
      (Step.highlight id HState.visiting 300 ::
        Step.status (Msg.goingRight v x) 500 :: (searchNode r v).1, (searchNode r v).2)

/-- `search(value)`: the source returns `{ animations }` only — the boolean
`_searchNode` computes is discarded and no `found` field is present
(`found := none` models the `undefined` read). -/
def search (s : AVLState) (v : Int) : SearchOut Nat :=
  { found := none,
    animations :=
      Step.status (Msg.searchingAVL v) 500 :: (searchNode s.root v).1 }

/-- The steps of `_inorderHelper`. -/
def inorderSteps : AVL → List AStep
  | AVL.nil => []
  | AVL.node l v id _ r =>
    inorderSteps l ++
      [Step.highlight id HState.visited 500, Step.showValue id v 500] ++
      inorderSteps r

/-- `inorderTraversal()`. -/
def inorderTraversal (s : AVLState) : List Int × List AStep :=
  (s.root.inorderV,
    Step.status Msg.startInorder 500 ::
      inorderSteps s.root ++ [Step.status (Msg.inorderComplete s.root.inorderV) 1000])

end AVLTree

/-- One public mutating call on an AVL tree. -/
inductive AVLOp where
  | ins (v : Int)
  | del (v : Int)
deriving DecidableEq, Repr

def runAVLOp (s : AVLState) : AVLOp → Option AVLState
  | AVLOp.ins v => (AVLTree.insert s v).map (·.1)
  | AVLOp.del v => (AVLTree.delete s v).map (·.1)

def runAVLFrom : AVLState → List AVLOp → Option AVLState
  | s, [] => some s
  | s, op :: ops =>
    match runAVLOp s op with
    | none => none
    | some s1 => runAVLFrom s1 ops

/-- Reachability from `new AVLTree()` through normally-returning calls. -/
def AVLReach (s : AVLState) : Prop :=
  ∃ ops : List AVLOp, runAVLFrom ⟨AVL.nil, 0⟩ ops = some s

/-- The real height of an AVL subtree (1 + max of children, 0 when absent),
independent of the stored `height` fields. -/
def realHeight : AVL → Nat
  | AVL.nil => 0
  | AVL.node l _ _ _ r => 1 + max (realHeight l) (realHeight r)

/-- Claim C2's invariant: every node's subtrees differ in (real) height by at
most 1. -/
def balancedReal : AVL → Bool
  | AVL.nil => true
  | AVL.node l _ _ _ r =>
    ((realHeight l : Int) - (realHeight r : Int)).natAbs ≤ 1 &&
      balancedReal l && balancedReal r

/-! ## BST engine (src/App.jsx, `export default class BST`) -/

/-- A plain BST of `Node` objects; ids are the strings `generateId` builds. -/
inductive BT where
  | nil
  | node (l : BT) (v : Int) (id : String) (r : BT)
deriving DecidableEq, Repr

namespace BT

def inorderV : BT → List Int
  | nil => []
  | node l v _ r => inorderV l ++ v :: inorderV r

theorem inorderV_nodeB (l : BT) (v : Int) (id : String) (r : BT) :
    (BT.node l v id r).inorderV = l.inorderV ++ v :: r.inorderV := rfl

def isNil : BT → Bool
  | nil => true
  | node _ _ _ _ => false

end BT

abbrev BStep := Step String

/-- The BST object: `this.root` and `this.nodeIdCounter`. -/
structure BSTState where
  root : BT
  counter : Nat
deriving DecidableEq, Repr

namespace BST

/-- `generateId()`: the string `node-${nodeIdCounter}` (the counter bump is
threaded by the callers). -/
def generateId (n : Nat) : String := "node-" ++ toString n

/-- The `while (current)` walk of `insert` on a non-empty tree: descends by
comparison, links the new node into the first null slot in the walk's
direction, pushing only the single final status step. The returned flag tells
whether a node was created (the duplicate branch creates none). -/
def insertWalk : BT → Int → String → BT × List BStep × Bool
  | BT.nil, v, nid =>
    (BT.node BT.nil v nid BT.nil, [Step.status (Msg.insertedSuccessfully v) 1000], true)
  | BT.node l x id r, v, nid =>
    if v < x then
      (BT.node (insertWalk l v nid).1 x id r, (insertWalk l v nid).2)
    else if v > x then
      (BT.node l x id (insertWalk r v nid).1, (insertWalk r v nid).2)
    else
      (BT.node l x id r, [Step.status (Msg.valueAlreadyExistsInTree v) 1000], false)

/-- `insert(value)`: empty-tree root case, otherwise the walk. `generateId`
is called only when a node is created, so only then does the counter move. -/
def insert (s : BSTState) (v : Int) : BSTState × List BStep :=
  match s.root with
  | BT.nil =>
    (⟨BT.node BT.nil v (generateId s.counter) BT.nil, s.counter + 1⟩,
      [Step.status (Msg.insertedAsRootNode v) 1000])
  | BT.node l x id r =>
    (⟨(insertWalk (BT.node l x id r) v (generateId s.counter)).1,
      if (insertWalk (BT.node l x id r) v (generateId s.counter)).2.2
        then s.counter + 1 else s.counter⟩,
      (insertWalk (BT.node l x id r) v (generateId s.counter)).2.1)

/-- `findMin(node)`: id and value of the leftmost node. -/
def findMinB : BT → Option (String × Int)
  | BT.nil => none
  | BT.node BT.nil v id _ => some (id, v)
  | BT.node (BT.node a w i b) _ _ _ => findMinB (BT.node a w i b)

/-- `_deleteNode(node, value, animations)`: the three-case recursive delete.
The parent-pointer patch-ups of the source (`result.node.parent = ...`) keep
redundant state consistent and have no path-free counterpart here. -/
def deleteNode : BT → Int → BT × List BStep
  | BT.nil, v => (BT.nil, [Step.status (Msg.notFoundForDeletion v) 1000])
  | BT.node l x id r, v =>
    if v < x then
      (BT.node (deleteNode l v).1 x id r, (deleteNode l v).2)
    else if v > x then
      (BT.node l x id (deleteNode r v).1, (deleteNode r v).2)
    else
      match l, r with
      | BT.nil, BT.nil =>
        (BT.nil, [Step.highlight id HState.current 500,
          Step.status (Msg.deletingLeafNode v) 1000])
      | BT.nil, BT.node a w i b =>
        (BT.node a w i b, [Step.highlight id HState.current 500,
          Step.status (Msg.deletingOnlyRightChild v) 1000])
      | BT.node a w i b, BT.nil =>
        (BT.node a w i b, [Step.highlight id HState.current 500,
          Step.status (Msg.deletingOnlyLeftChild v) 1000])
      | BT.node a w i b, BT.node a2 w2 i2 b2 =>
        match findMinB (BT.node a2 w2 i2 b2) with
        | none => (BT.node (BT.node a w i b) x id (BT.node a2 w2 i2 b2),
            [Step.highlight id HState.current 500])
        | some (mid, mv) =>
          (BT.node (BT.node a w i b) mv id (deleteNode (BT.node a2 w2 i2 b2) mv).1,
            Step.highlight id HState.current 500 ::
              Step.highlight mid HState.pivot 500 ::
              Step.status (Msg.replacingWith v mv) 1000 ::
              (deleteNode (BT.node a2 w2 i2 b2) mv).2)

/-- `delete(value)`: a leading status step, the recursive delete, and an
unconditional trailing `Deleted {v} successfully` status step. -/
def delete (s : BSTState) (v : Int) : BSTState × List BStep :=
  (⟨(deleteNode s.root v).1, s.counter⟩,
    Step.status (Msg.deletingBST v) 500 :: (deleteNode s.root v).2 ++
      [Step.status (Msg.deletedSuccessfully v) 1000])

/-- The `while (current)` walk of `search`. -/
def searchGo : BT → Int → List BStep × Bool
  | BT.nil, v => ([Step.status (Msg.notFoundInTree v) 1000], false)
  | BT.node l x id r, v =>
    if v = x then
      ([Step.highlight id HState.found 500, Step.status (Msg.foundValue v) 1000], true)
    else if v < x then searchGo l v
    else searchGo r v

/-- `search(value)`: this engine does return `{ found, animations }`. -/
def search (s : BSTState) (v : Int) : SearchOut String :=
  { found := some (searchGo s.root v).2,
    animations := Step.status (Msg.searchingFor v) 500 :: (searchGo s.root v).1 }

/-- The steps of `_inorderHelper`. -/
def inorderSteps : BT → List BStep
  | BT.nil => []
  | BT.node l v id r =>
    inorderSteps l ++
      [Step.highlight id HState.visited 500, Step.showValue id v 500] ++
      inorderSteps r

/-- `inorderTraversal()`. -/
def inorderTraversal (s : BSTState) : List Int × List BStep :=
  (s.root.inorderV,
    Step.status Msg.startInorder 500 ::
      inorderSteps s.root ++ [Step.status (Msg.inorderComplete s.root.inorderV) 1000])

end BST

/-- One public mutating call on a BST. -/
inductive BSTOp where
  | ins (v : Int)
  | del (v : Int)
deriving DecidableEq, Repr

def runBSTOp (s : BSTState) : BSTOp → BSTState
  | BSTOp.ins v => (BST.insert s v).1
  | BSTOp.del v => (BST.delete s v).1

def runBSTFrom : BSTState → List BSTOp → BSTState
  | s, [] => s
  | s, op :: ops => runBSTFrom (runBSTOp s op) ops

/-- Reachability from `new BST()`. -/
def BSTReach (s : BSTState) : Prop :=
  ∃ ops : List BSTOp, runBSTFrom ⟨BT.nil, 0⟩ ops = s

/-! ## Sorted-list helpers

The engines have set semantics over a strict order, so the specification
currency is strictly sorted lists of values. -/

/-- Insert `v` into a (sorted) list, rejecting duplicates — the list-level
counterpart of an engine insert. -/
def insSorted (v : Int) : List Int → List Int
  | [] => [v]
  | x :: xs => if v < x then v :: x :: xs else if v = x then x :: xs else x :: insSorted v xs

/-- Remove the first occurrence of `v` — the list-level counterpart of an
engine delete. -/
def delSorted (v : Int) : List Int → List Int
  | [] => []
  | x :: xs => if v = x then xs else x :: delSorted v xs

theorem mem_insSorted (v a : Int) (l : List Int) :
    a ∈ insSorted v l ↔ a = v ∨ a ∈ l := by
  induction l with
  | nil => simp [insSorted]
  | cons x xs ih =>
    simp only [insSorted]
    split
    · simp [List.mem_cons]
    · split
      · subst_vars
        simp only [List.mem_cons]
        constructor
        · rintro (rfl | h) <;> tauto
        · rintro (rfl | rfl | h) <;> tauto
      · simp only [List.mem_cons, ih]
        tauto

theorem insSorted_of_mem {v : Int} {l : List Int}
    (hs : List.Sorted (· < ·) l) (hv : v ∈ l) : insSorted v l = l := by
  induction l with
  | nil => cases hv
  | cons x xs ih =>
    simp only [insSorted]
    rcases List.mem_cons.mp hv with rfl | hv2
    · simp
    · have hx : x < v := (List.sorted_cons.mp hs).1 v hv2
      have h1 : ¬ v < x := by omega
      have h2 : ¬ v = x := by omega
      simp only [if_neg h1, if_neg h2]
      rw [ih (List.sorted_cons.mp hs).2 hv2]

theorem sorted_insSorted {v : Int} {l : List Int}
    (hs : List.Sorted (· < ·) l) : List.Sorted (· < ·) (insSorted v l) := by
  induction l with
  | nil => simp [insSorted]
  | cons x xs ih =>
    obtain ⟨hall, hxs⟩ := List.sorted_cons.mp hs
    simp only [insSorted]
    split
    · refine List.sorted_cons.mpr ⟨?_, hs⟩
      intro b hb
      rcases List.mem_cons.mp hb with rfl | h
      · assumption
      · exact lt_trans (by assumption) (hall b h)
    · split
      · exact hs
      · refine List.sorted_cons.mpr ⟨?_, ih hxs⟩
        intro b hb
        rcases (mem_insSorted v b xs).mp hb with rfl | h
        · omega
        · exact hall b h

theorem delSorted_of_not_mem {v : Int} {l : List Int} (hv : v ∉ l) :
    delSorted v l = l := by
  induction l with
  | nil => rfl
  | cons x xs ih =>
    simp only [delSorted]
    rw [if_neg (by intro h; exact hv (h ▸ List.mem_cons_self x xs)),
      ih (fun h => hv (List.mem_cons_of_mem x h))]

theorem delSorted_insSorted {v : Int} {l : List Int} (hv : v ∉ l) :
    delSorted v (insSorted v l) = l := by
  induction l with
  | nil => simp [insSorted, delSorted]
  | cons x xs ih =>
    have hvx : v ≠ x := fun h => hv (h ▸ List.mem_cons_self x xs)
    simp only [insSorted, if_neg hvx]
    split
    · simp [delSorted]
    · simp only [delSorted, if_neg hvx]
      rw [ih (fun h => hv (List.mem_cons_of_mem x h))]

theorem mem_delSorted_of_mem {v a : Int} {l : List Int}
    (ha : a ∈ delSorted v l) : a ∈ l := by
  induction l with
  | nil => simp [delSorted] at ha
  | cons x xs ih =>
    simp only [delSorted] at ha
    split at ha
    · exact List.mem_cons_of_mem x ha
    · rcases List.mem_cons.mp ha with rfl | h
      · exact List.mem_cons_self a xs
      · exact List.mem_cons_of_mem x (ih h)

theorem sorted_delSorted {v : Int} {l : List Int}
    (hs : List.Sorted (· < ·) l) : List.Sorted (· < ·) (delSorted v l) := by
  induction l with
  | nil => simp [delSorted]
  | cons x xs ih =>
    obtain ⟨hall, hxs⟩ := List.sorted_cons.mp hs
    simp only [delSorted]
    split
    · exact hxs
    · refine List.sorted_cons.mpr ⟨?_, ih hxs⟩
      intro b hb
      exact hall b (mem_delSorted_of_mem hb)

theorem delSorted_append_middle {v : Int} {l r : List Int} (hv : v ∉ l) :
    delSorted v (l ++ v :: r) = l ++ r := by
  induction l with
  | nil => simp [delSorted]
  | cons x xs ih =>
    have hvx : v ≠ x := fun h => hv (h ▸ List.mem_cons_self x xs)
    simp only [List.cons_append, delSorted, if_neg hvx, List.append_eq]
    rw [ih (fun h => hv (List.mem_cons_of_mem x h))]

/-- Decomposition of strict sortedness over the inorder shape
`left ++ root :: right`. -/
theorem sorted_append_cons_iff (l r : List Int) (x : Int) :
    List.Sorted (· < ·) (l ++ x :: r) ↔
      List.Sorted (· < ·) l ∧ List.Sorted (· < ·) r ∧
        (∀ a ∈ l, a < x) ∧ (∀ b ∈ r, x < b) := by
  simp only [List.Sorted, List.pairwise_append, List.pairwise_cons, List.mem_cons]
  constructor
  · rintro ⟨hl, ⟨hxr, hr⟩, hcross⟩
    refine ⟨hl, hr, fun a ha => (hcross a ha x (Or.inl rfl)), hxr⟩
  · rintro ⟨hl, hr, hlx, hxr⟩
    refine ⟨hl, ⟨hxr, hr⟩, ?_⟩
    rintro a ha b (rfl | hb)
    · exact hlx a ha
    · exact lt_trans (hlx a ha) (hxr b hb)

theorem delSorted_append_left {v : Int} {l₁ l₂ : List Int} (hv : v ∈ l₁) :
    delSorted v (l₁ ++ l₂) = delSorted v l₁ ++ l₂ := by
  induction l₁ with
  | nil => cases hv
  | cons x xs ih =>
    by_cases hvx : v = x
    · simp [delSorted, hvx]
    · simp only [List.cons_append, delSorted, if_neg hvx, List.append_eq]
      rw [ih (List.mem_cons.mp hv |>.resolve_left hvx)]

theorem delSorted_append_right {v : Int} {l₁ l₂ : List Int} (hv : v ∉ l₁) :
    delSorted v (l₁ ++ l₂) = l₁ ++ delSorted v l₂ := by
  induction l₁ with
  | nil => rfl
  | cons x xs ih =>
    have hvx : v ≠ x := fun h => hv (h ▸ List.mem_cons_self x xs)
    simp only [List.cons_append, delSorted, if_neg hvx, List.append_eq]
    rw [ih (fun h => hv (List.mem_cons_of_mem x h))]

/-! ## BST engine proofs -/

namespace BST

theorem insertWalk_inorder (t : BT) (v : Int) (nid : String)
    (hs : List.Sorted (· < ·) t.inorderV) :
    ((insertWalk t v nid).1).inorderV = insSorted v t.inorderV := by
  induction t with
  | nil => simp [insertWalk, BT.inorderV, insSorted]
  | node l x id r ihl ihr =>
    simp only [BT.inorderV] at hs
    obtain ⟨hsl, hsr, hlx, hxr⟩ := (sorted_append_cons_iff _ _ _).mp hs
    simp only [insertWalk]
    rcases lt_trichotomy v x with h | h | h
    · simp only [if_pos h, BT.inorderV]
      rw [ihl hsl]
      have : ∀ l₂, insSorted v (l.inorderV ++ x :: l₂) =
          insSorted v l.inorderV ++ x :: l₂ := by
        intro l₂
        induction l.inorderV with
        | nil => simp [insSorted, h]
        | cons a as iha =>
          simp only [List.cons_append, insSorted, List.append_eq]
          split
          · rfl
          · split
            · rfl
            · rw [iha]; simp
      rw [this]
    · subst h
      simp only [if_neg (lt_irrefl v), BT.inorderV]
      rw [insSorted_of_mem hs (by simp [List.mem_append])]
    · simp only [if_neg (by omega : ¬ v < x), if_pos h, BT.inorderV]
      rw [ihr hsr]
      have hvl : ∀ a ∈ l.inorderV ++ [x], a < v := by
        intro a ha
        rcases List.mem_append.mp ha with ha | ha
        · exact lt_trans (hlx a ha) h
        · simpa using (List.mem_singleton.mp ha) ▸ h
      have : insSorted v (l.inorderV ++ x :: r.inorderV) =
          l.inorderV ++ x :: insSorted v r.inorderV := by
        have step : ∀ pre, (∀ a ∈ pre, a < v) →
            insSorted v (pre ++ r.inorderV) = pre ++ insSorted v r.inorderV := by
          intro pre hpre
          induction pre with
          | nil => rfl
          | cons a as iha =>
            have hav : a < v := hpre a (List.mem_cons_self a as)
            simp only [List.cons_append, insSorted, if_neg (by omega : ¬ v < a),
              if_neg (by omega : ¬ v = a), List.append_eq]
            rw [iha (fun b hb => hpre b (List.mem_cons_of_mem a hb))]
        have := step (l.inorderV ++ [x]) hvl
        simpa using this
      rw [this]

theorem insertWalk_dup {t : BT} {v : Int} (nid : String)
    (hs : List.Sorted (· < ·) t.inorderV) (hv : v ∈ t.inorderV) :
    insertWalk t v nid =
      (t, [Step.status (Msg.valueAlreadyExistsInTree v) 1000], false) := by
  induction t with
  | nil => cases hv
  | node l x id r ihl ihr =>
    simp only [BT.inorderV] at hs hv
    obtain ⟨hsl, hsr, hlx, hxr⟩ := (sorted_append_cons_iff _ _ _).mp hs
    simp only [insertWalk]
    rcases lt_trichotomy v x with h | h | h
    · have hvl : v ∈ l.inorderV := by
        rcases List.mem_append.mp hv with h2 | h2
        · exact h2
        · rcases List.mem_cons.mp h2 with rfl | h3
          · omega
          · exact absurd (hxr v h3) (by omega)
      rw [if_pos h, ihl hsl hvl]
    · subst h
      simp [if_neg (lt_irrefl v)]
    · have hvr : v ∈ r.inorderV := by
        rcases List.mem_append.mp hv with h2 | h2
        · exact absurd (hlx v h2) (by omega)
        · rcases List.mem_cons.mp h2 with rfl | h3
          · omega
          · exact h3
      rw [if_neg (by omega : ¬ v < x), if_pos h, ihr hsr hvr]

theorem insertWalk_fresh {t : BT} {v : Int} (nid : String)
    (hv : v ∉ t.inorderV) :
    (insertWalk t v nid).2 =
      ([Step.status (Msg.insertedSuccessfully v) 1000], true) := by
  induction t with
  | nil => rfl
  | node l x id r ihl ihr =>
    simp only [BT.inorderV, List.mem_append, List.mem_cons] at hv
    push_neg at hv
    obtain ⟨hvl, hvx, hvr⟩ := hv
    simp only [insertWalk]
    rcases lt_trichotomy v x with h | h | h
    · rw [if_pos h]
      have hspec := ihl hvl
      rcases heq : insertWalk l v nid with ⟨l1, s, b⟩
      rw [heq] at hspec
      exact hspec
    · exact absurd h hvx
    · rw [if_neg (by omega : ¬ v < x), if_pos h]
      have hspec := ihr hvr
      rcases heq : insertWalk r v nid with ⟨r1, s, b⟩
      rw [heq] at hspec
      exact hspec

theorem deleteNode_not_mem {t : BT} {v : Int} (hv : v ∉ t.inorderV) :
    deleteNode t v = (t, [Step.status (Msg.notFoundForDeletion v) 1000]) := by
  induction t with
  | nil => rfl
  | node l x id r ihl ihr =>
    simp only [BT.inorderV, List.mem_append, List.mem_cons] at hv
    push_neg at hv
    obtain ⟨hvl, hvx, hvr⟩ := hv
    rw [deleteNode.eq_def]
    dsimp only []
    rcases lt_trichotomy v x with h | h | h
    · rw [if_pos h, ihl hvl]
    · exact absurd h hvx
    · rw [if_neg (by omega : ¬ v < x), if_pos h, ihr hvr]

theorem findMinB_spec (t : BT) (h : t ≠ BT.nil) :
    ∃ mid rest, findMinB t = some (mid, t.inorderV.headI) ∧
      t.inorderV = t.inorderV.headI :: rest := by
  induction t with
  | nil => exact absurd rfl h
  | node l x id r ihl ihr =>
    cases l with
    | nil =>
      exact ⟨id, r.inorderV, by simp [findMinB, BT.inorderV], by simp [BT.inorderV]⟩
    | node a w i b =>
      obtain ⟨mid, rest, h1, h2⟩ := ihl (by intro hc; cases hc)
      have hout : (BT.node (BT.node a w i b) x id r).inorderV =
          (BT.node a w i b).inorderV ++ x :: r.inorderV := rfl
      have hhead : (BT.node (BT.node a w i b) x id r).inorderV.headI =
          (BT.node a w i b).inorderV.headI := by
        rw [hout, h2]
        rfl
      refine ⟨mid, rest ++ x :: r.inorderV, ?_, ?_⟩
      · rw [hhead]
        simpa [findMinB] using h1
      · rw [hhead, hout, h2]
        simp

theorem deleteNode_mem {t : BT} : ∀ {v : Int},
    List.Sorted (· < ·) t.inorderV → v ∈ t.inorderV →
    ((deleteNode t v).1).inorderV = delSorted v t.inorderV := by
  induction t with
  | nil => intro v _ hv; cases hv
  | node l x id r ihl ihr =>
    intro v hs hv
    simp only [BT.inorderV] at hs hv ⊢
    obtain ⟨hsl, hsr, hlx, hxr⟩ := (sorted_append_cons_iff _ _ _).mp hs
    rw [deleteNode.eq_def]
    dsimp only []
    rcases lt_trichotomy v x with h | h | h
    · have hvl : v ∈ l.inorderV := by
        rcases List.mem_append.mp hv with h2 | h2
        · exact h2
        · rcases List.mem_cons.mp h2 with rfl | h3
          · omega
          · exact absurd (hxr v h3) (by omega)
      rw [if_pos h]
      simp only [BT.inorderV]
      rw [ihl hsl hvl, delSorted_append_left hvl]
    · subst h
      have hvnl : v ∉ l.inorderV := fun h2 => absurd (hlx v h2) (by omega)
      simp only [if_neg (lt_irrefl v)]
      cases l with
      | nil =>
        cases r with
        | nil => simp [BT.inorderV, delSorted]
        | node a2 w2 i2 b2 => simp [BT.inorderV, delSorted]
      | node a w i b =>
        cases r with
        | nil =>
          dsimp only []
          rw [delSorted_append_right hvnl]
          simp [BT.inorderV, delSorted]
        | node a2 w2 i2 b2 =>
          dsimp only []
          obtain ⟨mid, rest, hmin, hhead⟩ := findMinB_spec (BT.node a2 w2 i2 b2)
            (by intro hc; cases hc)
          rw [hmin]
          dsimp only []
          have hmv : (BT.node a2 w2 i2 b2).inorderV.headI ∈
              (BT.node a2 w2 i2 b2).inorderV := by
            rw [hhead]
            exact List.mem_cons_self _ _
          have hdel := ihr hsr hmv
          rw [BT.inorderV_nodeB, hdel, delSorted_append_right hvnl]
          congr 1
          rw [hhead]
          simp [delSorted]
    · have hvr : v ∈ r.inorderV := by
        rcases List.mem_append.mp hv with h2 | h2
        · exact absurd (hlx v h2) (by omega)
        · rcases List.mem_cons.mp h2 with rfl | h3
          · omega
          · exact h3
      rw [if_neg (by omega : ¬ v < x), if_pos h]
      simp only [BT.inorderV]
      rw [ihr hsr hvr,
        delSorted_append_right (fun h2 => absurd (hlx v h2) (by omega)),
        delSorted]
      rw [if_neg (by omega : ¬ v = x)]

theorem searchGo_spec {t : BT} {v : Int}
    (hs : List.Sorted (· < ·) t.inorderV) :
    (searchGo t v).2 = true ↔ v ∈ t.inorderV := by
  induction t with
  | nil => simp [searchGo, BT.inorderV]
  | node l x id r ihl ihr =>
    simp only [BT.inorderV] at hs ⊢
    obtain ⟨hsl, hsr, hlx, hxr⟩ := (sorted_append_cons_iff _ _ _).mp hs
    simp only [searchGo]
    rcases lt_trichotomy v x with h | h | h
    · rw [if_neg (by omega : ¬ v = x), if_pos h, ihl hsl]
      constructor
      · intro h2; exact List.mem_append.mpr (Or.inl h2)
      · intro h2
        rcases List.mem_append.mp h2 with h3 | h3
        · exact h3
        · rcases List.mem_cons.mp h3 with rfl | h4
          · omega
          · exact absurd (hxr v h4) (by omega)
    · subst h
      simp
    · rw [if_neg (by omega : ¬ v = x), if_neg (by omega : ¬ v < x), ihr hsr]
      constructor
      · intro h2; exact List.mem_append.mpr (Or.inr (List.mem_cons_of_mem x h2))
      · intro h2
        rcases List.mem_append.mp h2 with h3 | h3
        · exact absurd (hlx v h3) (by omega)
        · rcases List.mem_cons.mp h3 with rfl | h4
          · omega
          · exact h4

/-- One public BST call preserves strict sortedness of the inorder list. -/
theorem runBSTOp_sorted {s : BSTState} (hs : List.Sorted (· < ·) s.root.inorderV)
    (op : BSTOp) : List.Sorted (· < ·) (runBSTOp s op).root.inorderV := by
  cases op with
  | ins v =>
    cases ht : s.root with
    | nil =>
      simp only [runBSTOp, insert, ht]
      simp [BT.inorderV]
    | node l x id r =>
      have hs2 : List.Sorted (· < ·) (BT.node l x id r).inorderV := ht ▸ hs
      simp only [runBSTOp, insert, ht]
      rw [insertWalk_inorder _ v (generateId s.counter) hs2]
      exact sorted_insSorted hs2
  | del v =>
    simp only [runBSTOp, delete]
    by_cases hv : v ∈ s.root.inorderV
    · rw [deleteNode_mem hs hv]
      exact sorted_delSorted hs
    · rw [deleteNode_not_mem hv]
      exact hs

/-- Every reachable BST state has a strictly sorted inorder list. -/
theorem bstReach_sorted {s : BSTState} (h : BSTReach s) :
    List.Sorted (· < ·) s.root.inorderV := by
  obtain ⟨ops, hops⟩ := h
  subst hops
  suffices h : ∀ (ops : List BSTOp) (s0 : BSTState),
      List.Sorted (· < ·) s0.root.inorderV →
      List.Sorted (· < ·) (runBSTFrom s0 ops).root.inorderV by
    exact h ops ⟨BT.nil, 0⟩ (by simp [BT.inorderV])
  intro ops
  induction ops with
  | nil => intro s0 h0; exact h0
  | cons op rest ih =>
    intro s0 h0
    exact ih (runBSTOp s0 op) (runBSTOp_sorted h0 op)

end BST

/-! ## More sorted-list helpers, for insertion position bookkeeping -/

theorem insSorted_append_lt {v x : Int} (l r : List Int) (h : v < x) :
    insSorted v (l ++ x :: r) = insSorted v l ++ x :: r := by
  induction l with
  | nil => simp [insSorted, h]
  | cons a as ih =>
    simp only [List.cons_append, insSorted, List.append_eq]
    split
    · rfl
    · split
      · rfl
      · rw [ih]
        simp

theorem insSorted_append_gt {v x : Int} (l r : List Int)
    (hl : ∀ a ∈ l, a < v) (h : x < v) :
    insSorted v (l ++ x :: r) = l ++ x :: insSorted v r := by
  induction l with
  | nil =>
    simp only [List.nil_append, insSorted,
      if_neg (by omega : ¬ v < x), if_neg (by omega : ¬ v = x)]
  | cons a as ih =>
    have hav : a < v := hl a (List.mem_cons_self a as)
    simp only [List.cons_append, insSorted, if_neg (by omega : ¬ v < a),
      if_neg (by omega : ¬ v = a), List.append_eq]
    rw [ih (fun b hb => hl b (List.mem_cons_of_mem a hb))]

/-! ## AVL engine proofs -/

namespace AVLTree

/-- The value at the root (junk for the empty tree; used only on nodes). -/
def rootValue : AVL → Int
  | AVL.nil => 0
  | AVL.node _ v _ _ _ => v

/-- The stored `height` field is the correct subtree height at every node. -/
def Hok : AVL → Prop
  | AVL.nil => True
  | AVL.node l _ _ h r => Hok l ∧ Hok r ∧ h = 1 + max (getHeight l) (getHeight r)

/-- The stored-height balance factor is within `[-1, 1]` at every node. -/
def Bal : AVL → Prop
  | AVL.nil => True
  | AVL.node l _ _ _ r =>
    Bal l ∧ Bal r ∧ ((getHeight l : Int) - getHeight r).natAbs ≤ 1

theorem getHeight_nil : getHeight AVL.nil = 0 := rfl

theorem getHeight_node (l : AVL) (v : Int) (id h : Nat) (r : AVL) :
    getHeight (AVL.node l v id h r) = h := rfl

theorem getBalanceFactor_node (l : AVL) (v : Int) (id h : Nat) (r : AVL) :
    getBalanceFactor (AVL.node l v id h r) =
      (getHeight l : Int) - getHeight r := rfl

theorem hok_height {t : AVL} (h : Hok t) : getHeight t = realHeight t := by
  induction t with
  | nil => rfl
  | node l v id hh r ihl ihr =>
    obtain ⟨hl, hr, hh2⟩ := h
    show hh = realHeight (AVL.node l v id hh r)
    simp only [realHeight, ← ihl hl, ← ihr hr]
    exact hh2

theorem balancedReal_of_inv {t : AVL} (hok : Hok t) (hbal : Bal t) :
    balancedReal t = true := by
  induction t with
  | nil => rfl
  | node l v id hh r ihl ihr =>
    obtain ⟨hokl, hokr, _⟩ := hok
    obtain ⟨hball, hbalr, habs⟩ := hbal
    simp only [balancedReal, Bool.and_eq_true, decide_eq_true_eq]
    refine ⟨⟨?_, ihl hokl hball⟩, ihr hokr hbalr⟩
    rw [← hok_height hokl, ← hok_height hokr]
    exact habs

theorem hok_nil_iff {t : AVL} (h : Hok t) : getHeight t = 0 ↔ t = AVL.nil := by
  cases t with
  | nil => simp [getHeight]
  | node l v id hh r =>
    obtain ⟨_, _, hh2⟩ := h
    simp only [getHeight, hh2]
    constructor
    · omega
    · intro hc; cases hc

/-- Definitional description of `rotateRight` with the recomputed heights. -/
theorem rotateRight_eq (ll : AVL) (lv : Int) (lid : Nat) (lh : Nat) (lr : AVL)
    (x : Int) (id : Nat) (h : Nat) (r : AVL) :
    rotateRight (AVL.node (AVL.node ll lv lid lh lr) x id h r) =
      some (AVL.node ll lv lid
          (1 + max (getHeight ll) (1 + max (getHeight lr) (getHeight r)))
          (AVL.node lr x id (1 + max (getHeight lr) (getHeight r)) r),
        [Step.status (Msg.rightRotationAtLL x) 800,
          Step.highlight lid HState.pivot 600]) := rfl

/-- Definitional description of `rotateLeft` with the recomputed heights. -/
theorem rotateLeft_eq (l : AVL) (x : Int) (id : Nat) (h : Nat)
    (rl : AVL) (rv : Int) (rid : Nat) (rh : Nat) (rr : AVL) :
    rotateLeft (AVL.node l x id h (AVL.node rl rv rid rh rr)) =
      some (AVL.node (AVL.node l x id (1 + max (getHeight l) (getHeight rl)) rl)
          rv rid (1 + max (1 + max (getHeight l) (getHeight rl)) (getHeight rr)) rr,
        [Step.status (Msg.leftRotationAtRR x) 800,
          Step.highlight rid HState.pivot 600]) := rfl

/-- With the balance factor already in `[-1, 1]`, the insert dispatch is a
no-op. -/
theorem insRebalance_id {t : AVL} (v : Int)
    (h1 : ¬ 1 < getBalanceFactor t) (h2 : ¬ getBalanceFactor t < -1) :
    insRebalance t v = some (t, []) := by
  cases t with
  | nil => rfl
  | node l x id hh r =>
    simp only [insRebalance, if_neg h1, if_neg h2]

/-- With the balance factor already in `[-1, 1]`, the delete dispatch is a
no-op. -/
theorem delRebalance_id {t : AVL}
    (h1 : ¬ 1 < getBalanceFactor t) (h2 : ¬ getBalanceFactor t < -1) :
    delRebalance t = some (t, []) := by
  cases t with
  | nil => rfl
  | node l x id hh r =>
    simp only [delRebalance]
    rw [if_neg (by simp [h1]), if_neg (by simp [h1]),
      if_neg (by simp [h2]), if_neg (by simp [h2])]

/-- `updateHeight` is the identity on trees whose stored heights are already
correct. -/
theorem updateHeight_id {l : AVL} {x : Int} {id : Nat} {h : Nat} {r : AVL}
    (hh : h = 1 + max (getHeight l) (getHeight r)) :
    updateHeight (AVL.node l x id h r) = AVL.node l x id h r := by
  simp [updateHeight, hh]

/-- Main correctness of `_insertNode` on a value not yet present: the call
returns normally, preserves the height and balance invariants and sorted
order, inserts the value into the inorder list, and grows the (stored)
height by at most one; when it does grow a nonempty tree, the root keeps its
value and tips toward the inserted side. -/
theorem insertNode_fresh {t : AVL} : ∀ {v : Int} {ctr : Nat},
    Hok t → Bal t → List.Sorted (· < ·) t.inorderV → v ∉ t.inorderV →
    ∃ t' steps, insertNode t v ctr = some (t', ctr + 1, steps) ∧
      Hok t' ∧ Bal t' ∧ t'.inorderV = insSorted v t.inorderV ∧
      (getHeight t' = getHeight t ∨
        (getHeight t' = getHeight t + 1 ∧
          (t = AVL.nil ∨
            (rootValue t' = rootValue t ∧
              ((v < rootValue t ∧ getBalanceFactor t' = 1) ∨
                (rootValue t < v ∧ getBalanceFactor t' = -1)))))) := by
  induction t with
  | nil =>
    intro v ctr _ _ _ _
    exact ⟨AVL.node AVL.nil v ctr 1 AVL.nil, _, rfl,
      ⟨trivial, trivial, rfl⟩, ⟨trivial, trivial, by simp⟩,
      by simp [AVL.inorderV, insSorted],
      Or.inr ⟨rfl, Or.inl rfl⟩⟩
  | node l x id h r ihl ihr =>
    intro v ctr hok hbal hsort hv
    obtain ⟨hokl, hokr, hh⟩ := hok
    obtain ⟨hball, hbalr, habs⟩ := hbal
    rw [AVL.inorderV_nodeA] at hsort hv
    obtain ⟨hsl, hsr, hlx, hxr⟩ := (sorted_append_cons_iff _ _ _).mp hsort
    simp only [List.mem_append, List.mem_cons] at hv
    push_neg at hv
    obtain ⟨hvl, hvx, hvr⟩ := hv
    rcases lt_trichotomy v x with hlt | heqx | hgt
    · -- insertion goes left
      obtain ⟨l', s1, heq, hokl', hball', hord', hht'⟩ := ihl hokl hball hsl hvl
      have hgrow : getHeight l' = getHeight l ∨ getHeight l' = getHeight l + 1 := by
        rcases hht' with h1 | ⟨h1, _⟩
        · exact Or.inl h1
        · exact Or.inr h1
      by_cases hbig : 1 < (getHeight l' : Int) - getHeight r
      · -- balance overflowed to +2: rotation case
        have hl1 : getHeight l' = getHeight l + 1 := by
          rcases hgrow with h1 | h1 <;> omega
        have hlr2 : getHeight l' = getHeight r + 2 := by omega
        have hlnil : l ≠ AVL.nil := by
          intro hc
          rw [hc, getHeight_nil] at hl1
          omega
        rcases hht' with h1 | ⟨h1, hpack⟩
        · omega
        rcases hpack with hc | ⟨hrv, hdir⟩
        · exact absurd hc hlnil
        cases hl' : l' with
        | nil => rw [hl', getHeight_nil] at hlr2; exact absurd hlr2 (by omega)
        | node ll' lv' lid' lh' lr' =>
          rw [hl'] at heq hokl' hball' hord' hrv hdir hlr2 hbig
          obtain ⟨hokll', hoklr', hlh'⟩ := hokl'
          obtain ⟨hballl', hballr', habsl'⟩ := hball'
          have hlv' : lv' = rootValue l := hrv
          rw [getHeight_node] at hlr2
          rw [hl', getHeight_node] at h1
          rcases hdir with ⟨hvlt, hbf⟩ | ⟨hvgt, hbf⟩
          · -- Left-Left: single right rotation
            have hvlv : v < lv' := by rw [hlv']; exact hvlt
            have hbf2 : (getHeight ll' : Int) - getHeight lr' = 1 := hbf
            have hll'h : getHeight ll' = getHeight r + 1 := by omega
            have hlr'h : getHeight lr' = getHeight r := by omega
            have hreb : insRebalance (AVL.node (AVL.node ll' lv' lid' lh' lr')
                x id (1 + max (getHeight (AVL.node ll' lv' lid' lh' lr'))
                  (getHeight r)) r) v =
                some (AVL.node ll' lv' lid'
                  (1 + max (getHeight ll') (1 + max (getHeight lr') (getHeight r)))
                  (AVL.node lr' x id (1 + max (getHeight lr') (getHeight r)) r),
                  [Step.status (Msg.llCaseDetectedAt x) 600,
                    Step.status (Msg.rightRotationAtLL x) 800,
                    Step.highlight lid' HState.pivot 600]) := by
              simp only [insRebalance]
              rw [if_pos (show 1 < getBalanceFactor (AVL.node
                  (AVL.node ll' lv' lid' lh' lr') x id
                  (1 + max (getHeight (AVL.node ll' lv' lid' lh' lr'))
                    (getHeight r)) r) from hbig),
                if_pos hvlv, rotateRight_eq]
              rfl
            obtain ⟨steps, hrun⟩ : ∃ st,
                insertNode (AVL.node l x id h r) v ctr =
                  some (AVL.node ll' lv' lid'
                    (1 + max (getHeight ll') (1 + max (getHeight lr') (getHeight r)))
                    (AVL.node lr' x id (1 + max (getHeight lr') (getHeight r)) r),
                    ctr + 1, st) := ⟨_, by
              rw [insertNode.eq_def]
              dsimp only []
              rw [if_pos hlt, heq]
              show Option.bind (insRebalance (AVL.node (AVL.node ll' lv' lid' lh' lr')
                x id (1 + max (getHeight (AVL.node ll' lv' lid' lh' lr'))
                  (getHeight r)) r) v) _ = _
              rw [hreb]; rfl⟩
            refine ⟨_, steps, hrun, ?_, ?_, ?_, ?_⟩
            · exact ⟨hokll', ⟨hoklr', hokr, rfl⟩, rfl⟩
            · refine ⟨hballl', ⟨hballr', hbalr, ?_⟩, ?_⟩ <;> (try simp only [getHeight_node]) <;> omega
            · rw [AVL.inorderV_nodeA, AVL.inorderV_nodeA, AVL.inorderV_nodeA]
              rw [AVL.inorderV_nodeA] at hord'
              rw [insSorted_append_lt _ _ hlt, ← hord']
              simp
            · left
              simp only [getHeight_node, hh]
              omega
          · -- Left-Right: left rotation at the child, then right rotation
            have hvgv : lv' < v := by rw [hlv']; exact hvgt
            have hbf2 : (getHeight ll' : Int) - getHeight lr' = -1 := hbf
            have hlr'h : getHeight lr' = getHeight r + 1 := by omega
            have hll'h : getHeight ll' = getHeight r := by omega
            cases hlr'e : lr' with
            | nil => rw [hlr'e, getHeight_nil] at hlr'h; exact absurd hlr'h (by omega)
            | node A y yid yh B =>
              rw [hlr'e] at heq hoklr' hballr' hord' hlr'h habsl' hbf2 hlh'
              obtain ⟨hokA, hokB, hyh⟩ := hoklr'
              obtain ⟨hbalA, hbalB, habsAB⟩ := hballr'
              rw [getHeight_node] at hlr'h habsl' hbf2 hlh'
              have hmaxAB : max (getHeight A) (getHeight B) = getHeight r := by omega
              have hreb : insRebalance (AVL.node
                  (AVL.node ll' lv' lid' lh' (AVL.node A y yid yh B))
                  x id (1 + max (getHeight (AVL.node ll' lv' lid' lh'
                    (AVL.node A y yid yh B))) (getHeight r)) r) v =
                  some (AVL.node
                    (AVL.node ll' lv' lid' (1 + max (getHeight ll') (getHeight A)) A)
                    y yid (1 + max (1 + max (getHeight ll') (getHeight A))
                      (1 + max (getHeight B) (getHeight r)))
                    (AVL.node B x id (1 + max (getHeight B) (getHeight r)) r),
                    [Step.status (Msg.lrCaseDetectedAt x) 600,
                      Step.status (Msg.leftRotationAtRR lv') 800,
                      Step.highlight yid HState.pivot 600,
                      Step.status (Msg.rightRotationAtLL x) 800,
                      Step.highlight yid HState.pivot 600]) := by
                simp only [insRebalance]
                rw [if_pos (show 1 < getBalanceFactor (AVL.node
                    (AVL.node ll' lv' lid' lh' (AVL.node A y yid yh B)) x id
                    (1 + max (getHeight (AVL.node ll' lv' lid' lh'
                      (AVL.node A y yid yh B))) (getHeight r)) r) from hbig),
                  if_neg (by omega : ¬ v < lv'), if_pos hvgv]
                rfl
              obtain ⟨steps, hrun⟩ : ∃ st,
                  insertNode (AVL.node l x id h r) v ctr =
                    some (AVL.node
                      (AVL.node ll' lv' lid' (1 + max (getHeight ll') (getHeight A)) A)
                      y yid (1 + max (1 + max (getHeight ll') (getHeight A))
                        (1 + max (getHeight B) (getHeight r)))
                      (AVL.node B x id (1 + max (getHeight B) (getHeight r)) r),
                      ctr + 1, st) := ⟨_, by
                rw [insertNode.eq_def]
                dsimp only []
                rw [if_pos hlt, heq]
                show Option.bind (insRebalance (AVL.node
                  (AVL.node ll' lv' lid' lh' (AVL.node A y yid yh B))
                  x id (1 + max (getHeight (AVL.node ll' lv' lid' lh'
                    (AVL.node A y yid yh B))) (getHeight r)) r) v) _ = _
                rw [hreb]; rfl⟩
              refine ⟨_, steps, hrun, ?_, ?_, ?_, ?_⟩
              · exact ⟨⟨hokll', hokA, rfl⟩, ⟨hokB, hokr, rfl⟩, rfl⟩
              · refine ⟨⟨hballl', hbalA, ?_⟩, ⟨hbalB, hbalr, ?_⟩, ?_⟩ <;> (try simp only [getHeight_node]) <;> omega
              · rw [AVL.inorderV_nodeA, AVL.inorderV_nodeA, AVL.inorderV_nodeA,
                  AVL.inorderV_nodeA]
                rw [AVL.inorderV_nodeA, AVL.inorderV_nodeA] at hord'
                rw [insSorted_append_lt _ _ hlt, ← hord']
                simp
              · left
                simp only [getHeight_node, hh]
                omega
      · -- balance stays within range: no rotation
        have hnlow : ¬ (getHeight l' : Int) - getHeight r < -1 := by
          rcases hgrow with h1 | h1 <;> omega
        obtain ⟨steps, hrun⟩ : ∃ st,
            insertNode (AVL.node l x id h r) v ctr =
              some (AVL.node l' x id (1 + max (getHeight l') (getHeight r)) r,
                ctr + 1, st) := ⟨_, by
          rw [insertNode.eq_def]
          dsimp only []
          rw [if_pos hlt, heq]
          show Option.bind (insRebalance (AVL.node l' x id
            (1 + max (getHeight l') (getHeight r)) r) v) _ = _
          rw [insRebalance_id v (by rw [getBalanceFactor_node]; exact hbig)
            (by rw [getBalanceFactor_node]; exact hnlow)]; rfl⟩
        refine ⟨_, steps, hrun, ?_, ?_, ?_, ?_⟩
        · exact ⟨hokl', hokr, rfl⟩
        · exact ⟨hball', hbalr, by omega⟩
        · rw [AVL.inorderV_nodeA, AVL.inorderV_nodeA, hord',
            insSorted_append_lt _ _ hlt]
        · simp only [getHeight_node, hh]
          rcases hgrow with h1 | h1
          · left; omega
          · by_cases hcase : getHeight r < getHeight l + 1
            · right
              refine ⟨by omega, Or.inr ⟨rfl, Or.inl ⟨hlt, ?_⟩⟩⟩
              rw [getBalanceFactor_node]
              omega
            · left; omega
    · exact absurd heqx hvx
    · -- insertion goes right (mirror)
      obtain ⟨r', s1, heq, hokr', hbalr', hord', hht'⟩ := ihr hokr hbalr hsr hvr
      have hgrow : getHeight r' = getHeight r ∨ getHeight r' = getHeight r + 1 := by
        rcases hht' with h1 | ⟨h1, _⟩
        · exact Or.inl h1
        · exact Or.inr h1
      by_cases hbig : (getHeight l : Int) - getHeight r' < -1
      · -- balance overflowed to -2: rotation case
        have hr1 : getHeight r' = getHeight r + 1 := by
          rcases hgrow with h1 | h1 <;> omega
        have hrl2 : getHeight r' = getHeight l + 2 := by omega
        have hrnil : r ≠ AVL.nil := by
          intro hc
          rw [hc, getHeight_nil] at hr1
          omega
        rcases hht' with h1 | ⟨h1, hpack⟩
        · omega
        rcases hpack with hc | ⟨hrv, hdir⟩
        · exact absurd hc hrnil
        cases hr' : r' with
        | nil => rw [hr', getHeight_nil] at hrl2; exact absurd hrl2 (by omega)
        | node rl' rv' rid' rh' rr' =>
          rw [hr'] at heq hokr' hbalr' hord' hrv hdir hrl2 hbig
          obtain ⟨hokrl', hokrr', hrh'⟩ := hokr'
          obtain ⟨hbalrl', hbalrr', habsr'⟩ := hbalr'
          have hrv' : rv' = rootValue r := hrv
          rw [getHeight_node] at hrl2
          rw [hr', getHeight_node] at h1
          rcases hdir with ⟨hvlt, hbf⟩ | ⟨hvgt, hbf⟩
          · -- Right-Left: right rotation at the child, then left rotation
            have hvlv : v < rv' := by rw [hrv']; exact hvlt
            have hbf2 : (getHeight rl' : Int) - getHeight rr' = 1 := hbf
            have hrl'h : getHeight rl' = getHeight l + 1 := by omega
            have hrr'h : getHeight rr' = getHeight l := by omega
            cases hrl'e : rl' with
            | nil => rw [hrl'e, getHeight_nil] at hrl'h; exact absurd hrl'h (by omega)
            | node A y yid yh B =>
              rw [hrl'e] at heq hokrl' hbalrl' hord' hrl'h habsr' hbf2 hrh'
              obtain ⟨hokA, hokB, hyh⟩ := hokrl'
              obtain ⟨hbalA, hbalB, habsAB⟩ := hbalrl'
              rw [getHeight_node] at hrl'h habsr' hbf2 hrh'
              have hmaxAB : max (getHeight A) (getHeight B) = getHeight l := by omega
              have hreb : insRebalance (AVL.node l x id
                  (1 + max (getHeight l) (getHeight (AVL.node
                    (AVL.node A y yid yh B) rv' rid' rh' rr')))
                  (AVL.node (AVL.node A y yid yh B) rv' rid' rh' rr')) v =
                  some (AVL.node
                    (AVL.node l x id (1 + max (getHeight l) (getHeight A)) A)
                    y yid (1 + max (1 + max (getHeight l) (getHeight A))
                      (1 + max (getHeight B) (getHeight rr')))
                    (AVL.node B rv' rid' (1 + max (getHeight B) (getHeight rr')) rr'),
                    [Step.status (Msg.rlCaseDetectedAt x) 600,
                      Step.status (Msg.rightRotationAtLL rv') 800,
                      Step.highlight yid HState.pivot 600,
                      Step.status (Msg.leftRotationAtRR x) 800,
                      Step.highlight yid HState.pivot 600]) := by
                simp only [insRebalance]
                rw [if_neg (by rw [getBalanceFactor_node, getHeight_node]; omega),
                  if_pos (show getBalanceFactor (AVL.node l x id
                    (1 + max (getHeight l) (getHeight (AVL.node
                      (AVL.node A y yid yh B) rv' rid' rh' rr')))
                    (AVL.node (AVL.node A y yid yh B) rv' rid' rh' rr')) < -1
                    from hbig),
                  if_neg (by omega : ¬ rv' < v), if_pos hvlv]
                rfl
              obtain ⟨steps, hrun⟩ : ∃ st,
                  insertNode (AVL.node l x id h r) v ctr =
                    some (AVL.node
                      (AVL.node l x id (1 + max (getHeight l) (getHeight A)) A)
                      y yid (1 + max (1 + max (getHeight l) (getHeight A))
                        (1 + max (getHeight B) (getHeight rr')))
                      (AVL.node B rv' rid' (1 + max (getHeight B) (getHeight rr')) rr'),
                      ctr + 1, st) := ⟨_, by
                rw [insertNode.eq_def]
                dsimp only []
                rw [if_neg (by omega : ¬ v < x), if_pos hgt, heq]
                show Option.bind (insRebalance (AVL.node l x id
                  (1 + max (getHeight l) (getHeight (AVL.node
                    (AVL.node A y yid yh B) rv' rid' rh' rr')))
                  (AVL.node (AVL.node A y yid yh B) rv' rid' rh' rr')) v) _ = _
                rw [hreb]; rfl⟩
              refine ⟨_, steps, hrun, ?_, ?_, ?_, ?_⟩
              · exact ⟨⟨hokl, hokA, rfl⟩, ⟨hokB, hokrr', rfl⟩, rfl⟩
              · refine ⟨⟨hball, hbalA, ?_⟩, ⟨hbalB, hbalrr', ?_⟩, ?_⟩ <;> (try simp only [getHeight_node]) <;> omega
              · rw [AVL.inorderV_nodeA, AVL.inorderV_nodeA, AVL.inorderV_nodeA,
                  AVL.inorderV_nodeA]
                rw [AVL.inorderV_nodeA, AVL.inorderV_nodeA] at hord'
                rw [insSorted_append_gt _ _ (fun a ha => lt_trans (hlx a ha) hgt) hgt,
                  ← hord']
                simp
              · left
                simp only [getHeight_node, hh]
                omega
          · -- Right-Right: single left rotation
            have hvgv : rv' < v := by rw [hrv']; exact hvgt
            have hbf2 : (getHeight rl' : Int) - getHeight rr' = -1 := hbf
            have hrr'h : getHeight rr' = getHeight l + 1 := by omega
            have hrl'h : getHeight rl' = getHeight l := by omega
            have hreb : insRebalance (AVL.node l x id
                (1 + max (getHeight l) (getHeight (AVL.node rl' rv' rid' rh' rr')))
                (AVL.node rl' rv' rid' rh' rr')) v =
                some (AVL.node
                  (AVL.node l x id (1 + max (getHeight l) (getHeight rl')) rl')
                  rv' rid' (1 + max (1 + max (getHeight l) (getHeight rl'))
                    (getHeight rr')) rr',
                  [Step.status (Msg.rrCaseDetectedAt x) 600,
                    Step.status (Msg.leftRotationAtRR x) 800,
                    Step.highlight rid' HState.pivot 600]) := by
              simp only [insRebalance]
              rw [if_neg (by rw [getBalanceFactor_node, getHeight_node]; omega),
                if_pos (show getBalanceFactor (AVL.node l x id
                  (1 + max (getHeight l) (getHeight (AVL.node rl' rv' rid' rh' rr')))
                  (AVL.node rl' rv' rid' rh' rr')) < -1 from hbig),
                if_pos hvgv, rotateLeft_eq]
              rfl
            obtain ⟨steps, hrun⟩ : ∃ st,
                insertNode (AVL.node l x id h r) v ctr =
                  some (AVL.node
                    (AVL.node l x id (1 + max (getHeight l) (getHeight rl')) rl')
                    rv' rid' (1 + max (1 + max (getHeight l) (getHeight rl'))
                      (getHeight rr')) rr',
                    ctr + 1, st) := ⟨_, by
              rw [insertNode.eq_def]
              dsimp only []
              rw [if_neg (by omega : ¬ v < x), if_pos hgt, heq]
              show Option.bind (insRebalance (AVL.node l x id
                (1 + max (getHeight l) (getHeight (AVL.node rl' rv' rid' rh' rr')))
                (AVL.node rl' rv' rid' rh' rr')) v) _ = _
              rw [hreb]; rfl⟩
            refine ⟨_, steps, hrun, ?_, ?_, ?_, ?_⟩
            · exact ⟨⟨hokl, hokrl', rfl⟩, hokrr', rfl⟩
            · refine ⟨⟨hball, hbalrl', ?_⟩, hbalrr', ?_⟩ <;> (try simp only [getHeight_node]) <;> omega
            · rw [AVL.inorderV_nodeA, AVL.inorderV_nodeA, AVL.inorderV_nodeA]
              rw [AVL.inorderV_nodeA] at hord'
              rw [insSorted_append_gt _ _ (fun a ha => lt_trans (hlx a ha) hgt) hgt,
                ← hord']
              simp
            · left
              simp only [getHeight_node, hh]
              omega
      · -- balance stays within range: no rotation
        have hnhigh : ¬ 1 < (getHeight l : Int) - getHeight r' := by
          rcases hgrow with h1 | h1 <;> omega
        obtain ⟨steps, hrun⟩ : ∃ st,
            insertNode (AVL.node l x id h r) v ctr =
              some (AVL.node l x id (1 + max (getHeight l) (getHeight r')) r',
                ctr + 1, st) := ⟨_, by
          rw [insertNode.eq_def]
          dsimp only []
          rw [if_neg (by omega : ¬ v < x), if_pos hgt, heq]
          show Option.bind (insRebalance (AVL.node l x id
            (1 + max (getHeight l) (getHeight r')) r') v) _ = _
          rw [insRebalance_id v (by rw [getBalanceFactor_node]; exact hnhigh)
            (by rw [getBalanceFactor_node]; exact hbig)]; rfl⟩
        refine ⟨_, steps, hrun, ?_, ?_, ?_, ?_⟩
        · exact ⟨hokl, hokr', rfl⟩
        · exact ⟨hball, hbalr', by omega⟩
        · rw [AVL.inorderV_nodeA, AVL.inorderV_nodeA, hord',
            insSorted_append_gt _ _ (fun a ha => lt_trans (hlx a ha) hgt) hgt]
        · simp only [getHeight_node, hh]
          rcases hgrow with h1 | h1
          · left; omega
          · by_cases hcase : getHeight l < getHeight r + 1
            · right
              refine ⟨by omega, Or.inr ⟨rfl, Or.inr ⟨hgt, ?_⟩⟩⟩
              rw [getBalanceFactor_node]
              omega
            · left; omega

/-- `_insertNode` on a value already present: the walk reaches the equal node,
pushes the "already exists" status, and the unwinding (`updateHeight` +
rebalance dispatch) leaves the tree untouched; the node-id counter is not
consumed. -/
theorem insertNode_dup {t : AVL} : ∀ {v : Int} {ctr : Nat},
    Hok t → Bal t → List.Sorted (· < ·) t.inorderV → v ∈ t.inorderV →
    ∃ steps, insertNode t v ctr = some (t, ctr, steps) ∧
      Step.status (Msg.alreadyExists v) 500 ∈ steps := by
  induction t with
  | nil =>
    intro v ctr _ _ _ hv
    simp [AVL.inorderV] at hv
  | node l x id h r ihl ihr =>
    intro v ctr hok hbal hsort hv
    obtain ⟨hokl, hokr, hh⟩ := hok
    obtain ⟨hball, hbalr, habs⟩ := hbal
    rw [AVL.inorderV_nodeA] at hsort hv
    obtain ⟨hsl, hsr, hlx, hxr⟩ := (sorted_append_cons_iff _ _ _).mp hsort
    rcases lt_trichotomy v x with hlt | heqx | hgt
    · have hvl : v ∈ l.inorderV := by
        rcases List.mem_append.mp hv with h1 | h1
        · exact h1
        · rcases List.mem_cons.mp h1 with h2 | h2
          · exact absurd h2 (by omega)
          · exact absurd (hxr v h2) (by omega)
      obtain ⟨s1, heq, hmem⟩ := ihl hokl hball hsl hvl
      refine ⟨[Step.highlight id HState.visiting 300] ++
        Step.status (Msg.goingLeft v x) 500 :: s1 ++
        [Step.status (Msg.balanceFactorAt x
          (getBalanceFactor (AVL.node l x id h r))) 500], ?_, ?_⟩
      · rw [insertNode.eq_def]
        dsimp only []
        rw [if_pos hlt, heq]
        show Option.bind (insRebalance (updateHeight (AVL.node l x id h r)) v)
          _ = _
        rw [updateHeight_id hh,
          insRebalance_id v (by rw [getBalanceFactor_node]; omega)
            (by rw [getBalanceFactor_node]; omega)]
        rfl
      · simp [hmem]
    · refine ⟨[Step.highlight id HState.visiting 300,
        Step.status (Msg.alreadyExists v) 500], ?_, ?_⟩
      · rw [insertNode.eq_def]
        dsimp only []
        rw [if_neg (by omega), if_neg (by omega)]
        rfl
      · simp
    · have hvr : v ∈ r.inorderV := by
        rcases List.mem_append.mp hv with h1 | h1
        · exact absurd (hlx v h1) (by omega)
        · rcases List.mem_cons.mp h1 with h2 | h2
          · exact absurd h2 (by omega)
          · exact h2
      obtain ⟨s1, heq, hmem⟩ := ihr hokr hbalr hsr hvr
      refine ⟨[Step.highlight id HState.visiting 300] ++
        Step.status (Msg.goingRight v x) 500 :: s1 ++
        [Step.status (Msg.balanceFactorAt x
          (getBalanceFactor (AVL.node l x id h r))) 500], ?_, ?_⟩
      · rw [insertNode.eq_def]
        dsimp only []
        rw [if_neg (by omega : ¬ v < x), if_pos hgt, heq]
        show Option.bind (insRebalance (updateHeight (AVL.node l x id h r)) v)
          _ = _
        rw [updateHeight_id hh,
          insRebalance_id v (by rw [getBalanceFactor_node]; omega)
            (by rw [getBalanceFactor_node]; omega)]
        rfl
      · simp [hmem]

/-- `_deleteNode` on a value not in the tree: the walk runs to a null link,
pushes the "not found" status, and the unwinding leaves the tree untouched. -/
theorem deleteNode_absent {t : AVL} : ∀ {v : Int},
    Hok t → Bal t → List.Sorted (· < ·) t.inorderV → v ∉ t.inorderV →
    ∃ steps, deleteNode t v = some (t, steps) ∧
      Step.status (Msg.valueNotFound v) 800 ∈ steps := by
  induction t with
  | nil =>
    intro v _ _ _ _
    exact ⟨[Step.status (Msg.valueNotFound v) 800], rfl, by simp⟩
  | node l x id h r ihl ihr =>
    intro v hok hbal hsort hv
    obtain ⟨hokl, hokr, hh⟩ := hok
    obtain ⟨hball, hbalr, habs⟩ := hbal
    rw [AVL.inorderV_nodeA] at hsort hv
    obtain ⟨hsl, hsr, hlx, hxr⟩ := (sorted_append_cons_iff _ _ _).mp hsort
    simp only [List.mem_append, List.mem_cons] at hv
    push_neg at hv
    obtain ⟨hvl, hvx, hvr⟩ := hv
    rcases lt_trichotomy v x with hlt | heqx | hgt
    · obtain ⟨s1, heq, hmem⟩ := ihl hokl hball hsl hvl
      refine ⟨[Step.highlight id HState.visiting 300] ++ s1 ++
        [Step.status (Msg.balanceFactorAt x
          (getBalanceFactor (AVL.node l x id h r))) 500], ?_, ?_⟩
      · rw [deleteNode.eq_def]
        dsimp only []
        rw [if_pos hlt, heq]
        show Option.bind (delRebalance (updateHeight (AVL.node l x id h r)))
          _ = _
        rw [updateHeight_id hh,
          delRebalance_id (by rw [getBalanceFactor_node]; omega)
            (by rw [getBalanceFactor_node]; omega)]
        rfl
      · simp [hmem]
    · exact absurd heqx hvx
    · obtain ⟨s1, heq, hmem⟩ := ihr hokr hbalr hsr hvr
      refine ⟨[Step.highlight id HState.visiting 300] ++ s1 ++
        [Step.status (Msg.balanceFactorAt x
          (getBalanceFactor (AVL.node l x id h r))) 500], ?_, ?_⟩
      · rw [deleteNode.eq_def]
        dsimp only []
        rw [if_neg (by omega : ¬ v < x), if_pos hgt, heq]
        show Option.bind (delRebalance (updateHeight (AVL.node l x id h r)))
          _ = _
        rw [updateHeight_id hh,
          delRebalance_id (by rw [getBalanceFactor_node]; omega)
            (by rw [getBalanceFactor_node]; omega)]
        rfl
      · simp [hmem]


/-- `_deleteNode`'s rebalance dispatch on a node whose children satisfy the
invariants and whose own (freshly updated) balance is off by at most 2: the
selected rotation case (or the identity) restores the invariants, keeps the
inorder list, and lowers the stored height by at most 1. -/
theorem delRebalance_spec {l r : AVL} (x : Int) (id : Nat)
    (hokl : Hok l) (hokr : Hok r)
    (hball : Bal l) (hbalr : Bal r)
    (habs : ((getHeight l : Int) - getHeight r).natAbs ≤ 2) :
    ∃ t' steps,
      delRebalance (AVL.node l x id (1 + max (getHeight l) (getHeight r)) r) =
        some (t', steps) ∧
      Hok t' ∧ Bal t' ∧
      t'.inorderV = l.inorderV ++ x :: r.inorderV ∧
      (getHeight t' = 1 + max (getHeight l) (getHeight r) ∨
        (getHeight t' + 1 = 1 + max (getHeight l) (getHeight r) ∧
          2 ≤ ((getHeight l : Int) - getHeight r).natAbs)) := by
  by_cases hbig : 1 < (getHeight l : Int) - getHeight r
  · -- left-heavy by exactly 2
    cases l with
    | nil => rw [getHeight_nil] at hbig; exact absurd hbig (by omega)
    | node ll lv lid lh lr =>
      obtain ⟨hokll, hoklr, hlh⟩ := hokl
      obtain ⟨hballl, hballr2, habsl⟩ := hball
      rw [getHeight_node] at hbig habs
      by_cases hbfl : 0 ≤ (getHeight ll : Int) - getHeight lr
      · -- `balance > 1 && getBalanceFactor(node.left) >= 0`: right rotation
        refine ⟨AVL.node ll lv lid
            (1 + max (getHeight ll) (1 + max (getHeight lr) (getHeight r)))
            (AVL.node lr x id (1 + max (getHeight lr) (getHeight r)) r),
          [Step.status (Msg.rightRotationAtLL x) 800,
            Step.highlight lid HState.pivot 600], ?_, ?_, ?_, ?_, ?_⟩
        · simp only [delRebalance]
          rw [if_pos (by
            simp only [Bool.and_eq_true, decide_eq_true_eq,
              getBalanceFactor_node, getHeight_node]
            omega)]
          rfl
        · exact ⟨hokll, ⟨hoklr, hokr, rfl⟩, rfl⟩
        · refine ⟨hballl, ⟨hballr2, hbalr, ?_⟩, ?_⟩ <;>
            (try simp only [getHeight_node]) <;> omega
        · simp [AVL.inorderV, List.append_assoc]
        · simp only [getHeight_node]
          omega
      · -- `balance > 1 && getBalanceFactor(node.left) < 0`: LR double rotation
        cases lr with
        | nil =>
          rw [getHeight_nil] at hbfl
          exact absurd hbfl (by omega)
        | node A y yid yh B =>
          obtain ⟨hokA, hokB, hyh⟩ := hoklr
          obtain ⟨hbalA, hbalB, habsAB⟩ := hballr2
          rw [getHeight_node] at hbfl habsl hlh
          refine ⟨AVL.node
              (AVL.node ll lv lid (1 + max (getHeight ll) (getHeight A)) A)
              y yid (1 + max (1 + max (getHeight ll) (getHeight A))
                (1 + max (getHeight B) (getHeight r)))
              (AVL.node B x id (1 + max (getHeight B) (getHeight r)) r),
            [Step.status (Msg.leftRotationAtRR lv) 800,
              Step.highlight yid HState.pivot 600,
              Step.status (Msg.rightRotationAtLL x) 800,
              Step.highlight yid HState.pivot 600], ?_, ?_, ?_, ?_, ?_⟩
          · simp only [delRebalance]
            rw [if_neg (by
                simp only [Bool.and_eq_true, decide_eq_true_eq,
                  getBalanceFactor_node, getHeight_node]
                omega),
              if_pos (by
                simp only [Bool.and_eq_true, decide_eq_true_eq,
                  getBalanceFactor_node, getHeight_node]
                omega)]
            rfl
          · exact ⟨⟨hokll, hokA, rfl⟩, ⟨hokB, hokr, rfl⟩, rfl⟩
          · refine ⟨⟨hballl, hbalA, ?_⟩, ⟨hbalB, hbalr, ?_⟩, ?_⟩ <;>
              (try simp only [getHeight_node]) <;> omega
          · simp [AVL.inorderV, List.append_assoc]
          · simp only [getHeight_node]
            omega
  · by_cases hsmall : (getHeight l : Int) - getHeight r < -1
    · -- right-heavy by exactly 2
      cases r with
      | nil => rw [getHeight_nil] at hsmall; exact absurd hsmall (by omega)
      | node rl rv rid rh rr =>
        obtain ⟨hokrl, hokrr, hrh⟩ := hokr
        obtain ⟨hbalrl, hbalrr, habsr⟩ := hbalr
        rw [getHeight_node] at hsmall habs
        by_cases hbfr : (getHeight rl : Int) - getHeight rr ≤ 0
        · -- `balance < -1 && getBalanceFactor(node.right) <= 0`: left rotation
          refine ⟨AVL.node
              (AVL.node l x id (1 + max (getHeight l) (getHeight rl)) rl)
              rv rid (1 + max (1 + max (getHeight l) (getHeight rl))
                (getHeight rr)) rr,
            [Step.status (Msg.leftRotationAtRR x) 800,
              Step.highlight rid HState.pivot 600], ?_, ?_, ?_, ?_, ?_⟩
          · simp only [delRebalance]
            rw [if_neg (by
                simp only [Bool.and_eq_true, decide_eq_true_eq,
                  getBalanceFactor_node, getHeight_node]
                omega),
              if_neg (by
                simp only [Bool.and_eq_true, decide_eq_true_eq,
                  getBalanceFactor_node, getHeight_node]
                omega),
              if_pos (by
                simp only [Bool.and_eq_true, decide_eq_true_eq,
                  getBalanceFactor_node, getHeight_node]
                omega)]
            rfl
          · exact ⟨⟨hokl, hokrl, rfl⟩, hokrr, rfl⟩
          · refine ⟨⟨hball, hbalrl, ?_⟩, hbalrr, ?_⟩ <;>
              (try simp only [getHeight_node]) <;> omega
          · simp [AVL.inorderV, List.append_assoc]
          · simp only [getHeight_node]
            omega
        · -- `balance < -1 && getBalanceFactor(node.right) > 0`: RL double rotation
          cases rl with
          | nil =>
            rw [getHeight_nil] at hbfr
            exact absurd (by omega) hbfr
          | node A y yid yh B =>
            obtain ⟨hokA, hokB, hyh⟩ := hokrl
            obtain ⟨hbalA, hbalB, habsAB⟩ := hbalrl
            rw [getHeight_node] at hbfr habsr hrh
            refine ⟨AVL.node
                (AVL.node l x id (1 + max (getHeight l) (getHeight A)) A)
                y yid (1 + max (1 + max (getHeight l) (getHeight A))
                  (1 + max (getHeight B) (getHeight rr)))
                (AVL.node B rv rid (1 + max (getHeight B) (getHeight rr)) rr),
              [Step.status (Msg.rightRotationAtLL rv) 800,
                Step.highlight yid HState.pivot 600,
                Step.status (Msg.leftRotationAtRR x) 800,
                Step.highlight yid HState.pivot 600], ?_, ?_, ?_, ?_, ?_⟩
            · simp only [delRebalance]
              rw [if_neg (by
                  simp only [Bool.and_eq_true, decide_eq_true_eq,
                    getBalanceFactor_node, getHeight_node]
                  omega),
                if_neg (by
                  simp only [Bool.and_eq_true, decide_eq_true_eq,
                    getBalanceFactor_node, getHeight_node]
                  omega),
                if_neg (by
                  simp only [Bool.and_eq_true, decide_eq_true_eq,
                    getBalanceFactor_node, getHeight_node]
                  omega),
                if_pos (by
                  simp only [Bool.and_eq_true, decide_eq_true_eq,
                    getBalanceFactor_node, getHeight_node]
                  omega)]
              rfl
            · exact ⟨⟨hokl, hokA, rfl⟩, ⟨hokB, hokrr, rfl⟩, rfl⟩
            · refine ⟨⟨hball, hbalA, ?_⟩, ⟨hbalB, hbalrr, ?_⟩, ?_⟩ <;>
                (try simp only [getHeight_node]) <;> omega
            · simp [AVL.inorderV, List.append_assoc]
            · simp only [getHeight_node]
              omega
    · -- balance already within range: identity
      refine ⟨AVL.node l x id (1 + max (getHeight l) (getHeight r)) r, [],
        delRebalance_id (by rw [getBalanceFactor_node]; exact hbig)
          (by rw [getBalanceFactor_node]; exact hsmall),
        ⟨hokl, hokr, rfl⟩, ⟨hball, hbalr, by omega⟩,
        AVL.inorderV_nodeA _ _ _ _ _, Or.inl (by rw [getHeight_node])⟩

/-- `_findMin(node)` returns the leftmost node: its value heads the inorder
list. -/
theorem findMinNode_spec (t : AVL) (h : t ≠ AVL.nil) :
    ∃ mid mh mr rest,
      findMinNode t = AVL.node AVL.nil t.inorderV.headI mid mh mr ∧
      t.inorderV = t.inorderV.headI :: rest := by
  induction t with
  | nil => exact absurd rfl h
  | node l x id hh r ihl ihr =>
    cases l with
    | nil =>
      exact ⟨id, hh, r, r.inorderV, by simp [findMinNode, AVL.inorderV],
        by simp [AVL.inorderV]⟩
    | node a w i j b =>
      obtain ⟨mid, mh, mr, rest, h1, h2⟩ := ihl (by intro hc; cases hc)
      have hout : (AVL.node (AVL.node a w i j b) x id hh r).inorderV =
          (AVL.node a w i j b).inorderV ++ x :: r.inorderV := rfl
      have hhead : (AVL.node (AVL.node a w i j b) x id hh r).inorderV.headI =
          (AVL.node a w i j b).inorderV.headI := by
        rw [hout, h2]
        rfl
      refine ⟨mid, mh, mr, rest ++ x :: r.inorderV, ?_, ?_⟩
      · rw [hhead]
        exact h1
      · rw [hhead, hout, h2]
        simp

/-- Main correctness of `_deleteNode` on a value present in the tree: the call
returns normally, preserves the height and balance invariants, removes the
value from the inorder list, and shrinks the stored height by at most one. -/
theorem deleteNode_mem_avl {t : AVL} : ∀ {v : Int},
    Hok t → Bal t → List.Sorted (· < ·) t.inorderV → v ∈ t.inorderV →
    ∃ t' steps, deleteNode t v = some (t', steps) ∧
      Hok t' ∧ Bal t' ∧ t'.inorderV = delSorted v t.inorderV ∧
      (getHeight t' = getHeight t ∨ getHeight t' + 1 = getHeight t) := by
  induction t with
  | nil =>
    intro v _ _ _ hv
    simp [AVL.inorderV] at hv
  | node l x id h r ihl ihr =>
    intro v hok hbal hsort hv
    obtain ⟨hokl, hokr, hh⟩ := hok
    obtain ⟨hball, hbalr, habs⟩ := hbal
    rw [AVL.inorderV_nodeA] at hsort hv
    obtain ⟨hsl, hsr, hlx, hxr⟩ := (sorted_append_cons_iff _ _ _).mp hsort
    rcases lt_trichotomy v x with hlt | heqx | hgt
    · -- delete on the left
      have hvl : v ∈ l.inorderV := by
        rcases List.mem_append.mp hv with h1 | h1
        · exact h1
        · rcases List.mem_cons.mp h1 with h2 | h2
          · exact absurd h2 (by omega)
          · exact absurd (hxr v h2) (by omega)
      obtain ⟨l', s1, heq, hokl', hball', hord', hht'⟩ := ihl hokl hball hsl hvl
      obtain ⟨t2, s2, hreb, hok2, hbal2, hord2, hht2⟩ :=
        @delRebalance_spec l' r x id hokl' hokr hball' hbalr
          (by omega)
      refine ⟨t2, [Step.highlight id HState.visiting 300] ++ s1 ++
        Step.status (Msg.balanceFactorAt x
          ((getHeight l' : Int) - getHeight r)) 500 :: s2, ?_, hok2, hbal2,
        ?_, ?_⟩
      · rw [deleteNode.eq_def]
        dsimp only []
        rw [if_pos hlt, heq]
        show Option.bind (delRebalance (AVL.node l' x id
          (1 + max (getHeight l') (getHeight r)) r)) _ = _
        rw [hreb]
        rfl
      · rw [hord2, hord', AVL.inorderV_nodeA, delSorted_append_left hvl]
      · simp only [getHeight_node]
        omega
    · -- found the node
      subst heqx
      cases l with
      | nil =>
        refine ⟨r, [Step.highlight id HState.visiting 300,
          Step.highlight id HState.found 500], ?_, hokr, hbalr, ?_, ?_⟩
        · rw [deleteNode.eq_def]
          dsimp only []
          rw [if_neg (lt_irrefl v), if_neg (lt_irrefl v)]
          rfl
        · simp [AVL.inorderV, delSorted]
        · simp only [getHeight_node, getHeight_nil] at hh ⊢
          omega
      | node a w i j b =>
        cases r with
        | nil =>
          refine ⟨AVL.node a w i j b, [Step.highlight id HState.visiting 300,
            Step.highlight id HState.found 500], ?_, hokl, hball, ?_, ?_⟩
          · rw [deleteNode.eq_def]
            dsimp only []
            rw [if_neg (lt_irrefl v), if_neg (lt_irrefl v)]
            rfl
          · rw [AVL.inorderV_nodeA (AVL.node a w i j b) v id h AVL.nil,
              delSorted_append_right (fun hc => absurd (hlx v hc) (by omega))]
            simp [delSorted, AVL.inorderV]
          · simp only [getHeight_node, getHeight_nil] at hh ⊢
            omega
        | node rl rv rid rh rr =>
          obtain ⟨m, hm⟩ : ∃ m, (AVL.node rl rv rid rh rr).inorderV.headI = m :=
            ⟨_, rfl⟩
          obtain ⟨mid, mh, mr, rest, hmin, hhead⟩ :=
            findMinNode_spec (AVL.node rl rv rid rh rr) (by intro hc; cases hc)
          rw [hm] at hmin hhead
          have hmv : m ∈ (AVL.node rl rv rid rh rr).inorderV := by
            rw [hhead]
            exact List.mem_cons_self _ _
          obtain ⟨r', s1, heq, hokr', hbalr', hord', hht'⟩ :=
            ihr hokr hbalr hsr hmv
          obtain ⟨t2, s2, hreb, hok2, hbal2, hord2, hht2⟩ :=
            @delRebalance_spec (AVL.node a w i j b) r' m id hokl
              hokr' hball hbalr'
              (by simp only [getHeight_node] at habs hht' ⊢; omega)
          refine ⟨t2, [Step.highlight id HState.visiting 300,
            Step.highlight id HState.found 500] ++
            Step.highlight mid HState.pivot 500 :: s1 ++
            Step.status (Msg.balanceFactorAt m
              ((getHeight (AVL.node a w i j b) : Int) - getHeight r'))
              500 :: s2, ?_, hok2, hbal2, ?_, ?_⟩
          · rw [deleteNode.eq_def]
            dsimp only []
            rw [if_neg (lt_irrefl v), if_neg (lt_irrefl v),
              if_neg (by simp [AVL.isNil]), hmin]
            show Option.bind (deleteNode (AVL.node rl rv rid rh rr) m) _ = _
            rw [heq]
            show Option.bind (delRebalance (AVL.node (AVL.node a w i j b) m id
              (1 + max (getHeight (AVL.node a w i j b)) (getHeight r')) r'))
              _ = _
            rw [hreb]
            rfl
          · rw [hord2, hord', hhead,
              AVL.inorderV_nodeA (AVL.node a w i j b) v id h
                (AVL.node rl rv rid rh rr),
              delSorted_append_right (fun hc => absurd (hlx v hc) (by omega)),
              hhead]
            simp [delSorted]
          · simp only [getHeight_node] at hht' hht2 habs hh ⊢
            omega
    · -- delete on the right
      have hvr : v ∈ r.inorderV := by
        rcases List.mem_append.mp hv with h1 | h1
        · exact absurd (hlx v h1) (by omega)
        · rcases List.mem_cons.mp h1 with h2 | h2
          · exact absurd h2 (by omega)
          · exact h2
      obtain ⟨r', s1, heq, hokr', hbalr', hord', hht'⟩ := ihr hokr hbalr hsr hvr
      obtain ⟨t2, s2, hreb, hok2, hbal2, hord2, hht2⟩ :=
        @delRebalance_spec l r' x id hokl hokr' hball hbalr'
          (by omega)
      refine ⟨t2, [Step.highlight id HState.visiting 300] ++ s1 ++
        Step.status (Msg.balanceFactorAt x
          ((getHeight l : Int) - getHeight r')) 500 :: s2, ?_, hok2, hbal2,
        ?_, ?_⟩
      · rw [deleteNode.eq_def]
        dsimp only []
        rw [if_neg (by omega : ¬ v < x), if_pos hgt, heq]
        show Option.bind (delRebalance (AVL.node l x id
          (1 + max (getHeight l) (getHeight r')) r')) _ = _
        rw [hreb]
        rfl
      · rw [hord2, hord', AVL.inorderV_nodeA,
          delSorted_append_right (fun hc => absurd (hlx v hc) (by omega))]
        have hvx : v ≠ x := by omega
        simp [delSorted, hvx]
      · simp only [getHeight_node] at hht2 ⊢
        omega


/-- One normally-returning public AVL call preserves correct stored heights,
the balance bound, and strictly sorted inorder order. -/
theorem runAVLOp_inv {s s' : AVLState} {op : AVLOp}
    (hok : Hok s.root) (hbal : Bal s.root)
    (hs : List.Sorted (· < ·) s.root.inorderV)
    (h : runAVLOp s op = some s') :
    Hok s'.root ∧ Bal s'.root ∧ List.Sorted (· < ·) s'.root.inorderV := by
  cases op with
  | ins v =>
    by_cases hv : v ∈ s.root.inorderV
    · obtain ⟨steps, heq, _⟩ := @insertNode_dup s.root v s.counter hok hbal hs hv
      have h2 : runAVLOp s (AVLOp.ins v) = some ⟨s.root, s.counter⟩ := by
        simp only [runAVLOp, insert]
        rw [heq]
        rfl
      rw [h2] at h
      obtain rfl := Option.some.inj h
      exact ⟨hok, hbal, hs⟩
    · obtain ⟨t', steps, heq, hok', hbal', hord', _⟩ :=
        @insertNode_fresh s.root v s.counter hok hbal hs hv
      have h2 : runAVLOp s (AVLOp.ins v) = some ⟨t', s.counter + 1⟩ := by
        simp only [runAVLOp, insert]
        rw [heq]
        rfl
      rw [h2] at h
      obtain rfl := Option.some.inj h
      refine ⟨hok', hbal', ?_⟩
      show List.Sorted (· < ·) t'.inorderV
      rw [hord']
      exact sorted_insSorted hs
  | del v =>
    by_cases hv : v ∈ s.root.inorderV
    · obtain ⟨t', steps, heq, hok', hbal', hord', _⟩ :=
        deleteNode_mem_avl hok hbal hs hv
      have h2 : runAVLOp s (AVLOp.del v) = some ⟨t', s.counter⟩ := by
        simp only [runAVLOp, delete]
        rw [heq]
        rfl
      rw [h2] at h
      obtain rfl := Option.some.inj h
      refine ⟨hok', hbal', ?_⟩
      show List.Sorted (· < ·) t'.inorderV
      rw [hord']
      exact sorted_delSorted hs
    · obtain ⟨steps, heq, _⟩ := deleteNode_absent hok hbal hs hv
      have h2 : runAVLOp s (AVLOp.del v) = some ⟨s.root, s.counter⟩ := by
        simp only [runAVLOp, delete]
        rw [heq]
        rfl
      rw [h2] at h
      obtain rfl := Option.some.inj h
      exact ⟨hok, hbal, hs⟩

/-- Every reachable AVL state has correct stored heights, satisfies the
balance bound at every node, and has a strictly sorted inorder list. -/
theorem avlReach_inv {s : AVLState} (h : AVLReach s) :
    Hok s.root ∧ Bal s.root ∧ List.Sorted (· < ·) s.root.inorderV := by
  obtain ⟨ops, hops⟩ := h
  suffices hgen : ∀ (ops : List AVLOp) (s0 : AVLState),
      Hok s0.root → Bal s0.root → List.Sorted (· < ·) s0.root.inorderV →
      runAVLFrom s0 ops = some s →
      Hok s.root ∧ Bal s.root ∧ List.Sorted (· < ·) s.root.inorderV by
    exact hgen ops ⟨AVL.nil, 0⟩ trivial trivial
      (by simp [AVL.inorderV]) hops
  intro ops
  induction ops with
  | nil =>
    intro s0 h1 h2 h3 hrun
    simp only [runAVLFrom] at hrun
    obtain rfl := Option.some.inj hrun
    exact ⟨h1, h2, h3⟩
  | cons op rest ih =>
    intro s0 h1 h2 h3 hrun
    cases hstep : runAVLOp s0 op with
    | none =>
      rw [runAVLFrom, hstep] at hrun
      cases hrun
    | some s1 =>
      rw [runAVLFrom, hstep] at hrun
      obtain ⟨g1, g2, g3⟩ := runAVLOp_inv h1 h2 h3 hstep
      exact ih s1 g1 g2 g3 hrun

end AVLTree

/-! ## Red-Black path bookkeeping lemmas -/

theorem subtreeAt_nil_path (t : RBT) : subtreeAt t [] = some t := by
  cases t <;> rfl

theorem replaceAt_nil_path (t s : RBT) : replaceAt t [] s = s := by
  cases t <;> rfl

theorem subtreeAt_append : ∀ (p q : Path) (t : RBT),
    subtreeAt t (p ++ q) = (subtreeAt t p).bind (fun u => subtreeAt u q) := by
  intro p
  induction p with
  | nil => intro q t; cases t <;> rfl
  | cons d p ih =>
    intro q t
    cases t with
    | nil => cases d <;> rfl
    | node l v id c r =>
      cases d with
      | L =>
        show subtreeAt l (p ++ q) = (subtreeAt l p).bind _
        exact ih q l
      | R =>
        show subtreeAt r (p ++ q) = (subtreeAt r p).bind _
        exact ih q r

theorem replaceAt_append : ∀ (p q : Path) (t u s : RBT),
    subtreeAt t p = some u →
    replaceAt t (p ++ q) s = replaceAt t p (replaceAt u q s) := by
  intro p
  induction p with
  | nil =>
    intro q t u s h
    rw [subtreeAt_nil_path] at h
    obtain rfl := Option.some.inj h
    rw [List.nil_append, replaceAt_nil_path]
  | cons d p ih =>
    intro q t u s h
    cases t with
    | nil => cases d <;> exact absurd h (by simp [subtreeAt])
    | node l v id c r =>
      cases d with
      | L =>
        show RBT.node (replaceAt l (p ++ q) s) v id c r = _
        rw [ih q l u s h]
        rfl
      | R =>
        show RBT.node l v id c (replaceAt r (p ++ q) s) = _
        rw [ih q r u s h]
        rfl

theorem subtreeAt_replaceAt_self : ∀ (p : Path) (t u s : RBT),
    subtreeAt t p = some u →
    subtreeAt (replaceAt t p s) p = some s := by
  intro p
  induction p with
  | nil =>
    intro t u s h
    rw [replaceAt_nil_path, subtreeAt_nil_path]
  | cons d p ih =>
    intro t u s h
    cases t with
    | nil => cases d <;> exact absurd h (by simp [subtreeAt])
    | node l v id c r =>
      cases d with
      | L =>
        show subtreeAt (replaceAt l p s) p = some s
        exact ih l u s h
      | R =>
        show subtreeAt (replaceAt r p s) p = some s
        exact ih r u s h

theorem replaceAt_replaceAt : ∀ (p : Path) (t s s' : RBT),
    replaceAt (replaceAt t p s) p s' = replaceAt t p s' := by
  intro p
  induction p with
  | nil =>
    intro t s s'
    rw [replaceAt_nil_path, replaceAt_nil_path]
  | cons d p ih =>
    intro t s s'
    cases t with
    | nil => cases d <;> rfl
    | node l v id c r =>
      cases d with
      | L =>
        show RBT.node (replaceAt (replaceAt l p s) p s') v id c r = _
        rw [ih l s s']
        rfl
      | R =>
        show RBT.node l v id c (replaceAt (replaceAt r p s) p s') = _
        rw [ih r s s']
        rfl

/-- Decomposing the inorder list around a resolved path: the subtree's part
sits between fixed fringes, and replacement swaps just that part. -/
theorem inorder_subtree_replaceAt : ∀ (p : Path) (t u : RBT),
    subtreeAt t p = some u →
    ∃ X Y, t.inorderV = X ++ (u.inorderV ++ Y) ∧
      ∀ s : RBT, (replaceAt t p s).inorderV = X ++ (s.inorderV ++ Y) := by
  intro p
  induction p with
  | nil =>
    intro t u h
    rw [subtreeAt_nil_path] at h
    obtain rfl := Option.some.inj h
    exact ⟨[], [], by simp, fun s => by rw [replaceAt_nil_path]; simp⟩
  | cons d p ih =>
    intro t u h
    cases t with
    | nil => cases d <;> exact absurd h (by simp [subtreeAt])
    | node l v id c r =>
      cases d with
      | L =>
        obtain ⟨X, Y, h1, h2⟩ := ih l u h
        refine ⟨X, Y ++ v :: r.inorderV, ?_, ?_⟩
        · show l.inorderV ++ v :: r.inorderV = _
          rw [h1]
          simp
        · intro s
          show (replaceAt l p s).inorderV ++ v :: r.inorderV = _
          rw [h2 s]
          simp
      | R =>
        obtain ⟨X, Y, h1, h2⟩ := ih r u h
        refine ⟨l.inorderV ++ v :: X, Y, ?_, ?_⟩
        · show l.inorderV ++ v :: r.inorderV = _
          rw [h1]
          simp
        · intro s
          show l.inorderV ++ v :: (replaceAt r p s).inorderV = _
          rw [h2 s]
          simp

theorem inorder_subtree_replaceAtR {t u : RBT} {rp : Path}
    (h : subtreeAtR t rp = some u) :
    ∃ X Y, t.inorderV = X ++ (u.inorderV ++ Y) ∧
      ∀ s : RBT, (replaceAtR t rp s).inorderV = X ++ (s.inorderV ++ Y) :=
  inorder_subtree_replaceAt rp.reverse t u h

/-- Recoloring never moves values. -/
theorem inorder_setColorAtR (t : RBT) (rp : Path) (c : Color) :
    (setColorAtR t rp c).inorderV = t.inorderV := by
  rw [setColorAtR]
  split
  · next l v id c0 r heq =>
    obtain ⟨X, Y, ht, hrep⟩ := inorder_subtree_replaceAtR heq
    rw [hrep, ht]
    rfl
  · rfl

namespace RedBlackTree

/-- A left rotation rewires links but keeps the inorder sequence. -/
theorem inorder_rotateLeft {t : RBT} {rp : Path} {t' : RBT} {st : List RStep}
    (h : rotateLeft t rp = some (t', st)) : t'.inorderV = t.inorderV := by
  rw [rotateLeft] at h
  split at h
  · next a x xid xc b y yid yc c heq =>
    obtain ⟨X, Y, ht, hrep⟩ := inorder_subtree_replaceAtR heq
    simp only [Option.some.injEq, Prod.mk.injEq] at h
    obtain ⟨rfl, rfl⟩ := h
    rw [hrep, ht]
    simp [RBT.inorderV]
  · exact absurd h (by simp)

/-- A right rotation rewires links but keeps the inorder sequence. -/
theorem inorder_rotateRight {t : RBT} {rp : Path} {t' : RBT} {st : List RStep}
    (h : rotateRight t rp = some (t', st)) : t'.inorderV = t.inorderV := by
  rw [rotateRight] at h
  split at h
  · next a y yid yc b x xid xc c heq =>
    obtain ⟨X, Y, ht, hrep⟩ := inorder_subtree_replaceAtR heq
    simp only [Option.some.injEq, Prod.mk.injEq] at h
    obtain ⟨rfl, rfl⟩ := h
    rw [hrep, ht]
    simp [RBT.inorderV]
  · exact absurd h (by simp)

/-- Blackening a red root keeps the inorder sequence. -/
theorem inorder_fixInsertFinish {t t' : RBT} {st : List RStep} {ev : List REvt}
    (h : fixInsertFinish t = some (t', st, ev)) : t'.inorderV = t.inorderV := by
  cases t with
  | nil => exact absurd h (by simp [fixInsertFinish])
  | node l v id c r =>
    rw [fixInsertFinish] at h
    by_cases hc : c = Color.black
    · rw [if_pos hc] at h
      simp only [Option.some.injEq, Prod.mk.injEq] at h
      obtain ⟨rfl, -, -⟩ := h
      rfl
    · rw [if_neg hc] at h
      simp only [Option.some.injEq, Prod.mk.injEq] at h
      obtain ⟨rfl, -, -⟩ := h
      rfl

/-- `_fixInsert` only recolors and rotates: the inorder sequence of the tree
is unchanged by any normally-returning call. -/
theorem inorder_fixInsert : ∀ (fuel : Nat) {t : RBT} {rp : Path}
    {t' : RBT} {st : List RStep} {ev : List REvt},
    fixInsert fuel t rp = some (t', st, ev) → t'.inorderV = t.inorderV := by
  intro fuel
  induction fuel with
  | zero =>
    intro t rp t' st ev h
    exact absurd h (by simp [fixInsert])
  | succ fuel ih =>
    intro t rp t' st ev h
    cases rp with
    | nil =>
      simp only [fixInsert] at h
      exact inorder_fixInsertFinish h
    | cons d rpp =>
      simp only [fixInsert, Option.bind_eq_bind] at h
      split at h
      · exact absurd h (by simp)
      · exact absurd h (by simp)
      · split at h
        · -- parent red
          split at h
          · exact absurd h (by simp)
          · -- rpp = pd :: rgp
            next pd rgp =>
            split at h
            · -- pd = L
              split at h
              · -- Case 1: uncle red
                rw [Option.bind_eq_some] at h
                obtain ⟨⟨s1, e1⟩, hp1, h⟩ := h
                try dsimp only [] at h
                rw [Option.bind_eq_some] at h
                obtain ⟨⟨s2, e2⟩, hp2, h⟩ := h
                try dsimp only [] at h
                rw [Option.bind_eq_some] at h
                obtain ⟨⟨s3, e3⟩, hp3, h⟩ := h
                try dsimp only [] at h
                split at h
                · rw [Option.bind_eq_some] at h
                  obtain ⟨⟨t4, s4, e4⟩, hf, h⟩ := h
                  try dsimp only [] at h
                  simp only [Option.some.injEq, Prod.mk.injEq] at h
                  obtain ⟨rfl, -, -⟩ := h
                  rw [inorder_fixInsertFinish hf, inorder_setColorAtR,
                    inorder_setColorAtR, inorder_setColorAtR]
                · rw [Option.bind_eq_some] at h
                  obtain ⟨⟨t4, s4, e4⟩, hf, h⟩ := h
                  try dsimp only [] at h
                  simp only [Option.some.injEq, Prod.mk.injEq] at h
                  obtain ⟨rfl, -, -⟩ := h
                  rw [ih hf, inorder_setColorAtR, inorder_setColorAtR,
                    inorder_setColorAtR]
              · -- Case 2: uncle black (or absent)
                cases d with
                | L =>
                  rw [Option.bind_eq_some] at h
                  obtain ⟨⟨t1, s1⟩, hp1, h⟩ := h
                  simp only [Option.some.injEq, Prod.mk.injEq] at hp1
                  obtain ⟨rfl, rfl⟩ := hp1
                  try dsimp only [] at h
                  rw [Option.bind_eq_some] at h
                  obtain ⟨⟨sp, ep⟩, hp2, h⟩ := h
                  try dsimp only [] at h
                  rw [Option.bind_eq_some] at h
                  obtain ⟨⟨sg, eg⟩, hp3, h⟩ := h
                  try dsimp only [] at h
                  rw [Option.bind_eq_some] at h
                  obtain ⟨⟨t4, s4⟩, hrot, h⟩ := h
                  try dsimp only [] at h
                  rw [Option.bind_eq_some] at h
                  obtain ⟨⟨t5, s5, e5⟩, hfix, h⟩ := h
                  try dsimp only [] at h
                  simp only [Option.some.injEq, Prod.mk.injEq] at h
                  obtain ⟨rfl, -, -⟩ := h
                  rw [ih hfix, inorder_rotateRight hrot, inorder_setColorAtR,
                    inorder_setColorAtR]
                | R =>
                  rw [Option.bind_eq_some] at h
                  obtain ⟨⟨t1, s1⟩, hrotL, h⟩ := h
                  rw [Option.some_bind] at h
                  try dsimp only [] at h
                  rw [Option.bind_eq_some] at h
                  obtain ⟨⟨sp, ep⟩, hp2, h⟩ := h
                  try dsimp only [] at h
                  rw [Option.bind_eq_some] at h
                  obtain ⟨⟨sg, eg⟩, hp3, h⟩ := h
                  try dsimp only [] at h
                  rw [Option.bind_eq_some] at h
                  obtain ⟨⟨t4, s4⟩, hrot, h⟩ := h
                  try dsimp only [] at h
                  rw [Option.bind_eq_some] at h
                  obtain ⟨⟨t5, s5, e5⟩, hfix, h⟩ := h
                  try dsimp only [] at h
                  simp only [Option.some.injEq, Prod.mk.injEq] at h
                  obtain ⟨rfl, -, -⟩ := h
                  rw [ih hfix, inorder_rotateRight hrot, inorder_setColorAtR,
                    inorder_setColorAtR, inorder_rotateLeft hrotL]
            · -- pd = R (mirror)
              split at h
              · -- Case 1: uncle red
                rw [Option.bind_eq_some] at h
                obtain ⟨⟨s1, e1⟩, hp1, h⟩ := h
                try dsimp only [] at h
                rw [Option.bind_eq_some] at h
                obtain ⟨⟨s2, e2⟩, hp2, h⟩ := h
                try dsimp only [] at h
                rw [Option.bind_eq_some] at h
                obtain ⟨⟨s3, e3⟩, hp3, h⟩ := h
                try dsimp only [] at h
                split at h
                · rw [Option.bind_eq_some] at h
                  obtain ⟨⟨t4, s4, e4⟩, hf, h⟩ := h
                  try dsimp only [] at h
                  simp only [Option.some.injEq, Prod.mk.injEq] at h
                  obtain ⟨rfl, -, -⟩ := h
                  rw [inorder_fixInsertFinish hf, inorder_setColorAtR,
                    inorder_setColorAtR, inorder_setColorAtR]
                · rw [Option.bind_eq_some] at h
                  obtain ⟨⟨t4, s4, e4⟩, hf, h⟩ := h
                  try dsimp only [] at h
                  simp only [Option.some.injEq, Prod.mk.injEq] at h
                  obtain ⟨rfl, -, -⟩ := h
                  rw [ih hf, inorder_setColorAtR, inorder_setColorAtR,
                    inorder_setColorAtR]
              · -- Case 2: uncle black (or absent)
                cases d with
                | R =>
                  rw [Option.bind_eq_some] at h
                  obtain ⟨⟨t1, s1⟩, hp1, h⟩ := h
                  simp only [Option.some.injEq, Prod.mk.injEq] at hp1
                  obtain ⟨rfl, rfl⟩ := hp1
                  try dsimp only [] at h
                  rw [Option.bind_eq_some] at h
                  obtain ⟨⟨sp, ep⟩, hp2, h⟩ := h
                  try dsimp only [] at h
                  rw [Option.bind_eq_some] at h
                  obtain ⟨⟨sg, eg⟩, hp3, h⟩ := h
                  try dsimp only [] at h
                  rw [Option.bind_eq_some] at h
                  obtain ⟨⟨t4, s4⟩, hrot, h⟩ := h
                  try dsimp only [] at h
                  rw [Option.bind_eq_some] at h
                  obtain ⟨⟨t5, s5, e5⟩, hfix, h⟩ := h
                  try dsimp only [] at h
                  simp only [Option.some.injEq, Prod.mk.injEq] at h
                  obtain ⟨rfl, -, -⟩ := h
                  rw [ih hfix, inorder_rotateLeft hrot, inorder_setColorAtR,
                    inorder_setColorAtR]
                | L =>
                  rw [Option.bind_eq_some] at h
                  obtain ⟨⟨t1, s1⟩, hrotR, h⟩ := h
                  rw [Option.some_bind] at h
                  try dsimp only [] at h
                  rw [Option.bind_eq_some] at h
                  obtain ⟨⟨sp, ep⟩, hp2, h⟩ := h
                  try dsimp only [] at h
                  rw [Option.bind_eq_some] at h
                  obtain ⟨⟨sg, eg⟩, hp3, h⟩ := h
                  try dsimp only [] at h
                  rw [Option.bind_eq_some] at h
                  obtain ⟨⟨t4, s4⟩, hrot, h⟩ := h
                  try dsimp only [] at h
                  rw [Option.bind_eq_some] at h
                  obtain ⟨⟨t5, s5, e5⟩, hfix, h⟩ := h
                  try dsimp only [] at h
                  simp only [Option.some.injEq, Prod.mk.injEq] at h
                  obtain ⟨rfl, -, -⟩ := h
                  rw [ih hfix, inorder_rotateLeft hrot, inorder_setColorAtR,
                    inorder_setColorAtR, inorder_rotateRight hrotR]
        · -- parent black: the loop body is skipped
          exact inorder_fixInsertFinish h

/-- `Option`'s monadic bind, in the form the embedded `do` blocks elaborate
to. -/
theorem optionBind_eq_some {α β : Type} {x : Option α} {f : α → Option β}
    {b : β} : x >>= f = some b ↔ ∃ a, x = some a ∧ f a = some b :=
  Option.bind_eq_some

theorem optionSomeBind {α β : Type} (a : α) (f : α → Option β) :
    (some a : Option α) >>= f = f a := rfl

theorem optionNoneBind {α β : Type} (f : α → Option β) :
    (none : Option α) >>= f = none := rfl

/-- The `node.left ? recolor : skip` guards produce an `ite` around
`setColorAtR`; either way the inorder sequence is unchanged. -/
theorem inorder_ite_setColorAtR (p : Prop) [Decidable p] (a : RBT) (rp : Path)
    (c : Color) :
    (if p then a else setColorAtR a rp c).inorderV = a.inorderV := by
  split
  · rfl
  · exact inorder_setColorAtR a rp c

set_option maxHeartbeats 1000000 in
/-- `_fixDelete` only recolors and rotates: the inorder sequence of the tree
is unchanged by any normally-returning call. -/
theorem inorder_fixDelete : ∀ (fuel : Nat) {t : RBT} {rp : Path}
    {t' : RBT} {st : List RStep} {ev : List REvt},
    fixDelete fuel t rp = some (t', st, ev) → t'.inorderV = t.inorderV := by
  intro fuel
  induction fuel with
  | zero =>
    intro t rp t' st ev h
    exact absurd h (by simp [fixDelete])
  | succ fuel ih =>
    intro t rp t' st ev h
    rw [fixDelete.eq_def] at h
    try dsimp only [] at h
    split at h
    · -- cursor at the root: the loop exits and the root is forced black
      simp only [Option.some.injEq, Prod.mk.injEq] at h
      obtain ⟨rfl, -, -⟩ := h
      rw [inorder_setColorAtR]
    · -- red cursor: the loop exits and the carrier is forced black
      simp only [Option.some.injEq, Prod.mk.injEq] at h
      obtain ⟨rfl, -, -⟩ := h
      rw [inorder_setColorAtR]
    · -- black cursor that is a left child
      rw [optionBind_eq_some] at h
      obtain ⟨w1, -, h⟩ := h
      try dsimp only [] at h
      split at h
      · -- null sibling throws
        rw [optionNoneBind] at h
        exact Option.noConfusion h
      · -- red sibling: recolor, rotate at the parent, slide the cursor
        rw [optionBind_eq_some] at h
        obtain ⟨w3, -, h⟩ := h
        try dsimp only [] at h
        rw [optionBind_eq_some] at h
        obtain ⟨w4, -, h⟩ := h
        try dsimp only [] at h
        rw [optionBind_eq_some] at h
        obtain ⟨y5, hrotA2, h⟩ := h
        try dsimp only [] at h
        rw [optionSomeBind] at h
        try dsimp only [] at h
        split at h
        · -- sibling lookup failed
          exact Option.noConfusion h
        · -- null sibling throws
          exact Option.noConfusion h
        · -- sibling with children
          split at h
          · -- both of the sibling's children black: recolor and move up
            rw [optionBind_eq_some] at h
            obtain ⟨w6, -, h⟩ := h
            try dsimp only [] at h
            rw [optionBind_eq_some] at h
            obtain ⟨z8, hfix7, h⟩ := h
            try dsimp only [] at h
            simp only [Option.some.injEq, Prod.mk.injEq] at h
            obtain ⟨rfl, -, -⟩ := h
            rw [ih hfix7]
            simp only [inorder_setColorAtR, inorder_ite_setColorAtR, inorder_rotateLeft hrotA2]
          · -- near-child / terminal cases
            split at h
            · -- far child black: blacken near child, rotate at the sibling
              split at h
              · -- near child absent
                rw [optionSomeBind] at h
                try dsimp only [] at h
                rw [optionBind_eq_some] at h
                obtain ⟨w10, -, h⟩ := h
                try dsimp only [] at h
                rw [optionBind_eq_some] at h
                obtain ⟨y11, hrotC9, h⟩ := h
                try dsimp only [] at h
                rw [optionSomeBind] at h
                try dsimp only [] at h
                rw [optionBind_eq_some] at h
                obtain ⟨w12, -, h⟩ := h
                try dsimp only [] at h
                split at h
                · -- terminal arm: recolor, rotate at the parent, exit at the root
                  split at h
                  · -- the parent's (overwritten) color reads back
                    rw [optionSomeBind] at h
                    try dsimp only [] at h
                    rw [optionBind_eq_some] at h
                    obtain ⟨w13, -, h⟩ := h
                    try dsimp only [] at h
                    rw [optionBind_eq_some] at h
                    obtain ⟨w14, -, h⟩ := h
                    try dsimp only [] at h
                    split at h
                    · -- no far child to recolor
                      rw [optionSomeBind] at h
                      try dsimp only [] at h
                      rw [optionBind_eq_some] at h
                      obtain ⟨y16, hrotT15, h⟩ := h
                      try dsimp only [] at h
                      simp only [Option.some.injEq, Prod.mk.injEq] at h
                      obtain ⟨rfl, -, -⟩ := h
                      simp only [inorder_setColorAtR, inorder_ite_setColorAtR, inorder_rotateLeft hrotT15, inorder_rotateRight hrotC9, inorder_rotateLeft hrotA2]
                    · -- far child recolored black
                      rw [optionBind_eq_some] at h
                      obtain ⟨w18, -, h⟩ := h
                      try dsimp only [] at h
                      rw [optionSomeBind] at h
                      try dsimp only [] at h
                      rw [optionBind_eq_some] at h
                      obtain ⟨y19, hrotT17, h⟩ := h
                      try dsimp only [] at h
                      simp only [Option.some.injEq, Prod.mk.injEq] at h
                      obtain ⟨rfl, -, -⟩ := h
                      simp only [inorder_setColorAtR, inorder_ite_setColorAtR, inorder_rotateLeft hrotT17, inorder_rotateRight hrotC9, inorder_rotateLeft hrotA2]
                  · -- parent lookup failed
                    rw [optionNoneBind] at h
                    exact Option.noConfusion h
                · -- sibling or parent lookup failed
                  exact Option.noConfusion h
              · -- near child recolored black
                rw [optionBind_eq_some] at h
                obtain ⟨w21, -, h⟩ := h
                try dsimp only [] at h
                rw [optionSomeBind] at h
                try dsimp only [] at h
                rw [optionBind_eq_some] at h
                obtain ⟨w22, -, h⟩ := h
                try dsimp only [] at h
                rw [optionBind_eq_some] at h
                obtain ⟨y23, hrotC20, h⟩ := h
                try dsimp only [] at h
                rw [optionSomeBind] at h
                try dsimp only [] at h
                rw [optionBind_eq_some] at h
                obtain ⟨w24, -, h⟩ := h
                try dsimp only [] at h
                split at h
                · -- terminal arm: recolor, rotate at the parent, exit at the root
                  split at h
                  · -- the parent's (overwritten) color reads back
                    rw [optionSomeBind] at h
                    try dsimp only [] at h
                    rw [optionBind_eq_some] at h
                    obtain ⟨w25, -, h⟩ := h
                    try dsimp only [] at h
                    rw [optionBind_eq_some] at h
                    obtain ⟨w26, -, h⟩ := h
                    try dsimp only [] at h
                    split at h
                    · -- no far child to recolor
                      rw [optionSomeBind] at h
                      try dsimp only [] at h
                      rw [optionBind_eq_some] at h
                      obtain ⟨y28, hrotT27, h⟩ := h
                      try dsimp only [] at h
                      simp only [Option.some.injEq, Prod.mk.injEq] at h
                      obtain ⟨rfl, -, -⟩ := h
                      simp only [inorder_setColorAtR, inorder_ite_setColorAtR, inorder_rotateLeft hrotT27, inorder_rotateRight hrotC20, inorder_rotateLeft hrotA2]
                    · -- far child recolored black
                      rw [optionBind_eq_some] at h
                      obtain ⟨w30, -, h⟩ := h
                      try dsimp only [] at h
                      rw [optionSomeBind] at h
                      try dsimp only [] at h
                      rw [optionBind_eq_some] at h
                      obtain ⟨y31, hrotT29, h⟩ := h
                      try dsimp only [] at h
                      simp only [Option.some.injEq, Prod.mk.injEq] at h
                      obtain ⟨rfl, -, -⟩ := h
                      simp only [inorder_setColorAtR, inorder_ite_setColorAtR, inorder_rotateLeft hrotT29, inorder_rotateRight hrotC20, inorder_rotateLeft hrotA2]
                  · -- parent lookup failed
                    rw [optionNoneBind] at h
                    exact Option.noConfusion h
                · -- sibling or parent lookup failed
                  exact Option.noConfusion h
            · -- far child red: no extra rotation
              rw [optionSomeBind] at h
              try dsimp only [] at h
              rw [optionBind_eq_some] at h
              obtain ⟨w32, -, h⟩ := h
              try dsimp only [] at h
              split at h
              · -- terminal arm: recolor, rotate at the parent, exit at the root
                split at h
                · -- the parent's (overwritten) color reads back
                  rw [optionSomeBind] at h
                  try dsimp only [] at h
                  rw [optionBind_eq_some] at h
                  obtain ⟨w33, -, h⟩ := h
                  try dsimp only [] at h
                  rw [optionBind_eq_some] at h
                  obtain ⟨w34, -, h⟩ := h
                  try dsimp only [] at h
                  split at h
                  · -- no far child to recolor
                    rw [optionSomeBind] at h
                    try dsimp only [] at h
                    rw [optionBind_eq_some] at h
                    obtain ⟨y36, hrotT35, h⟩ := h
                    try dsimp only [] at h
                    simp only [Option.some.injEq, Prod.mk.injEq] at h
                    obtain ⟨rfl, -, -⟩ := h
                    simp only [inorder_setColorAtR, inorder_ite_setColorAtR, inorder_rotateLeft hrotT35, inorder_rotateLeft hrotA2]
                  · -- far child recolored black
                    rw [optionBind_eq_some] at h
                    obtain ⟨w38, -, h⟩ := h
                    try dsimp only [] at h
                    rw [optionSomeBind] at h
                    try dsimp only [] at h
                    rw [optionBind_eq_some] at h
                    obtain ⟨y39, hrotT37, h⟩ := h
                    try dsimp only [] at h
                    simp only [Option.some.injEq, Prod.mk.injEq] at h
                    obtain ⟨rfl, -, -⟩ := h
                    simp only [inorder_setColorAtR, inorder_ite_setColorAtR, inorder_rotateLeft hrotT37, inorder_rotateLeft hrotA2]
                · -- parent lookup failed
                  rw [optionNoneBind] at h
                  exact Option.noConfusion h
              · -- sibling or parent lookup failed
                exact Option.noConfusion h
      · -- black sibling: continue in place
        rw [optionSomeBind] at h
        try dsimp only [] at h
        split at h
        · -- sibling lookup failed
          exact Option.noConfusion h
        · -- null sibling throws
          exact Option.noConfusion h
        · -- sibling with children
          split at h
          · -- both of the sibling's children black: recolor and move up
            rw [optionBind_eq_some] at h
            obtain ⟨w40, -, h⟩ := h
            try dsimp only [] at h
            rw [optionBind_eq_some] at h
            obtain ⟨z42, hfix41, h⟩ := h
            try dsimp only [] at h
            simp only [Option.some.injEq, Prod.mk.injEq] at h
            obtain ⟨rfl, -, -⟩ := h
            rw [ih hfix41]
            simp only [inorder_setColorAtR, inorder_ite_setColorAtR]
          · -- near-child / terminal cases
            split at h
            · -- far child black: blacken near child, rotate at the sibling
              split at h
              · -- near child absent
                rw [optionSomeBind] at h
                try dsimp only [] at h
                rw [optionBind_eq_some] at h
                obtain ⟨w44, -, h⟩ := h
                try dsimp only [] at h
                rw [optionBind_eq_some] at h
                obtain ⟨y45, hrotC43, h⟩ := h
                try dsimp only [] at h
                rw [optionSomeBind] at h
                try dsimp only [] at h
                rw [optionBind_eq_some] at h
                obtain ⟨w46, -, h⟩ := h
                try dsimp only [] at h
                split at h
                · -- terminal arm: recolor, rotate at the parent, exit at the root
                  split at h
                  · -- the parent's (overwritten) color reads back
                    rw [optionSomeBind] at h
                    try dsimp only [] at h
                    rw [optionBind_eq_some] at h
                    obtain ⟨w47, -, h⟩ := h
                    try dsimp only [] at h
                    rw [optionBind_eq_some] at h
                    obtain ⟨w48, -, h⟩ := h
                    try dsimp only [] at h
                    split at h
                    · -- no far child to recolor
                      rw [optionSomeBind] at h
                      try dsimp only [] at h
                      rw [optionBind_eq_some] at h
                      obtain ⟨y50, hrotT49, h⟩ := h
                      try dsimp only [] at h
                      simp only [Option.some.injEq, Prod.mk.injEq] at h
                      obtain ⟨rfl, -, -⟩ := h
                      simp only [inorder_setColorAtR, inorder_ite_setColorAtR, inorder_rotateLeft hrotT49, inorder_rotateRight hrotC43]
                    · -- far child recolored black
                      rw [optionBind_eq_some] at h
                      obtain ⟨w52, -, h⟩ := h
                      try dsimp only [] at h
                      rw [optionSomeBind] at h
                      try dsimp only [] at h
                      rw [optionBind_eq_some] at h
                      obtain ⟨y53, hrotT51, h⟩ := h
                      try dsimp only [] at h
                      simp only [Option.some.injEq, Prod.mk.injEq] at h
                      obtain ⟨rfl, -, -⟩ := h
                      simp only [inorder_setColorAtR, inorder_ite_setColorAtR, inorder_rotateLeft hrotT51, inorder_rotateRight hrotC43]
                  · -- parent lookup failed
                    rw [optionNoneBind] at h
                    exact Option.noConfusion h
                · -- sibling or parent lookup failed
                  exact Option.noConfusion h
              · -- near child recolored black
                rw [optionBind_eq_some] at h
                obtain ⟨w55, -, h⟩ := h
                try dsimp only [] at h
                rw [optionSomeBind] at h
                try dsimp only [] at h
                rw [optionBind_eq_some] at h
                obtain ⟨w56, -, h⟩ := h
                try dsimp only [] at h
                rw [optionBind_eq_some] at h
                obtain ⟨y57, hrotC54, h⟩ := h
                try dsimp only [] at h
                rw [optionSomeBind] at h
                try dsimp only [] at h
                rw [optionBind_eq_some] at h
                obtain ⟨w58, -, h⟩ := h
                try dsimp only [] at h
                split at h
                · -- terminal arm: recolor, rotate at the parent, exit at the root
                  split at h
                  · -- the parent's (overwritten) color reads back
                    rw [optionSomeBind] at h
                    try dsimp only [] at h
                    rw [optionBind_eq_some] at h
                    obtain ⟨w59, -, h⟩ := h
                    try dsimp only [] at h
                    rw [optionBind_eq_some] at h
                    obtain ⟨w60, -, h⟩ := h
                    try dsimp only [] at h
                    split at h
                    · -- no far child to recolor
                      rw [optionSomeBind] at h
                      try dsimp only [] at h
                      rw [optionBind_eq_some] at h
                      obtain ⟨y62, hrotT61, h⟩ := h
                      try dsimp only [] at h
                      simp only [Option.some.injEq, Prod.mk.injEq] at h
                      obtain ⟨rfl, -, -⟩ := h
                      simp only [inorder_setColorAtR, inorder_ite_setColorAtR, inorder_rotateLeft hrotT61, inorder_rotateRight hrotC54]
                    · -- far child recolored black
                      rw [optionBind_eq_some] at h
                      obtain ⟨w64, -, h⟩ := h
                      try dsimp only [] at h
                      rw [optionSomeBind] at h
                      try dsimp only [] at h
                      rw [optionBind_eq_some] at h
                      obtain ⟨y65, hrotT63, h⟩ := h
                      try dsimp only [] at h
                      simp only [Option.some.injEq, Prod.mk.injEq] at h
                      obtain ⟨rfl, -, -⟩ := h
                      simp only [inorder_setColorAtR, inorder_ite_setColorAtR, inorder_rotateLeft hrotT63, inorder_rotateRight hrotC54]
                  · -- parent lookup failed
                    rw [optionNoneBind] at h
                    exact Option.noConfusion h
                · -- sibling or parent lookup failed
                  exact Option.noConfusion h
            · -- far child red: no extra rotation
              rw [optionSomeBind] at h
              try dsimp only [] at h
              rw [optionBind_eq_some] at h
              obtain ⟨w66, -, h⟩ := h
              try dsimp only [] at h
              split at h
              · -- terminal arm: recolor, rotate at the parent, exit at the root
                split at h
                · -- the parent's (overwritten) color reads back
                  rw [optionSomeBind] at h
                  try dsimp only [] at h
                  rw [optionBind_eq_some] at h
                  obtain ⟨w67, -, h⟩ := h
                  try dsimp only [] at h
                  rw [optionBind_eq_some] at h
                  obtain ⟨w68, -, h⟩ := h
                  try dsimp only [] at h
                  split at h
                  · -- no far child to recolor
                    rw [optionSomeBind] at h
                    try dsimp only [] at h
                    rw [optionBind_eq_some] at h
                    obtain ⟨y70, hrotT69, h⟩ := h
                    try dsimp only [] at h
                    simp only [Option.some.injEq, Prod.mk.injEq] at h
                    obtain ⟨rfl, -, -⟩ := h
                    simp only [inorder_setColorAtR, inorder_ite_setColorAtR, inorder_rotateLeft hrotT69]
                  · -- far child recolored black
                    rw [optionBind_eq_some] at h
                    obtain ⟨w72, -, h⟩ := h
                    try dsimp only [] at h
                    rw [optionSomeBind] at h
                    try dsimp only [] at h
                    rw [optionBind_eq_some] at h
                    obtain ⟨y73, hrotT71, h⟩ := h
                    try dsimp only [] at h
                    simp only [Option.some.injEq, Prod.mk.injEq] at h
                    obtain ⟨rfl, -, -⟩ := h
                    simp only [inorder_setColorAtR, inorder_ite_setColorAtR, inorder_rotateLeft hrotT71]
                · -- parent lookup failed
                  rw [optionNoneBind] at h
                  exact Option.noConfusion h
              · -- sibling or parent lookup failed
                exact Option.noConfusion h
    · -- black cursor that is a right child
      rw [optionBind_eq_some] at h
      obtain ⟨w74, -, h⟩ := h
      try dsimp only [] at h
      split at h
      · -- null sibling throws
        rw [optionNoneBind] at h
        exact Option.noConfusion h
      · -- red sibling: recolor, rotate at the parent, slide the cursor
        rw [optionBind_eq_some] at h
        obtain ⟨w76, -, h⟩ := h
        try dsimp only [] at h
        rw [optionBind_eq_some] at h
        obtain ⟨w77, -, h⟩ := h
        try dsimp only [] at h
        rw [optionBind_eq_some] at h
        obtain ⟨y78, hrotA75, h⟩ := h
        try dsimp only [] at h
        rw [optionSomeBind] at h
        try dsimp only [] at h
        split at h
        · -- sibling lookup failed
          exact Option.noConfusion h
        · -- null sibling throws
          exact Option.noConfusion h
        · -- sibling with children
          split at h
          · -- both of the sibling's children black: recolor and move up
            rw [optionBind_eq_some] at h
            obtain ⟨w79, -, h⟩ := h
            try dsimp only [] at h
            rw [optionBind_eq_some] at h
            obtain ⟨z81, hfix80, h⟩ := h
            try dsimp only [] at h
            simp only [Option.some.injEq, Prod.mk.injEq] at h
            obtain ⟨rfl, -, -⟩ := h
            rw [ih hfix80]
            simp only [inorder_setColorAtR, inorder_ite_setColorAtR, inorder_rotateRight hrotA75]
          · -- near-child / terminal cases
            split at h
            · -- far child black: blacken near child, rotate at the sibling
              split at h
              · -- near child absent
                rw [optionSomeBind] at h
                try dsimp only [] at h
                rw [optionBind_eq_some] at h
                obtain ⟨w83, -, h⟩ := h
                try dsimp only [] at h
                rw [optionBind_eq_some] at h
                obtain ⟨y84, hrotC82, h⟩ := h
                try dsimp only [] at h
                rw [optionSomeBind] at h
                try dsimp only [] at h
                rw [optionBind_eq_some] at h
                obtain ⟨w85, -, h⟩ := h
                try dsimp only [] at h
                split at h
                · -- terminal arm: recolor, rotate at the parent, exit at the root
                  split at h
                  · -- the parent's (overwritten) color reads back
                    rw [optionSomeBind] at h
                    try dsimp only [] at h
                    rw [optionBind_eq_some] at h
                    obtain ⟨w86, -, h⟩ := h
                    try dsimp only [] at h
                    rw [optionBind_eq_some] at h
                    obtain ⟨w87, -, h⟩ := h
                    try dsimp only [] at h
                    split at h
                    · -- no far child to recolor
                      rw [optionSomeBind] at h
                      try dsimp only [] at h
                      rw [optionBind_eq_some] at h
                      obtain ⟨y89, hrotT88, h⟩ := h
                      try dsimp only [] at h
                      simp only [Option.some.injEq, Prod.mk.injEq] at h
                      obtain ⟨rfl, -, -⟩ := h
                      simp only [inorder_setColorAtR, inorder_ite_setColorAtR, inorder_rotateRight hrotT88, inorder_rotateLeft hrotC82, inorder_rotateRight hrotA75]
                    · -- far child recolored black
                      rw [optionBind_eq_some] at h
                      obtain ⟨w91, -, h⟩ := h
                      try dsimp only [] at h
                      rw [optionSomeBind] at h
                      try dsimp only [] at h
                      rw [optionBind_eq_some] at h
                      obtain ⟨y92, hrotT90, h⟩ := h
                      try dsimp only [] at h
                      simp only [Option.some.injEq, Prod.mk.injEq] at h
                      obtain ⟨rfl, -, -⟩ := h
                      simp only [inorder_setColorAtR, inorder_ite_setColorAtR, inorder_rotateRight hrotT90, inorder_rotateLeft hrotC82, inorder_rotateRight hrotA75]
                  · -- parent lookup failed
                    rw [optionNoneBind] at h
                    exact Option.noConfusion h
                · -- sibling or parent lookup failed
                  exact Option.noConfusion h
              · -- near child recolored black
                rw [optionBind_eq_some] at h
                obtain ⟨w94, -, h⟩ := h
                try dsimp only [] at h
                rw [optionSomeBind] at h
                try dsimp only [] at h
                rw [optionBind_eq_some] at h
                obtain ⟨w95, -, h⟩ := h
                try dsimp only [] at h
                rw [optionBind_eq_some] at h
                obtain ⟨y96, hrotC93, h⟩ := h
                try dsimp only [] at h
                rw [optionSomeBind] at h
                try dsimp only [] at h
                rw [optionBind_eq_some] at h
                obtain ⟨w97, -, h⟩ := h
                try dsimp only [] at h
                split at h
                · -- terminal arm: recolor, rotate at the parent, exit at the root
                  split at h
                  · -- the parent's (overwritten) color reads back
                    rw [optionSomeBind] at h
                    try dsimp only [] at h
                    rw [optionBind_eq_some] at h
                    obtain ⟨w98, -, h⟩ := h
                    try dsimp only [] at h
                    rw [optionBind_eq_some] at h
                    obtain ⟨w99, -, h⟩ := h
                    try dsimp only [] at h
                    split at h
                    · -- no far child to recolor
                      rw [optionSomeBind] at h
                      try dsimp only [] at h
                      rw [optionBind_eq_some] at h
                      obtain ⟨y101, hrotT100, h⟩ := h
                      try dsimp only [] at h
                      simp only [Option.some.injEq, Prod.mk.injEq] at h
                      obtain ⟨rfl, -, -⟩ := h
                      simp only [inorder_setColorAtR, inorder_ite_setColorAtR, inorder_rotateRight hrotT100, inorder_rotateLeft hrotC93, inorder_rotateRight hrotA75]
                    · -- far child recolored black
                      rw [optionBind_eq_some] at h
                      obtain ⟨w103, -, h⟩ := h
                      try dsimp only [] at h
                      rw [optionSomeBind] at h
                      try dsimp only [] at h
                      rw [optionBind_eq_some] at h
                      obtain ⟨y104, hrotT102, h⟩ := h
                      try dsimp only [] at h
                      simp only [Option.some.injEq, Prod.mk.injEq] at h
                      obtain ⟨rfl, -, -⟩ := h
                      simp only [inorder_setColorAtR, inorder_ite_setColorAtR, inorder_rotateRight hrotT102, inorder_rotateLeft hrotC93, inorder_rotateRight hrotA75]
                  · -- parent lookup failed
                    rw [optionNoneBind] at h
                    exact Option.noConfusion h
                · -- sibling or parent lookup failed
                  exact Option.noConfusion h
            · -- far child red: no extra rotation
              rw [optionSomeBind] at h
              try dsimp only [] at h
              rw [optionBind_eq_some] at h
              obtain ⟨w105, -, h⟩ := h
              try dsimp only [] at h
              split at h
              · -- terminal arm: recolor, rotate at the parent, exit at the root
                split at h
                · -- the parent's (overwritten) color reads back
                  rw [optionSomeBind] at h
                  try dsimp only [] at h
                  rw [optionBind_eq_some] at h
                  obtain ⟨w106, -, h⟩ := h
                  try dsimp only [] at h
                  rw [optionBind_eq_some] at h
                  obtain ⟨w107, -, h⟩ := h
                  try dsimp only [] at h
                  split at h
                  · -- no far child to recolor
                    rw [optionSomeBind] at h
                    try dsimp only [] at h
                    rw [optionBind_eq_some] at h
                    obtain ⟨y109, hrotT108, h⟩ := h
                    try dsimp only [] at h
                    simp only [Option.some.injEq, Prod.mk.injEq] at h
                    obtain ⟨rfl, -, -⟩ := h
                    simp only [inorder_setColorAtR, inorder_ite_setColorAtR, inorder_rotateRight hrotT108, inorder_rotateRight hrotA75]
                  · -- far child recolored black
                    rw [optionBind_eq_some] at h
                    obtain ⟨w111, -, h⟩ := h
                    try dsimp only [] at h
                    rw [optionSomeBind] at h
                    try dsimp only [] at h
                    rw [optionBind_eq_some] at h
                    obtain ⟨y112, hrotT110, h⟩ := h
                    try dsimp only [] at h
                    simp only [Option.some.injEq, Prod.mk.injEq] at h
                    obtain ⟨rfl, -, -⟩ := h
                    simp only [inorder_setColorAtR, inorder_ite_setColorAtR, inorder_rotateRight hrotT110, inorder_rotateRight hrotA75]
                · -- parent lookup failed
                  rw [optionNoneBind] at h
                  exact Option.noConfusion h
              · -- sibling or parent lookup failed
                exact Option.noConfusion h
      · -- black sibling: continue in place
        rw [optionSomeBind] at h
        try dsimp only [] at h
        split at h
        · -- sibling lookup failed
          exact Option.noConfusion h
        · -- null sibling throws
          exact Option.noConfusion h
        · -- sibling with children
          split at h
          · -- both of the sibling's children black: recolor and move up
            rw [optionBind_eq_some] at h
            obtain ⟨w113, -, h⟩ := h
            try dsimp only [] at h
            rw [optionBind_eq_some] at h
            obtain ⟨z115, hfix114, h⟩ := h
            try dsimp only [] at h
            simp only [Option.some.injEq, Prod.mk.injEq] at h
            obtain ⟨rfl, -, -⟩ := h
            rw [ih hfix114]
            simp only [inorder_setColorAtR, inorder_ite_setColorAtR]
          · -- near-child / terminal cases
            split at h
            · -- far child black: blacken near child, rotate at the sibling
              split at h
              · -- near child absent
                rw [optionSomeBind] at h
                try dsimp only [] at h
                rw [optionBind_eq_some] at h
                obtain ⟨w117, -, h⟩ := h
                try dsimp only [] at h
                rw [optionBind_eq_some] at h
                obtain ⟨y118, hrotC116, h⟩ := h
                try dsimp only [] at h
                rw [optionSomeBind] at h
                try dsimp only [] at h
                rw [optionBind_eq_some] at h
                obtain ⟨w119, -, h⟩ := h
                try dsimp only [] at h
                split at h
                · -- terminal arm: recolor, rotate at the parent, exit at the root
                  split at h
                  · -- the parent's (overwritten) color reads back
                    rw [optionSomeBind] at h
                    try dsimp only [] at h
                    rw [optionBind_eq_some] at h
                    obtain ⟨w120, -, h⟩ := h
                    try dsimp only [] at h
                    rw [optionBind_eq_some] at h
                    obtain ⟨w121, -, h⟩ := h
                    try dsimp only [] at h
                    split at h
                    · -- no far child to recolor
                      rw [optionSomeBind] at h
                      try dsimp only [] at h
                      rw [optionBind_eq_some] at h
                      obtain ⟨y123, hrotT122, h⟩ := h
                      try dsimp only [] at h
                      simp only [Option.some.injEq, Prod.mk.injEq] at h
                      obtain ⟨rfl, -, -⟩ := h
                      simp only [inorder_setColorAtR, inorder_ite_setColorAtR, inorder_rotateRight hrotT122, inorder_rotateLeft hrotC116]
                    · -- far child recolored black
                      rw [optionBind_eq_some] at h
                      obtain ⟨w125, -, h⟩ := h
                      try dsimp only [] at h
                      rw [optionSomeBind] at h
                      try dsimp only [] at h
                      rw [optionBind_eq_some] at h
                      obtain ⟨y126, hrotT124, h⟩ := h
                      try dsimp only [] at h
                      simp only [Option.some.injEq, Prod.mk.injEq] at h
                      obtain ⟨rfl, -, -⟩ := h
                      simp only [inorder_setColorAtR, inorder_ite_setColorAtR, inorder_rotateRight hrotT124, inorder_rotateLeft hrotC116]
                  · -- parent lookup failed
                    rw [optionNoneBind] at h
                    exact Option.noConfusion h
                · -- sibling or parent lookup failed
                  exact Option.noConfusion h
              · -- near child recolored black
                rw [optionBind_eq_some] at h
                obtain ⟨w128, -, h⟩ := h
                try dsimp only [] at h
                rw [optionSomeBind] at h
                try dsimp only [] at h
                rw [optionBind_eq_some] at h
                obtain ⟨w129, -, h⟩ := h
                try dsimp only [] at h
                rw [optionBind_eq_some] at h
                obtain ⟨y130, hrotC127, h⟩ := h
                try dsimp only [] at h
                rw [optionSomeBind] at h
                try dsimp only [] at h
                rw [optionBind_eq_some] at h
                obtain ⟨w131, -, h⟩ := h
                try dsimp only [] at h
                split at h
                · -- terminal arm: recolor, rotate at the parent, exit at the root
                  split at h
                  · -- the parent's (overwritten) color reads back
                    rw [optionSomeBind] at h
                    try dsimp only [] at h
                    rw [optionBind_eq_some] at h
                    obtain ⟨w132, -, h⟩ := h
                    try dsimp only [] at h
                    rw [optionBind_eq_some] at h
                    obtain ⟨w133, -, h⟩ := h
                    try dsimp only [] at h
                    split at h
                    · -- no far child to recolor
                      rw [optionSomeBind] at h
                      try dsimp only [] at h
                      rw [optionBind_eq_some] at h
                      obtain ⟨y135, hrotT134, h⟩ := h
                      try dsimp only [] at h
                      simp only [Option.some.injEq, Prod.mk.injEq] at h
                      obtain ⟨rfl, -, -⟩ := h
                      simp only [inorder_setColorAtR, inorder_ite_setColorAtR, inorder_rotateRight hrotT134, inorder_rotateLeft hrotC127]
                    · -- far child recolored black
                      rw [optionBind_eq_some] at h
                      obtain ⟨w137, -, h⟩ := h
                      try dsimp only [] at h
                      rw [optionSomeBind] at h
                      try dsimp only [] at h
                      rw [optionBind_eq_some] at h
                      obtain ⟨y138, hrotT136, h⟩ := h
                      try dsimp only [] at h
                      simp only [Option.some.injEq, Prod.mk.injEq] at h
                      obtain ⟨rfl, -, -⟩ := h
                      simp only [inorder_setColorAtR, inorder_ite_setColorAtR, inorder_rotateRight hrotT136, inorder_rotateLeft hrotC127]
                  · -- parent lookup failed
                    rw [optionNoneBind] at h
                    exact Option.noConfusion h
                · -- sibling or parent lookup failed
                  exact Option.noConfusion h
            · -- far child red: no extra rotation
              rw [optionSomeBind] at h
              try dsimp only [] at h
              rw [optionBind_eq_some] at h
              obtain ⟨w139, -, h⟩ := h
              try dsimp only [] at h
              split at h
              · -- terminal arm: recolor, rotate at the parent, exit at the root
                split at h
                · -- the parent's (overwritten) color reads back
                  rw [optionSomeBind] at h
                  try dsimp only [] at h
                  rw [optionBind_eq_some] at h
                  obtain ⟨w140, -, h⟩ := h
                  try dsimp only [] at h
                  rw [optionBind_eq_some] at h
                  obtain ⟨w141, -, h⟩ := h
                  try dsimp only [] at h
                  split at h
                  · -- no far child to recolor
                    rw [optionSomeBind] at h
                    try dsimp only [] at h
                    rw [optionBind_eq_some] at h
                    obtain ⟨y143, hrotT142, h⟩ := h
                    try dsimp only [] at h
                    simp only [Option.some.injEq, Prod.mk.injEq] at h
                    obtain ⟨rfl, -, -⟩ := h
                    simp only [inorder_setColorAtR, inorder_ite_setColorAtR, inorder_rotateRight hrotT142]
                  · -- far child recolored black
                    rw [optionBind_eq_some] at h
                    obtain ⟨w145, -, h⟩ := h
                    try dsimp only [] at h
                    rw [optionSomeBind] at h
                    try dsimp only [] at h
                    rw [optionBind_eq_some] at h
                    obtain ⟨y146, hrotT144, h⟩ := h
                    try dsimp only [] at h
                    simp only [Option.some.injEq, Prod.mk.injEq] at h
                    obtain ⟨rfl, -, -⟩ := h
                    simp only [inorder_setColorAtR, inorder_ite_setColorAtR, inorder_rotateRight hrotT144]
                · -- parent lookup failed
                  rw [optionNoneBind] at h
                  exact Option.noConfusion h
              · -- sibling or parent lookup failed
                exact Option.noConfusion h
    · -- non-root cursor whose parent lookup failed
      exact Option.noConfusion h

end RedBlackTree

theorem RBT.inorderV_nodeR (l : RBT) (v : Int) (id : Nat) (c : Color) (r : RBT) :
    (RBT.node l v id c r).inorderV = l.inorderV ++ v :: r.inorderV := rfl

namespace RedBlackTree

/-- The insertion walk links the new value at the null slot the comparisons
reach: at the value level this is sorted insertion. (On a duplicate the tree
is rebuilt unchanged and `insSorted` is the identity.) -/
theorem insertWalk_inorder_rb {t : RBT} {v : Int} (nid : Nat)
    (hs : List.Sorted (· < ·) t.inorderV) :
    ((insertWalk t v nid).1).inorderV = insSorted v t.inorderV := by
  induction t with
  | nil => simp [insertWalk, RBT.inorderV, insSorted]
  | node l x id c r ihl ihr =>
    rw [RBT.inorderV_nodeR] at hs
    obtain ⟨hsl, hsr, hlx, hxr⟩ := (sorted_append_cons_iff _ _ _).mp hs
    simp only [insertWalk]
    rcases lt_trichotomy v x with h | h | h
    · simp only [if_pos h, RBT.inorderV_nodeR]
      rw [ihl hsl, insSorted_append_lt _ _ h]
    · subst h
      simp only [if_neg (lt_irrefl v), RBT.inorderV_nodeR]
      rw [insSorted_of_mem hs (by simp [List.mem_append])]
    · simp only [if_neg (by omega : ¬ v < x), if_pos h, RBT.inorderV_nodeR]
      rw [ihr hsr,
        insSorted_append_gt _ _ (fun a ha => lt_trans (hlx a ha) h) h]

/-- A duplicate insertion walk rebuilds the tree unchanged, returns no
creation path, and pushes the "already exists" status. -/
theorem insertWalk_dup_rb {t : RBT} {v : Int} (nid : Nat)
    (hs : List.Sorted (· < ·) t.inorderV) (hv : v ∈ t.inorderV) :
    ∃ ws, insertWalk t v nid = (t, ws, none) ∧
      Step.status (Msg.alreadyExists v) 500 ∈ ws := by
  induction t with
  | nil => cases hv
  | node l x id c r ihl ihr =>
    rw [RBT.inorderV_nodeR] at hs hv
    obtain ⟨hsl, hsr, hlx, hxr⟩ := (sorted_append_cons_iff _ _ _).mp hs
    simp only [insertWalk]
    rcases lt_trichotomy v x with h | h | h
    · have hvl : v ∈ l.inorderV := by
        rcases List.mem_append.mp hv with h2 | h2
        · exact h2
        · rcases List.mem_cons.mp h2 with rfl | h3
          · omega
          · exact absurd (hxr v h3) (by omega)
      obtain ⟨ws, hw, hmem⟩ := ihl hsl hvl
      rw [if_pos h, hw]
      exact ⟨_, rfl, by simp [hmem]⟩
    · subst h
      rw [if_neg (lt_irrefl v), if_neg (by omega : ¬ v > v)]
      exact ⟨_, rfl, by simp⟩
    · have hvr : v ∈ r.inorderV := by
        rcases List.mem_append.mp hv with h2 | h2
        · exact absurd (hlx v h2) (by omega)
        · rcases List.mem_cons.mp h2 with rfl | h3
          · omega
          · exact h3
      obtain ⟨ws, hw, hmem⟩ := ihr hsr hvr
      rw [if_neg (by omega : ¬ v < x), if_pos h, hw]
      exact ⟨_, rfl, by simp [hmem]⟩

/-- A fresh value's insertion walk always produces a creation path. -/
theorem insertWalk_fresh_rb {t : RBT} {v : Int} (nid : Nat)
    (hv : v ∉ t.inorderV) :
    ∃ p, (insertWalk t v nid).2.2 = some p := by
  induction t with
  | nil => exact ⟨[], rfl⟩
  | node l x id c r ihl ihr =>
    rw [RBT.inorderV_nodeR] at hv
    simp only [List.mem_append, List.mem_cons] at hv
    push_neg at hv
    obtain ⟨hvl, hvx, hvr⟩ := hv
    simp only [insertWalk]
    rcases lt_trichotomy v x with h | h | h
    · obtain ⟨p, hp⟩ := ihl hvl
      rw [if_pos h]
      exact ⟨Dir.L :: p, by simp [hp]⟩
    · exact absurd h hvx
    · obtain ⟨p, hp⟩ := ihr hvr
      rw [if_neg (by omega : ¬ v < x), if_pos h]
      exact ⟨Dir.R :: p, by simp [hp]⟩

/-- `_findNode` walks by comparisons; an absent value reaches a null link. -/
theorem findNodePath_not_mem {t : RBT} {v : Int} (hv : v ∉ t.inorderV) :
    findNodePath t v = none := by
  induction t with
  | nil => rfl
  | node l x id c r ihl ihr =>
    rw [RBT.inorderV_nodeR] at hv
    simp only [List.mem_append, List.mem_cons] at hv
    push_neg at hv
    obtain ⟨hvl, hvx, hvr⟩ := hv
    simp only [findNodePath]
    rw [if_neg hvx]
    split
    · rw [ihl hvl]
      rfl
    · rw [ihr hvr]
      rfl

/-- On a sorted tree, `_findNode` resolves a present value to the path of a
node carrying exactly that value. -/
theorem findNodePath_mem {t : RBT} {v : Int}
    (hs : List.Sorted (· < ·) t.inorderV) (hv : v ∈ t.inorderV) :
    ∃ q l id c r, findNodePath t v = some q ∧
      subtreeAt t q = some (RBT.node l v id c r) := by
  induction t with
  | nil => cases hv
  | node l x id c r ihl ihr =>
    rw [RBT.inorderV_nodeR] at hs hv
    obtain ⟨hsl, hsr, hlx, hxr⟩ := (sorted_append_cons_iff _ _ _).mp hs
    simp only [findNodePath]
    rcases lt_trichotomy v x with h | h | h
    · have hvl : v ∈ l.inorderV := by
        rcases List.mem_append.mp hv with h2 | h2
        · exact h2
        · rcases List.mem_cons.mp h2 with rfl | h3
          · omega
          · exact absurd (hxr v h3) (by omega)
      obtain ⟨q, l2, id2, c2, r2, hq, hsub⟩ := ihl hsl hvl
      refine ⟨Dir.L :: q, l2, id2, c2, r2, ?_, hsub⟩
      rw [if_neg (by omega : ¬ v = x), if_pos h, hq]
      rfl
    · subst h
      exact ⟨[], l, id, c, r, by rw [if_pos rfl], subtreeAt_nil_path _⟩
    · have hvr : v ∈ r.inorderV := by
        rcases List.mem_append.mp hv with h2 | h2
        · exact absurd (hlx v h2) (by omega)
        · rcases List.mem_cons.mp h2 with rfl | h3
          · omega
          · exact h3
      obtain ⟨q, l2, id2, c2, r2, hq, hsub⟩ := ihr hsr hvr
      refine ⟨Dir.R :: q, l2, id2, c2, r2, ?_, hsub⟩
      rw [if_neg (by omega : ¬ v = x), if_neg (by omega : ¬ v < x), hq]
      rfl

/-- `_findMin` follows left links: its path lands on the node carrying the
head of the inorder list, whose left child is null, and replacing that node
drops exactly the head. -/
theorem findMinPath_spec : ∀ (t : RBT), t ≠ RBT.nil →
    ∃ m mid mc mr Y,
      subtreeAt t (findMinPath t) = some (RBT.node RBT.nil m mid mc mr) ∧
      t.inorderV = m :: (mr.inorderV ++ Y) ∧
      ∀ s, (replaceAt t (findMinPath t) s).inorderV = s.inorderV ++ Y := by
  intro t ht
  induction t with
  | nil => exact absurd rfl ht
  | node l x id c r ihl ihr =>
    cases l with
    | nil =>
      refine ⟨x, id, c, r, [], ?_, by simp [RBT.inorderV], ?_⟩
      · show subtreeAt (RBT.node RBT.nil x id c r) [] = _
        rw [subtreeAt_nil_path]
      · intro s
        show (replaceAt (RBT.node RBT.nil x id c r) [] s).inorderV = _
        rw [replaceAt_nil_path]
        simp
    | node a w i c2 b =>
      obtain ⟨m, mid, mc, mr, Y, h1, h2, h3⟩ := ihl (by intro hc; cases hc)
      refine ⟨m, mid, mc, mr, Y ++ x :: r.inorderV, ?_, ?_, ?_⟩
      · show subtreeAt (RBT.node a w i c2 b) (findMinPath (RBT.node a w i c2 b)) = _
        exact h1
      · rw [RBT.inorderV_nodeR, h2]
        simp
      · intro s
        show (RBT.node (replaceAt (RBT.node a w i c2 b)
          (findMinPath (RBT.node a w i c2 b)) s) x id c r).inorderV = _
        rw [RBT.inorderV_nodeR, h3 s]
        simp

/-- `_deleteNode` at the path of a node carrying `v`, on a sorted tree,
removes exactly `v` from the inorder sequence (the splice promotes the only
child; the two-children case copies the successor value up and splices the
successor; `_fixDelete` afterwards only recolors and rotates). -/
theorem deleteNode_inorder {t : RBT} {q : Path} {v : Int} {ul : RBT}
    {uid : Nat} {uc : Color} {ur : RBT}
    (hs : List.Sorted (· < ·) t.inorderV)
    (hq : subtreeAt t q = some (RBT.node ul v uid uc ur))
    {t' : RBT} {st : List RStep} {ev : List REvt}
    (h : deleteNode t q = some (t', st, ev)) :
    t'.inorderV = delSorted v t.inorderV := by
  obtain ⟨X, Y, htin, hrep⟩ := inorder_subtree_replaceAt q t _ hq
  rw [RBT.inorderV_nodeR] at htin
  have htin2 : t.inorderV = (X ++ ul.inorderV) ++ v :: (ur.inorderV ++ Y) := by
    rw [htin]
    simp
  have hsorted2 := htin2 ▸ hs
  obtain ⟨hs1, hs2, hlt2, hgt2⟩ := (sorted_append_cons_iff _ _ _).mp hsorted2
  have hvnot : v ∉ X ++ ul.inorderV := fun hc => absurd (hlt2 v hc) (lt_irrefl v)
  have hdel : delSorted v t.inorderV =
      (X ++ ul.inorderV) ++ (ur.inorderV ++ Y) := by
    rw [htin2, delSorted_append_right hvnot]
    simp [delSorted]
  rw [deleteNode] at h
  rw [hq] at h
  rw [optionSomeBind] at h
  try dsimp only [] at h
  cases ul with
  | nil =>
    rw [if_pos (show (RBT.nil.isNil || ur.isNil) = true from rfl)] at h
    rw [hq] at h
    rw [optionSomeBind] at h
    try dsimp only [] at h
    rw [if_pos (show (RBT.nil.isNil = true) from rfl)] at h
    rw [if_pos (rfl : q = q)] at h
    try dsimp only [] at h
    split at h
    · rw [optionBind_eq_some] at h
      obtain ⟨w, hfix, h⟩ := h
      try dsimp only [] at h
      simp only [Option.some.injEq, Prod.mk.injEq] at h
      obtain ⟨rfl, -, -⟩ := h
      rw [inorder_fixDelete _ hfix, hrep, hdel]
      simp [RBT.inorderV]
    · simp only [Option.some.injEq, Prod.mk.injEq] at h
      obtain ⟨rfl, -, -⟩ := h
      rw [hrep, hdel]
      simp [RBT.inorderV]
  | node a w2 i2 c2 b2 =>
    cases ur with
    | nil =>
      rw [if_pos (show ((RBT.node a w2 i2 c2 b2).isNil || RBT.nil.isNil) = true
        from rfl)] at h
      rw [hq] at h
      rw [optionSomeBind] at h
      try dsimp only [] at h
      rw [if_neg (show ¬ ((RBT.node a w2 i2 c2 b2).isNil = true) from by
        simp [RBT.isNil])] at h
      rw [if_pos (rfl : q = q)] at h
      try dsimp only [] at h
      split at h
      · rw [optionBind_eq_some] at h
        obtain ⟨w, hfix, h⟩ := h
        try dsimp only [] at h
        simp only [Option.some.injEq, Prod.mk.injEq] at h
        obtain ⟨rfl, -, -⟩ := h
        rw [inorder_fixDelete _ hfix, hrep, hdel]
        simp [RBT.inorderV]
      · simp only [Option.some.injEq, Prod.mk.injEq] at h
        obtain ⟨rfl, -, -⟩ := h
        rw [hrep, hdel]
        simp [RBT.inorderV]
    | node a3 w3 i3 c3 b3 =>
      rw [if_neg (show ¬ (((RBT.node a w2 i2 c2 b2).isNil ||
        (RBT.node a3 w3 i3 c3 b3).isNil) = true) from by simp [RBT.isNil])] at h
      obtain ⟨m, mid, mc, mr, Ym, hmin, hurin, hminrep⟩ :=
        findMinPath_spec (RBT.node a3 w3 i3 c3 b3) (by intro hc; cases hc)
      have hsub2 : subtreeAt t
          (q ++ Dir.R :: findMinPath (RBT.node a3 w3 i3 c3 b3)) =
          some (RBT.node RBT.nil m mid mc mr) := by
        rw [subtreeAt_append, hq]
        exact hmin
      rw [hsub2] at h
      rw [optionSomeBind] at h
      try dsimp only [] at h
      rw [if_pos (show (RBT.nil.isNil = true) from rfl)] at h
      have hne : ¬ (q ++ Dir.R :: findMinPath (RBT.node a3 w3 i3 c3 b3)) = q := by
        intro hc
        have := congrArg List.length hc
        simp at this
      rw [if_neg hne] at h
      try dsimp only [] at h
      have ht1 : replaceAt t
          (q ++ Dir.R :: findMinPath (RBT.node a3 w3 i3 c3 b3)) mr =
          replaceAt t q (RBT.node (RBT.node a w2 i2 c2 b2) v uid uc
            (replaceAt (RBT.node a3 w3 i3 c3 b3)
              (findMinPath (RBT.node a3 w3 i3 c3 b3)) mr)) := by
        rw [replaceAt_append _ _ _ _ _ hq]
        rfl
      have hsv : setValueAt (replaceAt t
          (q ++ Dir.R :: findMinPath (RBT.node a3 w3 i3 c3 b3)) mr) q m =
          replaceAt t q (RBT.node (RBT.node a w2 i2 c2 b2) m uid uc
            (replaceAt (RBT.node a3 w3 i3 c3 b3)
              (findMinPath (RBT.node a3 w3 i3 c3 b3)) mr)) := by
        rw [ht1, setValueAt]
        rw [subtreeAt_replaceAt_self _ _ _ _ hq]
        try dsimp only []
        rw [replaceAt_replaceAt]
      rw [hsv] at h
      have hout : (replaceAt t q (RBT.node (RBT.node a w2 i2 c2 b2) m uid uc
          (replaceAt (RBT.node a3 w3 i3 c3 b3)
            (findMinPath (RBT.node a3 w3 i3 c3 b3)) mr))).inorderV =
          delSorted v t.inorderV := by
        rw [hrep, hdel, RBT.inorderV_nodeR, hminrep mr, hurin]
        simp
      split at h
      · rw [optionBind_eq_some] at h
        obtain ⟨w, hfix, h⟩ := h
        try dsimp only [] at h
        simp only [Option.some.injEq, Prod.mk.injEq] at h
        obtain ⟨rfl, -, -⟩ := h
        rw [inorder_fixDelete _ hfix, hout]
      · simp only [Option.some.injEq, Prod.mk.injEq] at h
        obtain ⟨rfl, -, -⟩ := h
        rw [hout]

/-- `delete(value)` on a sorted tree: whenever the call returns, the result
tree's inorder list is the input's with `v` removed (the identity when `v`
is absent). -/
theorem delete_inorder {s : RBState} {v : Int}
    (hs : List.Sorted (· < ·) s.root.inorderV)
    {s' : RBState} {st : List RStep} {ev : List REvt}
    (h : delete s v = some (s', st, ev)) :
    s'.root.inorderV = delSorted v s.root.inorderV := by
  rw [delete] at h
  by_cases hv : v ∈ s.root.inorderV
  · obtain ⟨q, l2, id2, c2, r2, hfp, hsub⟩ := findNodePath_mem hs hv
    rw [hfp] at h
    try dsimp only [] at h
    rw [hsub] at h
    rw [optionSomeBind] at h
    try dsimp only [] at h
    rw [optionBind_eq_some] at h
    obtain ⟨w, hdn, h⟩ := h
    try dsimp only [] at h
    simp only [Option.some.injEq, Prod.mk.injEq] at h
    obtain ⟨rfl, -, -⟩ := h
    exact deleteNode_inorder hs hsub hdn
  · rw [findNodePath_not_mem hv] at h
    try dsimp only [] at h
    simp only [Option.some.injEq, Prod.mk.injEq] at h
    obtain ⟨rfl, -, -⟩ := h
    rw [delSorted_of_not_mem hv]

/-- `insert(value)`: whenever the call returns, the result tree's inorder
list is the input's with `v` sorted in (the identity on a duplicate). -/
theorem insert_inorder_rb {s : RBState} {v : Int}
    (hs : List.Sorted (· < ·) s.root.inorderV)
    {s' : RBState} {st : List RStep} {ev : List REvt}
    (h : insert s v = some (s', st, ev)) :
    s'.root.inorderV = insSorted v s.root.inorderV := by
  rw [insert] at h
  cases hr : s.root with
  | nil =>
    rw [hr] at h
    try dsimp only [] at h
    simp only [Option.some.injEq, Prod.mk.injEq] at h
    obtain ⟨rfl, -, -⟩ := h
    simp [RBT.inorderV, insSorted]
  | node l x id c r =>
    have hs2 : List.Sorted (· < ·) (RBT.node l x id c r).inorderV := hr ▸ hs
    rw [hr] at h
    try dsimp only [] at h
    rcases hw : insertWalk (RBT.node l x id c r) v s.counter with ⟨t1, ws, p?⟩
    rw [hw] at h
    try dsimp only [] at h
    have ht1 : t1.inorderV = insSorted v (RBT.node l x id c r).inorderV := by
      have h2 := @insertWalk_inorder_rb (RBT.node l x id c r) v s.counter hs2
      rw [hw] at h2
      exact h2
    cases p? with
    | none =>
      try dsimp only [] at h
      simp only [Option.some.injEq, Prod.mk.injEq] at h
      obtain ⟨rfl, -, -⟩ := h
      exact ht1
    | some p =>
      try dsimp only [] at h
      rw [optionBind_eq_some] at h
      obtain ⟨w, hfix, h⟩ := h
      try dsimp only [] at h
      simp only [Option.some.injEq, Prod.mk.injEq] at h
      obtain ⟨rfl, -, -⟩ := h
      show w.1.inorderV = _
      rw [inorder_fixInsert _ hfix]
      exact ht1

/-- A duplicate `insert(value)`: the tree is unchanged, the id counter is
still consumed, no recolor event happens, and the animations report that the
value already exists. -/
theorem insert_dup_rb {s : RBState} {v : Int}
    (hs : List.Sorted (· < ·) s.root.inorderV) (hv : v ∈ s.root.inorderV) :
    ∃ ws, insert s v = some (⟨s.root, s.counter + 1⟩, ws, []) ∧
      Step.status (Msg.alreadyExists v) 500 ∈ ws := by
  cases hr : s.root with
  | nil => rw [hr] at hv; cases hv
  | node l x id c r =>
    have hs2 : List.Sorted (· < ·) (RBT.node l x id c r).inorderV := hr ▸ hs
    have hv2 : v ∈ (RBT.node l x id c r).inorderV := hr ▸ hv
    obtain ⟨ws, hw, hmem⟩ := insertWalk_dup_rb s.counter hs2 hv2
    refine ⟨Step.status (Msg.insertingRB v) 500 :: ws, ?_, by simp [hmem]⟩
    rw [insert, hr]
    try dsimp only []
    rw [hw]
    rfl

/-- `delete(value)` on a value that is not in the tree: early return with the
state unchanged and a "not found" status; nothing can throw. -/
theorem delete_absent_rb {s : RBState} {v : Int} (hv : v ∉ s.root.inorderV) :
    delete s v = some (s, [Step.status (Msg.deletingRB v) 500,
      Step.status (Msg.valueNotFound v) 800], []) := by
  rw [delete, findNodePath_not_mem hv]
  rfl

/-- One normally-returning public Red-Black call keeps the inorder list
strictly sorted. -/
theorem runRBOp_sorted {s s' : RBState} {op : RBOp}
    (hs : List.Sorted (· < ·) s.root.inorderV)
    (h : runRBOp s op = some s') :
    List.Sorted (· < ·) s'.root.inorderV := by
  cases op with
  | ins v =>
    simp only [runRBOp] at h
    rw [Option.map_eq_some'] at h
    obtain ⟨a, hins, rfl⟩ := h
    show List.Sorted (· < ·) a.1.root.inorderV
    rw [insert_inorder_rb hs hins]
    exact sorted_insSorted hs
  | del v =>
    simp only [runRBOp] at h
    rw [Option.map_eq_some'] at h
    obtain ⟨a, hdel, rfl⟩ := h
    show List.Sorted (· < ·) a.1.root.inorderV
    rw [delete_inorder hs hdel]
    exact sorted_delSorted hs

/-- Every reachable Red-Black state has a strictly sorted inorder list. -/
theorem rbReach_sorted {s : RBState} (h : RBReach s) :
    List.Sorted (· < ·) s.root.inorderV := by
  obtain ⟨ops, hops⟩ := h
  suffices hgen : ∀ (ops : List RBOp) (s0 : RBState),
      List.Sorted (· < ·) s0.root.inorderV →
      runRBFrom s0 ops = some s →
      List.Sorted (· < ·) s.root.inorderV by
    exact hgen ops ⟨RBT.nil, 0⟩ (by simp [RBT.inorderV]) hops
  intro ops
  induction ops with
  | nil =>
    intro s0 h1 hrun
    simp only [runRBFrom] at hrun
    obtain rfl := Option.some.inj hrun
    exact h1
  | cons op rest ih =>
    intro s0 h1 hrun
    cases hstep : runRBOp s0 op with
    | none =>
      rw [runRBFrom, hstep] at hrun
      cases hrun
    | some s1 =>
      rw [runRBFrom, hstep] at hrun
      exact ih s1 (runRBOp_sorted h1 hstep) hrun

end RedBlackTree

/-- `_searchNode` on the AVL engine answers membership (the wrapper then
drops this boolean). -/
theorem searchNode_spec_avl {t : AVL} {v : Int}
    (hs : List.Sorted (· < ·) t.inorderV) :
    (AVLTree.searchNode t v).2 = true ↔ v ∈ t.inorderV := by
  induction t with
  | nil => simp [AVLTree.searchNode, AVL.inorderV]
  | node l x id h r ihl ihr =>
    rw [AVL.inorderV_nodeA] at hs ⊢
    obtain ⟨hsl, hsr, hlx, hxr⟩ := (sorted_append_cons_iff _ _ _).mp hs
    simp only [AVLTree.searchNode]
    rcases lt_trichotomy v x with h2 | h2 | h2
    · rw [if_neg (by omega : ¬ v = x), if_pos h2]
      rw [show (Step.highlight id HState.visiting 300 ::
        Step.status (Msg.goingLeft v x) 500 :: (AVLTree.searchNode l v).1,
        (AVLTree.searchNode l v).2).2 = (AVLTree.searchNode l v).2 from rfl,
        ihl hsl]
      constructor
      · intro h3; exact List.mem_append.mpr (Or.inl h3)
      · intro h3
        rcases List.mem_append.mp h3 with h4 | h4
        · exact h4
        · rcases List.mem_cons.mp h4 with rfl | h5
          · omega
          · exact absurd (hxr v h5) (by omega)
    · subst h2
      simp
    · rw [if_neg (by omega : ¬ v = x), if_neg (by omega : ¬ v < x)]
      rw [show (Step.highlight id HState.visiting 300 ::
        Step.status (Msg.goingRight v x) 500 :: (AVLTree.searchNode r v).1,
        (AVLTree.searchNode r v).2).2 = (AVLTree.searchNode r v).2 from rfl,
        ihr hsr]
      constructor
      · intro h3
        exact List.mem_append.mpr (Or.inr (List.mem_cons_of_mem x h3))
      · intro h3
        rcases List.mem_append.mp h3 with h4 | h4
        · exact absurd (hlx v h4) (by omega)
        · rcases List.mem_cons.mp h4 with rfl | h5
          · omega
          · exact h5

/-- `_searchNode` on the Red-Black engine answers membership (the wrapper
then drops this boolean). -/
theorem searchNode_spec_rb {t : RBT} {v : Int}
    (hs : List.Sorted (· < ·) t.inorderV) :
    (RedBlackTree.searchNode t v).2 = true ↔ v ∈ t.inorderV := by
  induction t with
  | nil => simp [RedBlackTree.searchNode, RBT.inorderV]
  | node l x id c r ihl ihr =>
    rw [RBT.inorderV_nodeR] at hs ⊢
    obtain ⟨hsl, hsr, hlx, hxr⟩ := (sorted_append_cons_iff _ _ _).mp hs
    simp only [RedBlackTree.searchNode]
    rcases lt_trichotomy v x with h2 | h2 | h2
    · rw [if_neg (by omega : ¬ v = x), if_pos h2]
      rw [show (Step.highlight id HState.visiting 300 ::
        Step.status (Msg.goingLeft v x) 500 :: (RedBlackTree.searchNode l v).1,
        (RedBlackTree.searchNode l v).2).2 = (RedBlackTree.searchNode l v).2
        from rfl, ihl hsl]
      constructor
      · intro h3; exact List.mem_append.mpr (Or.inl h3)
      · intro h3
        rcases List.mem_append.mp h3 with h4 | h4
        · exact h4
        · rcases List.mem_cons.mp h4 with rfl | h5
          · omega
          · exact absurd (hxr v h5) (by omega)
    · subst h2
      simp
    · rw [if_neg (by omega : ¬ v = x), if_neg (by omega : ¬ v < x)]
      rw [show (Step.highlight id HState.visiting 300 ::
        Step.status (Msg.goingRight v x) 500 :: (RedBlackTree.searchNode r v).1,
        (RedBlackTree.searchNode r v).2).2 = (RedBlackTree.searchNode r v).2
        from rfl, ihr hsr]
      constructor
      · intro h3
        exact List.mem_append.mpr (Or.inr (List.mem_cons_of_mem x h3))
      · intro h3
        rcases List.mem_append.mp h3 with h4 | h4
        · exact absurd (hlx v h4) (by omega)
        · rcases List.mem_cons.mp h4 with rfl | h5
          · omega
          · exact h5

/-! ## The claims -/

/-- C1: the spec demands that after every insert or delete the Red-Black tree
satisfies all three invariants (black root, no red-red edge, equal black
heights). The run insert 10, 20, 30, 40 then delete 10 refutes this: the
deleted node is a black leaf, `_deleteNode` skips `_fixDelete` because the
replacement has no child, and the resulting tree keeps a black root and no
red-red edge but its root-to-null paths disagree on black counts
(`blackHeightAgree` returns `none`), so `rbValid` is `false`. -/
theorem c1_rb_delete_breaks_black_height :
    (runRBFrom ⟨RBT.nil, 0⟩ [RBOp.ins 10, RBOp.ins 20, RBOp.ins 30,
      RBOp.ins 40, RBOp.del 10]).map (fun s =>
        (rootBlack s.root, noRedRed s.root, blackHeightAgree s.root,
          rbValid s.root)) =
    some (true, true, none, false) := by
  rfl

/-- C2: after every sequence of normally-returning AVL inserts and deletes,
every node's (real) subtree heights differ by at most 1. -/
theorem c2_avl_always_balanced {s : AVLState} (h : AVLReach s) :
    balancedReal s.root = true := by
  obtain ⟨hok, hbal, -⟩ := AVLTree.avlReach_inv h
  exact AVLTree.balancedReal_of_inv hok hbal

/-- Witness for C2 at the state reached by inserting 1, 2, 3. -/
theorem c2_avl_always_balanced_witness :
    balancedReal (AVLState.mk (AVL.node (AVL.node AVL.nil 1 0 1 AVL.nil) 2 1 2
      (AVL.node AVL.nil 3 2 1 AVL.nil)) 3).root = true :=
  c2_avl_always_balanced ⟨[AVLOp.ins 1, AVLOp.ins 2, AVLOp.ins 3], rfl⟩

/-- C3 (corrected): only the BST engine's `search` returns a `found` boolean
(true exactly when the value is present). The AVL and Red-Black `search`
return `{ animations }` only — their result carries no `found` field
(modelled as `none`) — although the `_searchNode` walk they discard does
compute the correct membership boolean. -/
theorem c3_search_found_field (sb : BSTState) (sa : AVLState) (sr : RBState)
    (v : Int) (hb : List.Sorted (· < ·) sb.root.inorderV)
    (ha : List.Sorted (· < ·) sa.root.inorderV)
    (hr : List.Sorted (· < ·) sr.root.inorderV) :
    ((BST.search sb v).found = some true ↔ v ∈ sb.root.inorderV) ∧
    (AVLTree.search sa v).found = none ∧
    (RedBlackTree.search sr v).found = none ∧
    ((AVLTree.searchNode sa.root v).2 = true ↔ v ∈ sa.root.inorderV) ∧
    ((RedBlackTree.searchNode sr.root v).2 = true ↔ v ∈ sr.root.inorderV) := by
  refine ⟨?_, rfl, rfl, searchNode_spec_avl ha, searchNode_spec_rb hr⟩
  show some (BST.searchGo sb.root v).2 = some true ↔ _
  rw [Option.some.injEq]
  exact BST.searchGo_spec hb

/-- Counterexample for C3: on singleton AVL and Red-Black trees that do
contain the searched value 5, `search` still reports no `found` boolean. -/
theorem c3_search_found_missing :
    (AVLTree.search ⟨AVL.node AVL.nil 5 0 1 AVL.nil, 1⟩ 5).found = none ∧
    (RedBlackTree.search ⟨RBT.node RBT.nil 5 0 Color.black RBT.nil, 1⟩
      5).found = none ∧
    5 ∈ (AVL.node AVL.nil 5 0 1 AVL.nil).inorderV :=
  ⟨rfl, rfl, by simp [AVL.inorderV]⟩

/-- Witness for C3 at empty states of the three engines with value 5. -/
theorem c3_search_found_field_witness :
    ((BST.search ⟨BT.nil, 0⟩ 5).found = some true ↔
      5 ∈ (⟨BT.nil, 0⟩ : BSTState).root.inorderV) ∧
    (AVLTree.search ⟨AVL.nil, 0⟩ 5).found = none ∧
    (RedBlackTree.search ⟨RBT.nil, 0⟩ 5).found = none ∧
    ((AVLTree.searchNode (⟨AVL.nil, 0⟩ : AVLState).root 5).2 = true ↔
      5 ∈ (⟨AVL.nil, 0⟩ : AVLState).root.inorderV) ∧
    ((RedBlackTree.searchNode (⟨RBT.nil, 0⟩ : RBState).root 5).2 = true ↔
      5 ∈ (⟨RBT.nil, 0⟩ : RBState).root.inorderV) :=
  c3_search_found_field ⟨BT.nil, 0⟩ ⟨AVL.nil, 0⟩ ⟨RBT.nil, 0⟩ 5
    (by simp [BT.inorderV]) (by simp [AVL.inorderV]) (by simp [RBT.inorderV])

/-- C4: every tree any engine can reach through its public calls has a
strictly increasing (hence non-decreasing) `inorderTraversal` result list. -/
theorem c4_inorder_always_sorted (sb : BSTState) (sa : AVLState)
    (sr : RBState) (hb : BSTReach sb) (ha : AVLReach sa) (hr : RBReach sr) :
    List.Sorted (· < ·) (BST.inorderTraversal sb).1 ∧
    List.Sorted (· < ·) (AVLTree.inorderTraversal sa).1 ∧
    List.Sorted (· < ·) (RedBlackTree.inorderTraversal sr).1 :=
  ⟨BST.bstReach_sorted hb, (AVLTree.avlReach_inv ha).2.2,
    RedBlackTree.rbReach_sorted hr⟩

/-- Witness for C4 at the empty (freshly constructed) states. -/
theorem c4_inorder_always_sorted_witness :
    List.Sorted (· < ·) (BST.inorderTraversal ⟨BT.nil, 0⟩).1 ∧
    List.Sorted (· < ·) (AVLTree.inorderTraversal ⟨AVL.nil, 0⟩).1 ∧
    List.Sorted (· < ·) (RedBlackTree.inorderTraversal ⟨RBT.nil, 0⟩).1 :=
  c4_inorder_always_sorted ⟨BT.nil, 0⟩ ⟨AVL.nil, 0⟩ ⟨RBT.nil, 0⟩
    ⟨[], rfl⟩ ⟨[], rfl⟩ ⟨[], rfl⟩

/-- C5 (corrected): inserting a value that is NOT already present and then
deleting it restores the inorder sequence, on each engine (for AVL and
Red-Black, whenever the two calls return normally). For a value already
present the original claim fails (see the counterexample): the duplicate
insert is rejected but the delete still removes the pre-existing node. -/
theorem c5_insert_delete_round_trip (sb : BSTState) (sa : AVLState)
    (sr : RBState) (v : Int)
    (hb : List.Sorted (· < ·) sb.root.inorderV) (hvb : v ∉ sb.root.inorderV)
    (hreach : AVLReach sa) (hva : v ∉ sa.root.inorderV)
    (hr : List.Sorted (· < ·) sr.root.inorderV)
    (hvr : v ∉ sr.root.inorderV) :
    (runBSTFrom sb [BSTOp.ins v, BSTOp.del v]).root.inorderV =
      sb.root.inorderV ∧
    (∀ s1 s2, runAVLOp sa (AVLOp.ins v) = some s1 →
      runAVLOp s1 (AVLOp.del v) = some s2 →
      s2.root.inorderV = sa.root.inorderV) ∧
    (∀ s1 s2, runRBOp sr (RBOp.ins v) = some s1 →
      runRBOp s1 (RBOp.del v) = some s2 →
      s2.root.inorderV = sr.root.inorderV) := by
  refine ⟨?_, ?_, ?_⟩
  · have h1 : (runBSTOp sb (BSTOp.ins v)).root.inorderV =
        insSorted v sb.root.inorderV := by
      cases ht : sb.root with
      | nil => simp [runBSTOp, BST.insert, ht, BT.inorderV, insSorted]
      | node l x id r =>
        have hs2 : List.Sorted (· < ·) (BT.node l x id r).inorderV := ht ▸ hb
        simp only [runBSTOp, BST.insert, ht]
        rw [BST.insertWalk_inorder _ v (BST.generateId sb.counter) hs2]
    have hs1 : List.Sorted (· < ·) (runBSTOp sb (BSTOp.ins v)).root.inorderV := by
      rw [h1]
      exact sorted_insSorted hb
    have hvmem : v ∈ (runBSTOp sb (BSTOp.ins v)).root.inorderV := by
      rw [h1]
      exact (mem_insSorted v v _).mpr (Or.inl rfl)
    show (BST.deleteNode (runBSTOp sb (BSTOp.ins v)).root v).1.inorderV = _
    rw [BST.deleteNode_mem hs1 hvmem, h1, delSorted_insSorted hvb]
  · intro s1 s2 h1 h2
    obtain ⟨hok, hbal, hs⟩ := AVLTree.avlReach_inv hreach
    obtain ⟨t', steps, heq, hok', hbal', hord', -⟩ :=
      @AVLTree.insertNode_fresh sa.root v sa.counter hok hbal hs hva
    have h1' : runAVLOp sa (AVLOp.ins v) = some ⟨t', sa.counter + 1⟩ := by
      simp only [runAVLOp, AVLTree.insert]
      rw [heq]
      rfl
    rw [h1'] at h1
    obtain rfl := Option.some.inj h1
    have hmem : v ∈ t'.inorderV := by
      rw [hord']
      exact (mem_insSorted v v _).mpr (Or.inl rfl)
    have hs' : List.Sorted (· < ·) t'.inorderV := by
      rw [hord']
      exact sorted_insSorted hs
    obtain ⟨t2, steps2, heq2, -, -, hord2, -⟩ :=
      AVLTree.deleteNode_mem_avl hok' hbal' hs' hmem
    have h2' : runAVLOp ⟨t', sa.counter + 1⟩ (AVLOp.del v) =
        some ⟨t2, sa.counter + 1⟩ := by
      simp only [runAVLOp, AVLTree.delete]
      try dsimp only []
      rw [heq2]
      rfl
    rw [h2'] at h2
    obtain rfl := Option.some.inj h2
    show t2.inorderV = _
    rw [hord2, hord', delSorted_insSorted hva]
  · intro s1 s2 h1 h2
    simp only [runRBOp] at h1 h2
    rw [Option.map_eq_some'] at h1 h2
    obtain ⟨a1, hins, rfl⟩ := h1
    obtain ⟨a2, hdel, rfl⟩ := h2
    have hin1 : a1.1.root.inorderV = insSorted v sr.root.inorderV :=
      RedBlackTree.insert_inorder_rb hr hins
    have hs1 : List.Sorted (· < ·) a1.1.root.inorderV := by
      rw [hin1]
      exact sorted_insSorted hr
    show a2.1.root.inorderV = _
    rw [RedBlackTree.delete_inorder hs1 hdel, hin1, delSorted_insSorted hvr]

/-- Counterexample for C5 as frozen: on the BST engine, after inserting 10
the tree holds [10]; inserting 10 again (rejected as a duplicate) and then
deleting 10 leaves [], not the [10] the round-trip property promises. -/
theorem c5_duplicate_round_trip_fails :
    (runBSTFrom ⟨BT.nil, 0⟩ [BSTOp.ins 10]).root.inorderV = [10] ∧
    (runBSTFrom ⟨BT.nil, 0⟩
      [BSTOp.ins 10, BSTOp.ins 10, BSTOp.del 10]).root.inorderV = [] :=
  ⟨rfl, rfl⟩

/-- Witness for C5 at empty states with the fresh value 5. -/
theorem c5_insert_delete_round_trip_witness :
    (runBSTFrom ⟨BT.nil, 0⟩ [BSTOp.ins 5, BSTOp.del 5]).root.inorderV =
      (⟨BT.nil, 0⟩ : BSTState).root.inorderV ∧
    (∀ s1 s2, runAVLOp ⟨AVL.nil, 0⟩ (AVLOp.ins 5) = some s1 →
      runAVLOp s1 (AVLOp.del 5) = some s2 →
      s2.root.inorderV = (⟨AVL.nil, 0⟩ : AVLState).root.inorderV) ∧
    (∀ s1 s2, runRBOp ⟨RBT.nil, 0⟩ (RBOp.ins 5) = some s1 →
      runRBOp s1 (RBOp.del 5) = some s2 →
      s2.root.inorderV = (⟨RBT.nil, 0⟩ : RBState).root.inorderV) :=
  c5_insert_delete_round_trip ⟨BT.nil, 0⟩ ⟨AVL.nil, 0⟩ ⟨RBT.nil, 0⟩ 5
    (by simp [BT.inorderV]) (by simp [BT.inorderV])
    ⟨[], rfl⟩ (by simp [AVL.inorderV])
    (by simp [RBT.inorderV]) (by simp [RBT.inorderV])

/-- C6: inserting an already-present value is rejected by each engine: the
tree keeps the same root (so the same nodes and inorder sequence), no node is
linked in, and the animations report that the value already exists. -/
theorem c6_duplicate_insert_no_op (sb : BSTState) (sa : AVLState)
    (sr : RBState) (v : Int)
    (hb : List.Sorted (· < ·) sb.root.inorderV) (hvb : v ∈ sb.root.inorderV)
    (hok : AVLTree.Hok sa.root) (hbal : AVLTree.Bal sa.root)
    (ha : List.Sorted (· < ·) sa.root.inorderV) (hva : v ∈ sa.root.inorderV)
    (hr : List.Sorted (· < ·) sr.root.inorderV)
    (hvr : v ∈ sr.root.inorderV) :
    ((BST.insert sb v).1.root = sb.root ∧
      Step.status (Msg.valueAlreadyExistsInTree v) 1000 ∈ (BST.insert sb v).2) ∧
    (∃ steps, AVLTree.insert sa v = some (⟨sa.root, sa.counter⟩, steps) ∧
      Step.status (Msg.alreadyExists v) 500 ∈ steps) ∧
    (∃ steps, RedBlackTree.insert sr v =
        some (⟨sr.root, sr.counter + 1⟩, steps, []) ∧
      Step.status (Msg.alreadyExists v) 500 ∈ steps) := by
  refine ⟨?_, ?_, RedBlackTree.insert_dup_rb hr hvr⟩
  · cases ht : sb.root with
    | nil =>
      rw [ht] at hvb
      cases hvb
    | node l x id r =>
      have hs2 : List.Sorted (· < ·) (BT.node l x id r).inorderV := ht ▸ hb
      have hv2 : v ∈ (BT.node l x id r).inorderV := ht ▸ hvb
      have hw := BST.insertWalk_dup (BST.generateId sb.counter) hs2 hv2
      constructor
      · show (BST.insert sb v).1.root = BT.node l x id r
        simp only [BST.insert, ht, hw]
      · show _ ∈ (BST.insert sb v).2
        simp only [BST.insert, ht, hw]
        simp
  · obtain ⟨steps, heq, hmem⟩ := @AVLTree.insertNode_dup sa.root v sa.counter
      hok hbal ha hva
    refine ⟨Step.status (Msg.insertingAVL v) 500 :: steps, ?_,
      List.mem_cons_of_mem _ hmem⟩
    simp only [AVLTree.insert]
    rw [heq]
    rfl

/-- Witness for C6 at singleton states each holding the value 5. -/
theorem c6_duplicate_insert_no_op_witness :
    ((BST.insert ⟨BT.node BT.nil 5 "node-0" BT.nil, 1⟩ 5).1.root =
        (⟨BT.node BT.nil 5 "node-0" BT.nil, 1⟩ : BSTState).root ∧
      Step.status (Msg.valueAlreadyExistsInTree 5) 1000 ∈
        (BST.insert ⟨BT.node BT.nil 5 "node-0" BT.nil, 1⟩ 5).2) ∧
    (∃ steps, AVLTree.insert ⟨AVL.node AVL.nil 5 0 1 AVL.nil, 1⟩ 5 =
        some (⟨(⟨AVL.node AVL.nil 5 0 1 AVL.nil, 1⟩ : AVLState).root,
          (⟨AVL.node AVL.nil 5 0 1 AVL.nil, 1⟩ : AVLState).counter⟩, steps) ∧
      Step.status (Msg.alreadyExists 5) 500 ∈ steps) ∧
    (∃ steps, RedBlackTree.insert ⟨RBT.node RBT.nil 5 0 Color.black RBT.nil,
        1⟩ 5 =
        some (⟨(⟨RBT.node RBT.nil 5 0 Color.black RBT.nil, 1⟩ : RBState).root,
          (⟨RBT.node RBT.nil 5 0 Color.black RBT.nil, 1⟩ :
            RBState).counter + 1⟩, steps, []) ∧
      Step.status (Msg.alreadyExists 5) 500 ∈ steps) :=
  c6_duplicate_insert_no_op ⟨BT.node BT.nil 5 "node-0" BT.nil, 1⟩
    ⟨AVL.node AVL.nil 5 0 1 AVL.nil, 1⟩
    ⟨RBT.node RBT.nil 5 0 Color.black RBT.nil, 1⟩ 5
    (by simp [BT.inorderV]) (by simp [BT.inorderV])
    ⟨trivial, trivial, rfl⟩ ⟨trivial, trivial, by decide⟩
    (by simp [AVL.inorderV]) (by simp [AVL.inorderV])
    (by simp [RBT.inorderV]) (by simp [RBT.inorderV])

/-- C7: deleting a value not present leaves each engine's tree unchanged
(the same root object, hence the same nodes, links, colors and heights),
pushes a "not found" status step, and returns normally (for AVL and
Red-Black the call yields `some`, i.e. no exception escapes). -/
theorem c7_delete_absent_no_op (sb : BSTState) (sa : AVLState) (sr : RBState)
    (v : Int)
    (hvb : v ∉ sb.root.inorderV)
    (hok : AVLTree.Hok sa.root) (hbal : AVLTree.Bal sa.root)
    (ha : List.Sorted (· < ·) sa.root.inorderV) (hva : v ∉ sa.root.inorderV)
    (hvr : v ∉ sr.root.inorderV) :
    ((BST.delete sb v).1 = ⟨sb.root, sb.counter⟩ ∧
      Step.status (Msg.notFoundForDeletion v) 1000 ∈ (BST.delete sb v).2) ∧
    (∃ steps, AVLTree.delete sa v = some (⟨sa.root, sa.counter⟩, steps) ∧
      Step.status (Msg.valueNotFound v) 800 ∈ steps) ∧
    RedBlackTree.delete sr v = some (sr, [Step.status (Msg.deletingRB v) 500,
      Step.status (Msg.valueNotFound v) 800], []) := by
  refine ⟨⟨?_, ?_⟩, ?_, RedBlackTree.delete_absent_rb hvr⟩
  · show (⟨(BST.deleteNode sb.root v).1, sb.counter⟩ : BSTState) = _
    rw [BST.deleteNode_not_mem hvb]
  · show _ ∈ Step.status (Msg.deletingBST v) 500 ::
      (BST.deleteNode sb.root v).2 ++
      [Step.status (Msg.deletedSuccessfully v) 1000]
    rw [BST.deleteNode_not_mem hvb]
    simp
  · obtain ⟨steps, heq, hmem⟩ := AVLTree.deleteNode_absent hok hbal ha hva
    refine ⟨Step.status (Msg.deletingAVL v) 500 :: steps, ?_,
      List.mem_cons_of_mem _ hmem⟩
    simp only [AVLTree.delete]
    rw [heq]
    rfl

/-- Witness for C7 at singleton states that do not hold the value 7. -/
theorem c7_delete_absent_no_op_witness :
    ((BST.delete ⟨BT.node BT.nil 5 "node-0" BT.nil, 1⟩ 7).1 =
        ⟨(⟨BT.node BT.nil 5 "node-0" BT.nil, 1⟩ : BSTState).root,
          (⟨BT.node BT.nil 5 "node-0" BT.nil, 1⟩ : BSTState).counter⟩ ∧
      Step.status (Msg.notFoundForDeletion 7) 1000 ∈
        (BST.delete ⟨BT.node BT.nil 5 "node-0" BT.nil, 1⟩ 7).2) ∧
    (∃ steps, AVLTree.delete ⟨AVL.node AVL.nil 5 0 1 AVL.nil, 1⟩ 7 =
        some (⟨(⟨AVL.node AVL.nil 5 0 1 AVL.nil, 1⟩ : AVLState).root,
          (⟨AVL.node AVL.nil 5 0 1 AVL.nil, 1⟩ : AVLState).counter⟩, steps) ∧
      Step.status (Msg.valueNotFound 7) 800 ∈ steps) ∧
    RedBlackTree.delete ⟨RBT.node RBT.nil 5 0 Color.black RBT.nil, 1⟩ 7 =
      some (⟨RBT.node RBT.nil 5 0 Color.black RBT.nil, 1⟩,
        [Step.status (Msg.deletingRB 7) 500,
          Step.status (Msg.valueNotFound 7) 800], []) :=
  c7_delete_absent_no_op ⟨BT.node BT.nil 5 "node-0" BT.nil, 1⟩
    ⟨AVL.node AVL.nil 5 0 1 AVL.nil, 1⟩
    ⟨RBT.node RBT.nil 5 0 Color.black RBT.nil, 1⟩ 7
    (by simp [BT.inorderV]) ⟨trivial, trivial, rfl⟩
    ⟨trivial, trivial, by decide⟩ (by simp [AVL.inorderV])
    (by simp [AVL.inorderV]) (by simp [RBT.inorderV])

/-- C8: inserting 10, 30, 20 into an empty Red-Black tree (the RL shape,
fixed by a right rotation at the parent then a left rotation at the
grandparent) yields the black root 20 with red children 10 and 30. -/
theorem c8_rb_insert_10_30_20 :
    runRBFrom ⟨RBT.nil, 0⟩ [RBOp.ins 10, RBOp.ins 30, RBOp.ins 20] =
      some ⟨RBT.node (RBT.node RBT.nil 10 0 Color.red RBT.nil) 20 2
        Color.black (RBT.node RBT.nil 30 1 Color.red RBT.nil), 3⟩ := by
  rfl

/-- C9: the spec demands each recolor step's color payload equal the color
actually assigned at that point. The run insert 1..14, delete 7, delete 6
refutes this: during the second delete, `_fixDelete`'s terminal case runs
`sibling.color = node.parent.color; node.parent.color = BLACK` and only then
pushes the sibling's recolor step, reading `node.parent.color` again — by
then always BLACK. The ghost record of that push shows payload BLACK while
the color actually assigned to node 9 was RED. -/
theorem c9_recolor_step_payload_mismatch :
    ((runRBFrom ⟨RBT.nil, 0⟩ [RBOp.ins 1, RBOp.ins 2, RBOp.ins 3, RBOp.ins 4,
        RBOp.ins 5, RBOp.ins 6, RBOp.ins 7, RBOp.ins 8, RBOp.ins 9,
        RBOp.ins 10, RBOp.ins 11, RBOp.ins 12, RBOp.ins 13, RBOp.ins 14,
        RBOp.del 7]).bind
      (fun s => RedBlackTree.delete s 6)).map
      (fun r => r.2.2.filter (fun e => e.payload != e.actual)) =
    some [⟨9, Color.black, Color.red⟩] := by
  rfl

/-- C10: `delete` on the BST engine unconditionally appends a
`Deleted {v} successfully` status step, even when the value was absent — in
that case it follows the "not found for deletion" step in the same list. -/
theorem c10_bst_delete_reports_success (s : BSTState) (v : Int) :
    ∃ pre, (BST.delete s v).2 =
        pre ++ [Step.status (Msg.deletedSuccessfully v) 1000] ∧
      (v ∉ s.root.inorderV →
        Step.status (Msg.notFoundForDeletion v) 1000 ∈ pre) := by
  refine ⟨Step.status (Msg.deletingBST v) 500 :: (BST.deleteNode s.root v).2,
    rfl, ?_⟩
  intro hv
  rw [BST.deleteNode_not_mem hv]
  simp

end TreeAnim
